import Mathlib

/-!
Mailbox register window (v4) and Smart IO DMA controller.

A shallow embedding of two pieces of the emulator:

* `hw/misc/apple-silicon/a7iop/mailbox/regs-v4.c`: the register window that
  assembles 16-byte frames from slot writes and drains them on slot reads;
* `hw/dma/apple_sio.c`: the parameter store, the DMA endpoints and the
  request dispatcher of the Smart IO controller.

Conventions.  Bytes, words and addresses are natural numbers; a field whose C
type is visible in the sources is reduced modulo its width where it is stored.
A run that leaves the defined behaviour of the C program (an access outside an
array, a failed `assert`, a loop that has not finished within its fuel) is
`none`.  Logging has no effect on the state and is left out.
-/

/-! ## Byte-level helpers -/

/-- The first `size` bytes found at the address of a little-endian integer `data`. -/
def le_bytes (data size : Nat) : List Nat :=
  (List.range size).map fun k => data / 2 ^ (8 * k) % 256

/-- The little-endian integer stored in a run of bytes. -/
def le_value : List Nat → Nat
  | [] => 0
  | b :: bs => b + 256 * le_value bs

/-- The effect of `memcpy(dst + off, src, |src|)` on the array `dst`, byte by byte. -/
def memcpy (dst : List Nat) (off : Nat) (src : List Nat) : List Nat :=
  (List.range dst.length).map fun i =>
    if off ≤ i ∧ i < off + src.length then src.getD (i - off) 0 else dst.getD i 0

/-! ## Mailbox register window: `regs-v4.c` -/

def REG_INT_MASK_SET : Nat := 0x000
def REG_INT_MASK_CLR : Nat := 0x004
def REG_IOP_CTRL : Nat := 0x008
def REG_AP_CTRL : Nat := 0x00C
def REG_IOP_SEND0 : Nat := 0x700
def REG_IOP_SEND1 : Nat := 0x704
def REG_IOP_SEND2 : Nat := 0x708
def REG_IOP_SEND3 : Nat := 0x70C
def REG_IOP_RECV0 : Nat := 0x710
def REG_IOP_RECV1 : Nat := 0x714
def REG_IOP_RECV2 : Nat := 0x718
def REG_IOP_RECV3 : Nat := 0x71C
def REG_AP_SEND0 : Nat := 0x720
def REG_AP_SEND1 : Nat := 0x724
def REG_AP_SEND2 : Nat := 0x728
def REG_AP_SEND3 : Nat := 0x72C
def REG_AP_RECV0 : Nat := 0x730
def REG_AP_RECV1 : Nat := 0x734
def REG_AP_RECV2 : Nat := 0x738
def REG_AP_RECV3 : Nat := 0x73C

/-- Modelled from the spec: the size in bytes of a frame and of each staging
buffer (four 32-bit slots); the arrays are declared in the mailbox's private
header, which is not among the sources. -/
def FRAME_SIZE : Nat := 16

/-- A queued message: the bytes of `msg->data`. -/
structure AppleA7IOPMessage where
  data : List Nat
deriving DecidableEq, Repr

/-- The mailbox: mask and control registers, the four staging buffers and the
two direction-scoped queues. -/
structure AppleA7IOPMailbox where
  int_mask : Nat
  iop_ctrl : Nat
  ap_ctrl : Nat
  iop_send_reg : List Nat
  ap_send_reg : List Nat
  iop_recv_reg : List Nat
  ap_recv_reg : List Nat
  iop_queue : List AppleA7IOPMessage
  ap_queue : List AppleA7IOPMessage
deriving DecidableEq, Repr

/-- Modelled from the spec: `apple_a7iop_mailbox_send_iop` (mailbox core, not
among the sources).  Push is non-blocking, always succeeds, and keeps write
order: the message goes to the back of the IOP-bound queue. -/
def apple_a7iop_mailbox_send_iop (s : AppleA7IOPMailbox) (msg : AppleA7IOPMessage) :
    AppleA7IOPMailbox :=
  { s with iop_queue := s.iop_queue ++ [msg] }

/-- Modelled from the spec: `apple_a7iop_mailbox_send_ap` (mailbox core, not
among the sources): the message goes to the back of the AP-bound queue. -/
def apple_a7iop_mailbox_send_ap (s : AppleA7IOPMailbox) (msg : AppleA7IOPMessage) :
    AppleA7IOPMailbox :=
  { s with ap_queue := s.ap_queue ++ [msg] }

/-- Modelled from the spec: `apple_a7iop_mailbox_recv_iop` (mailbox core, not
among the sources).  Pop is non-blocking and returns the oldest message of the
IOP-bound queue, or nothing when the queue is empty. -/
def apple_a7iop_mailbox_recv_iop (s : AppleA7IOPMailbox) :
    Option AppleA7IOPMessage × AppleA7IOPMailbox :=
  match s.iop_queue with
  | [] => (none, s)
  | msg :: rest => (some msg, { s with iop_queue := rest })

/-- Modelled from the spec: `apple_a7iop_mailbox_recv_ap` (mailbox core, not
among the sources): the oldest message of the AP-bound queue, or nothing. -/
def apple_a7iop_mailbox_recv_ap (s : AppleA7IOPMailbox) :
    Option AppleA7IOPMessage × AppleA7IOPMailbox :=
  match s.ap_queue with
  | [] => (none, s)
  | msg :: rest => (some msg, { s with ap_queue := rest })

/-- Modelled from the spec: `apple_a7iop_mailbox_get_int_mask` (mailbox core,
not among the sources): the current 32-bit mask. -/
def apple_a7iop_mailbox_get_int_mask (s : AppleA7IOPMailbox) : Nat :=
  s.int_mask % 2 ^ 32

/-- Modelled from the spec: `apple_a7iop_mailbox_set_int_mask` (mailbox core,
not among the sources): write-1-to-set. -/
def apple_a7iop_mailbox_set_int_mask (s : AppleA7IOPMailbox) (value : Nat) :
    AppleA7IOPMailbox :=
  { s with int_mask := s.int_mask ||| value }

/-- Modelled from the spec: `apple_a7iop_mailbox_clear_int_mask` (mailbox core,
not among the sources): write-1-to-clear. -/
def apple_a7iop_mailbox_clear_int_mask (s : AppleA7IOPMailbox) (value : Nat) :
    AppleA7IOPMailbox :=
  { s with int_mask := s.int_mask &&& (value ^^^ (2 ^ 32 - 1)) }

/-- Modelled from the spec: `apple_a7iop_mailbox_get_iop_ctrl` (mailbox core,
not among the sources): the control register reads back as its current value. -/
def apple_a7iop_mailbox_get_iop_ctrl (s : AppleA7IOPMailbox) : Nat :=
  s.iop_ctrl % 2 ^ 32

/-- Modelled from the spec: `apple_a7iop_mailbox_set_iop_ctrl` (mailbox core,
not among the sources): the register takes the written value. -/
def apple_a7iop_mailbox_set_iop_ctrl (s : AppleA7IOPMailbox) (value : Nat) :
    AppleA7IOPMailbox :=
  { s with iop_ctrl := value }

/-- Modelled from the spec: `apple_a7iop_mailbox_get_ap_ctrl` (mailbox core,
not among the sources): the control register reads back as its current value. -/
def apple_a7iop_mailbox_get_ap_ctrl (s : AppleA7IOPMailbox) : Nat :=
  s.ap_ctrl % 2 ^ 32

/-- Modelled from the spec: `apple_a7iop_mailbox_set_ap_ctrl` (mailbox core,
not among the sources): the register takes the written value. -/
def apple_a7iop_mailbox_set_ap_ctrl (s : AppleA7IOPMailbox) (value : Nat) :
    AppleA7IOPMailbox :=
  { s with ap_ctrl := value }

/-- Embeds `apple_a7iop_mailbox_reg_write_v4`.  A slot write copies the low `size`
bytes of `data` into the staging buffer at `addr - SEND0`; when the write ends
at the end of the fourth slot, a message is built from the first 16 staged
bytes and handed to the queue of that direction.  The copy must stay inside
the 8-byte `data` and the staging buffer. -/
def apple_a7iop_mailbox_reg_write_v4 (s : AppleA7IOPMailbox) (addr data size : Nat) :
    Option AppleA7IOPMailbox :=
  if addr = REG_INT_MASK_SET then
    some (apple_a7iop_mailbox_set_int_mask s (data % 2 ^ 32))
  else if addr = REG_INT_MASK_CLR then
    some (apple_a7iop_mailbox_clear_int_mask s (data % 2 ^ 32))
  else if addr = REG_IOP_CTRL then
    some (apple_a7iop_mailbox_set_iop_ctrl s (data % 2 ^ 32))
  else if addr = REG_AP_CTRL then
    some (apple_a7iop_mailbox_set_ap_ctrl s (data % 2 ^ 32))
  else if addr = REG_IOP_SEND0 ∨ addr = REG_IOP_SEND1 ∨ addr = REG_IOP_SEND2
      ∨ addr = REG_IOP_SEND3 then
    if size ≤ 8 ∧ (addr - REG_IOP_SEND0) + size ≤ s.iop_send_reg.length then
      let s1 := { s with
        iop_send_reg := memcpy s.iop_send_reg (addr - REG_IOP_SEND0) (le_bytes data size) }
      if addr + size = REG_IOP_SEND3 + 4 then
        let msg : AppleA7IOPMessage := { data := s1.iop_send_reg.take FRAME_SIZE }
        some (apple_a7iop_mailbox_send_iop s1 msg)
      else
        some s1
    else
      none
  else if addr = REG_AP_SEND0 ∨ addr = REG_AP_SEND1 ∨ addr = REG_AP_SEND2
      ∨ addr = REG_AP_SEND3 then
    if size ≤ 8 ∧ (addr - REG_AP_SEND0) + size ≤ s.ap_send_reg.length then
      let s1 := { s with
        ap_send_reg := memcpy s.ap_send_reg (addr - REG_AP_SEND0) (le_bytes data size) }
      if addr + size = REG_AP_SEND3 + 4 then
        let msg : AppleA7IOPMessage := { data := s1.ap_send_reg.take FRAME_SIZE }
        some (apple_a7iop_mailbox_send_ap s1 msg)
      else
        some s1
    else
      none
  else
    some s

/-- The tail shared by the four receive slots of the IOP direction:
`memcpy(&ret, s->iop_recv_reg + (addr - REG_IOP_RECV0), size)`. -/
def iop_recv_tail (s : AppleA7IOPMailbox) (addr size : Nat) : Option (Nat × AppleA7IOPMailbox) :=
  if size ≤ 8 ∧ (addr - REG_IOP_RECV0) + size ≤ s.iop_recv_reg.length then
    some (le_value ((s.iop_recv_reg.drop (addr - REG_IOP_RECV0)).take size), s)
  else
    none

/-- The tail shared by the four receive slots of the AP direction:
`memcpy(&ret, s->ap_recv_reg + (addr - REG_AP_RECV0), size)`. -/
def ap_recv_tail (s : AppleA7IOPMailbox) (addr size : Nat) : Option (Nat × AppleA7IOPMailbox) :=
  if size ≤ 8 ∧ (addr - REG_AP_RECV0) + size ≤ s.ap_recv_reg.length then
    some (le_value ((s.ap_recv_reg.drop (addr - REG_AP_RECV0)).take size), s)
  else
    none

/-- Embeds `apple_a7iop_mailbox_reg_read_v4`: the value read and the state after the
read.  A read of the first receive slot pops the queue of its direction into
the receive staging buffer (or zero-fills the buffer when the queue is empty)
and then falls through to the copy shared with the other three slots. -/
def apple_a7iop_mailbox_reg_read_v4 (s : AppleA7IOPMailbox) (addr size : Nat) :
    Option (Nat × AppleA7IOPMailbox) :=
  if addr = REG_INT_MASK_SET then
    some (apple_a7iop_mailbox_get_int_mask s, s)
  else if addr = REG_INT_MASK_CLR then
    some (2 ^ 32 - 1 - apple_a7iop_mailbox_get_int_mask s, s)
  else if addr = REG_IOP_CTRL then
    some (apple_a7iop_mailbox_get_iop_ctrl s, s)
  else if addr = REG_AP_CTRL then
    some (apple_a7iop_mailbox_get_ap_ctrl s, s)
  else if addr = REG_IOP_RECV0 then
    match apple_a7iop_mailbox_recv_iop s with
    | (some msg, s1) =>
      iop_recv_tail { s1 with iop_recv_reg := memcpy s1.iop_recv_reg 0 (msg.data.take FRAME_SIZE) }
        addr size
    | (none, s1) =>
      iop_recv_tail { s1 with iop_recv_reg := List.replicate FRAME_SIZE 0 } addr size
  else if addr = REG_IOP_RECV1 ∨ addr = REG_IOP_RECV2 ∨ addr = REG_IOP_RECV3 then
    iop_recv_tail s addr size
  else if addr = REG_AP_RECV0 then
    match apple_a7iop_mailbox_recv_ap s with
    | (some msg, s1) =>
      ap_recv_tail { s1 with ap_recv_reg := memcpy s1.ap_recv_reg 0 (msg.data.take FRAME_SIZE) }
        addr size
    | (none, s1) =>
      ap_recv_tail { s1 with ap_recv_reg := List.replicate FRAME_SIZE 0 } addr size
  else if addr = REG_AP_RECV1 ∨ addr = REG_AP_RECV2 ∨ addr = REG_AP_RECV3 then
    ap_recv_tail s addr size
  else
    some (0, s)

/-- The staging buffers hold one frame each and every queued message is a
full frame. -/
def AppleA7IOPMailbox.wf (s : AppleA7IOPMailbox) : Prop :=
  s.iop_send_reg.length = FRAME_SIZE ∧ s.ap_send_reg.length = FRAME_SIZE ∧
  s.iop_recv_reg.length = FRAME_SIZE ∧ s.ap_recv_reg.length = FRAME_SIZE ∧
  (∀ m ∈ s.iop_queue, m.data.length = FRAME_SIZE) ∧
  (∀ m ∈ s.ap_queue, m.data.length = FRAME_SIZE)

instance (s : AppleA7IOPMailbox) : Decidable s.wf := by
  unfold AppleA7IOPMailbox.wf; infer_instance

/-- The mailbox after object creation: every field zero, both queues empty. -/
def mailbox_init : AppleA7IOPMailbox :=
  { int_mask := 0, iop_ctrl := 0, ap_ctrl := 0,
    iop_send_reg := List.replicate FRAME_SIZE 0, ap_send_reg := List.replicate FRAME_SIZE 0,
    iop_recv_reg := List.replicate FRAME_SIZE 0, ap_recv_reg := List.replicate FRAME_SIZE 0,
    iop_queue := [], ap_queue := [] }

/-- One register write: address, data, access size. -/
structure RegWrite where
  addr : Nat
  data : Nat
  size : Nat
deriving DecidableEq, Repr

/-- A sequence of register writes, applied in order. -/
def reg_writes : AppleA7IOPMailbox → List RegWrite → Option AppleA7IOPMailbox
  | s, [] => some s
  | s, w :: ws =>
    match apple_a7iop_mailbox_reg_write_v4 s w.addr w.data w.size with
    | some s1 => reg_writes s1 ws
    | none => none

/-- Spec side, following the spec's words "the bytes written (last writer
wins on overlapping writes to the same byte)": the byte that a sequence of
writes leaves at offset `i` of the frame starting at `base`, if any write
touched it. -/
def last_written (base : Nat) : List RegWrite → Nat → Option Nat
  | [], _ => none
  | w :: ws, i =>
    match last_written base ws i with
    | some b => some b
    | none =>
      if w.addr - base ≤ i ∧ i < w.addr - base + w.size then
        some (w.data / 2 ^ (8 * (i - (w.addr - base))) % 256)
      else none

/-- Spec side: the writes "fill all four words of the frame" starting at
`base`: every one of its 16 bytes is touched by some write. -/
def fills_frame (base : Nat) (ws : List RegWrite) : Prop :=
  ∀ i, i < FRAME_SIZE → ∃ w ∈ ws, w.addr - base ≤ i ∧ i < w.addr - base + w.size

/-- A write the register window accepts on one of the four send slots of the
frame at `base`: the copy stays inside the 8-byte datum and the frame. -/
def send_slot_write (base : Nat) (w : RegWrite) : Prop :=
  (w.addr = base ∨ w.addr = base + 4 ∨ w.addr = base + 8 ∨ w.addr = base + 12) ∧
  w.size ≤ 8 ∧ w.addr - base + w.size ≤ FRAME_SIZE

instance (base : Nat) (ws : List RegWrite) : Decidable (fills_frame base ws) := by
  unfold fills_frame; infer_instance

instance (base : Nat) (w : RegWrite) : Decidable (send_slot_write base w) := by
  unfold send_slot_write; infer_instance

/-- The staging bytes after a slot write at `addr`, for the frame starting at `base`. -/
def staged_after (reg : List Nat) (base addr data size : Nat) : List Nat :=
  memcpy reg (addr - base) (le_bytes data size)

/-- The queue fed by the send slots of the frame starting at `base`. -/
def queue_of_send (base : Nat) (s : AppleA7IOPMailbox) : List AppleA7IOPMessage :=
  if base = REG_IOP_SEND0 then s.iop_queue else s.ap_queue

/-- Four slot writes that touch the fourth slot first. -/
def writes_fourth_slot_first : List RegWrite :=
  [⟨REG_IOP_SEND3, 0x44444444, 4⟩, ⟨REG_IOP_SEND0, 0x11111111, 4⟩,
   ⟨REG_IOP_SEND1, 0x22222222, 4⟩, ⟨REG_IOP_SEND2, 0x33333333, 4⟩]

/-- Five slot writes that touch the fourth slot twice. -/
def writes_fourth_slot_twice : List RegWrite :=
  [⟨REG_IOP_SEND0, 0x11111111, 4⟩, ⟨REG_IOP_SEND3, 0x44444444, 4⟩,
   ⟨REG_IOP_SEND1, 0x22222222, 4⟩, ⟨REG_IOP_SEND2, 0x33333333, 4⟩,
   ⟨REG_IOP_SEND3, 0x55555555, 4⟩]

/-- Four slot writes in slot order. -/
def writes_in_order : List RegWrite :=
  [⟨REG_IOP_SEND0, 0x11111111, 4⟩, ⟨REG_IOP_SEND1, 0x22222222, 4⟩,
   ⟨REG_IOP_SEND2, 0x33333333, 4⟩]

/-- A mailbox whose IOP-bound queue holds two messages. -/
def mailbox_two_queued : AppleA7IOPMailbox :=
  { mailbox_init with
    iop_queue := [⟨[1, 2, 3, 4, 5, 6, 7, 8, 9, 10, 11, 12, 13, 14, 15, 16]⟩,
      ⟨[17, 18, 19, 20, 21, 22, 23, 24, 25, 26, 27, 28, 29, 30, 31, 32]⟩] }

/-! ## Smart IO DMA controller: `apple_sio.c` -/

/-! The opcodes (`sio_op`), the control endpoint ids (`sio_endpoint`) and the
parameter ids used by the handlers (`sio_param_id`). -/

def OP_GET_PARAM : Nat := 2
def OP_GET_PARAM_RETURN : Nat := 103
def OP_CONFIG_SHIM : Nat := 5
def OP_SET_PARAM : Nat := 3
def OP_ERROR : Nat := 2
def OP_SET_PARAM_ERROR : Nat := 3
def OP_START_DMA : Nat := 6
def OP_QUERY_DMA : Nat := 7
def OP_STOP_DMA : Nat := 8
def OP_ACK : Nat := 101
def OP_ASYNC_ERROR : Nat := 102
def OP_DMA_COMPLETE : Nat := 104
def OP_QUERY_DMA_OK : Nat := 105

def EP_CONTROL : Nat := 0
def EP_PERF : Nat := 3

def PARAM_PROTOCOL : Nat := 0
def PARAM_DMA_SEGMENT_BASE : Nat := 1

/-- The fields of `sio_msg`: three bytes of header, a sub-parameter byte and a
32-bit payload, overlaid on a 64-bit word. -/
structure sio_msg where
  ep : Nat
  tag : Nat
  op : Nat
  param : Nat
  data : Nat
deriving DecidableEq, Repr

/-- The 64-bit word `m.raw` of the union: byte 0 `ep`, byte 1 `tag`, byte 2
`op`, byte 3 `param`, bytes 4 to 7 `data`, little-endian. -/
def sio_msg.raw (m : sio_msg) : Nat :=
  m.ep % 256 + m.tag % 256 * 256 + m.op % 256 * 65536 + m.param % 256 * 16777216 +
    m.data % 4294967296 * 4294967296

/-- The fields read back from a 64-bit word stored through `m.raw = msg`. -/
def sio_msg.of_raw (msg : Nat) : sio_msg :=
  { ep := msg % 256, tag := msg / 256 % 256, op := msg / 65536 % 256,
    param := msg / 16777216 % 256, data := msg / 4294967296 % 4294967296 }

inductive DMADirection where
  | DMA_DIRECTION_TO_DEVICE
  | DMA_DIRECTION_FROM_DEVICE
deriving DecidableEq, Repr

/-- One entry of a `QEMUSGList`. -/
structure ScatterGatherEntry where
  base : Nat
  len : Nat
deriving DecidableEq, Repr

/-- One element of a `QEMUIOVector`: a mapped buffer, named by its host
address, and its length. -/
structure iovec where
  iov_base : Nat
  iov_len : Nat
deriving DecidableEq, Repr

/-- One guest-supplied segment. -/
structure sio_dma_segment where
  addr : Nat
  len : Nat
deriving DecidableEq, Repr

/-- Modelled from the spec: the size of a packed segment record in guest memory
("64-bit base + 64-bit length, packed"); the record is declared in the
controller's header, which is not among the sources. -/
def SEGMENT_SIZE : Nat := 16

/-- Modelled from the spec: the `count` segment records found in a run of bytes,
each a little-endian 64-bit base followed by a little-endian 64-bit length. -/
def decode_segments (count : Nat) (bytes : List Nat) : List sio_dma_segment :=
  (List.range count).map fun i =>
    { addr := le_value ((bytes.drop (SEGMENT_SIZE * i)).take 8),
      len := le_value ((bytes.drop (SEGMENT_SIZE * i + 8)).take 8) }

/-- A DMA endpoint.  The fields hold natural numbers; the header that declares
their widths is not among the sources.  Where the source moves a value through
a C `int` (the counts of the transfer functions, the lengths of the unmap
loop) or adds to the cursor, the functions below reduce it to that width. -/
structure AppleSIODMAEndpoint where
  config : List Nat
  dir : DMADirection
  sgl : List ScatterGatherEntry
  iov : List iovec
  segments : Option (List sio_dma_segment)
  count : Nat
  actual_length : Nat
  id : Nat
  tag : Nat
  mapped : Bool
deriving DecidableEq, Repr

/-- The controller: its endpoints (`SIO_NUM_EPS` of them), the parameter
table, and two records of what it has handed to its collaborators: the raw
messages given to the transport for the host, and the buffers given back to
the memory system with the length accessed in each. -/
structure AppleSIOState where
  eps : List AppleSIODMAEndpoint
  params : List Nat
  outbox : List Nat
  unmapped : List (iovec × Nat)
deriving DecidableEq, Repr

/-- The number of endpoints: the bound of the `eps` array, a constant of the
controller's header taken here from the state. -/
def SIO_NUM_EPS (s : AppleSIOState) : Nat := s.eps.length

/-- The guest address space as the device sees it, taken as a parameter.
`dma_memory_read addr len` is the `len` bytes read, or nothing when the read
does not return `MEMTX_OK` (the destination is then taken to be left as it
was).  `dma_memory_map k base len dir` answers the `k`-th mapping call of one
mapping pass: nothing for a null pointer, else the host address of the buffer
and the length actually mapped. -/
structure AddressSpace where
  dma_memory_read : Nat → Nat → Option (List Nat)
  dma_memory_map : Nat → Nat → Nat → DMADirection → Option (Nat × Nat)

/-- Modelled from the spec: `apple_rtkit_send_user_msg` (RTKit transport, not
among the sources): the raw message is pushed onto the host-bound queue. -/
def apple_rtkit_send_user_msg (s : AppleSIOState) (_ep : Nat) (raw : Nat) : AppleSIOState :=
  { s with outbox := s.outbox ++ [raw] }

/-- The `size` field of a `QEMUIOVector`: the sum of the element lengths. -/
def iov_size : List iovec → Nat
  | [] => 0
  | v :: vs => v.iov_len + iov_size vs

/-- The host addresses of the bytes of a scatter-gather region, in list order. -/
def iov_addresses : List iovec → List Nat
  | [] => []
  | v :: vs => (List.range v.iov_len).map (fun k => v.iov_base + k) ++ iov_addresses vs

/-- Modelled from the spec: `qemu_iovec_to_buf` (I/O vector helpers, not among
the sources) "copies up to `len` bytes from the mapped scatter-gather region
starting at the current cursor into `buffer`".  The result is the bytes
copied; their number is the return value. -/
def qemu_iovec_to_buf (host : Nat → Nat) (iov : List iovec) (offset bytes : Nat) : List Nat :=
  (((iov_addresses iov).drop offset).take bytes).map host

/-- Modelled from the spec: `qemu_iovec_from_buf` (I/O vector helpers, not
among the sources), the symmetric copy from `buffer` into the region.  The
result is the list of stores made, host address and byte; their number is the
return value. -/
def qemu_iovec_from_buf (iov : List iovec) (offset : Nat) (buffer : List Nat) (bytes : Nat) :
    List (Nat × Nat) :=
  (((iov_addresses iov).drop offset).take bytes).enum.map fun p => (p.2, buffer.getD p.1 0)

/-- The inner loop of `apple_sio_map_dma` for one segment: map what is left of
the range `base, len` until nothing is left.  A null mapping retries the same
range; a mapping of `xlen` bytes (clamped to `len`) adds a buffer and advances.
`k` counts the mapping calls made so far. -/
def map_range (as : AddressSpace) (dir : DMADirection) :
    Nat → Nat → Nat → Nat → List iovec → Option (Nat × List iovec)
  | 0, k, _, len, iov => if len = 0 then some (k, iov) else none
  | fuel + 1, k, base, len, iov =>
    if len = 0 then some (k, iov)
    else
      match as.dma_memory_map k base len dir with
      | none => map_range as dir fuel (k + 1) base len iov
      | some (mem, xlen) =>
        let xlen1 := if xlen > len then len else xlen
        map_range as dir fuel (k + 1) ((base + xlen1) % 2 ^ 64) (len - xlen1)
          (iov ++ [{ iov_base := mem, iov_len := xlen1 }])

/-- The outer loop of `apple_sio_map_dma` over the scatter-gather entries. -/
def map_entries (as : AddressSpace) (dir : DMADirection) (fuel : Nat) :
    List ScatterGatherEntry → Nat → List iovec → Option (Nat × List iovec)
  | [], k, iov => some (k, iov)
  | g :: gs, k, iov =>
    match map_range as dir fuel k g.base g.len iov with
    | none => none
    | some (k1, iov1) => map_entries as dir fuel gs k1 iov1

/-- Embeds `apple_sio_map_dma`: nothing on a mapped endpoint; otherwise the first
`count` scatter-gather entries are mapped into a fresh I/O vector, the
endpoint becomes mapped and its cursor is zeroed.  `fuel` bounds the mapping
calls spent on one entry. -/
def apple_sio_map_dma (as : AddressSpace) (fuel : Nat) (ep : AppleSIODMAEndpoint) :
    Option AppleSIODMAEndpoint :=
  if ep.mapped then some ep
  else if ep.sgl.length < ep.count then none
  else
    match map_entries as ep.dir fuel (ep.sgl.take ep.count) 0 [] with
    | none => none
    | some (_, iov) => some { ep with iov := iov, mapped := true, actual_length := 0 }

/-- The value of a C `int` to which an integer is converted: the integer
congruent to it modulo 2^32 in the range from -2^31 to 2^31 - 1, that is,
`(n + 2^31) % 2^32 - 2^31`.  It is given by cases on the sign so that it
computes on the natural number inside. -/
def to_int : Int → Int
  | Int.ofNat n =>
    if n % 4294967296 < 2147483648 then Int.ofNat (n % 4294967296)
    else Int.negSucc (4294967295 - n % 4294967296)
  | Int.negSucc n =>
    if n % 4294967296 < 2147483648 then Int.negSucc (n % 4294967296)
    else Int.ofNat (4294967295 - n % 4294967296)

/-- The `access_len` of one round of the loop of `apple_sio_unmap_dma`: the
buffer length as an `int`, replaced by `unmap_length` when it is greater. -/
def unmap_access_len (v : iovec) (unmap_length : Int) : Int :=
  if to_int v.iov_len > unmap_length then unmap_length else to_int v.iov_len

/-- The loop of `apple_sio_unmap_dma`, `unmap_length` being a C `int`: each
buffer is handed to `dma_memory_unmap` with its access length, which that
function receives as a 64-bit `dma_addr_t`, and `unmap_length` goes down by the
access length (an `int` difference, reduced to the width of an `int`). -/
def unmap_loop : List iovec → Int → List (iovec × Nat)
  | [], _ => []
  | v :: vs, unmap_length =>
    (v, (unmap_access_len v unmap_length % 18446744073709551616).toNat) ::
      unmap_loop vs (to_int (unmap_length - unmap_access_len v unmap_length))

/-- The calls of `dma_memory_unmap` made by `apple_sio_unmap_dma` on an I/O
vector: the loop started with `int unmap_length = ep->actual_length`. -/
def unmap_calls (iov : List iovec) (cursor : Nat) : List (iovec × Nat) :=
  unmap_loop iov (to_int cursor)

/-- The endpoint as `apple_sio_unmap_dma` leaves it. -/
def unmapped_endpoint (ep : AppleSIODMAEndpoint) : AppleSIODMAEndpoint :=
  { ep with mapped := false, iov := [], count := 0, actual_length := 0, tag := 0,
            segments := none, sgl := [] }

/-- Embeds `apple_sio_unmap_dma` on the endpoint `ep` stored at index `i`. -/
def apple_sio_unmap_dma (s : AppleSIOState) (i : Nat) (ep : AppleSIODMAEndpoint) :
    AppleSIOState :=
  { s with eps := s.eps.set i (unmapped_endpoint ep),
           unmapped := s.unmapped ++ unmap_calls ep.iov ep.actual_length }

/-- Embeds `apple_sio_dma_writeback` on the endpoint `ep` stored at index `i`: the
completion message is built from the endpoint, the endpoint is unmapped, the
message is sent. -/
def apple_sio_dma_writeback (s : AppleSIOState) (i : Nat) (ep : AppleSIODMAEndpoint) :
    AppleSIOState :=
  let m : sio_msg :=
    { op := OP_DMA_COMPLETE, ep := ep.id % 256, param := 128, tag := ep.tag % 256,
      data := ep.actual_length % 4294967296 }
  apple_rtkit_send_user_msg (apple_sio_unmap_dma s i ep) 0 m.raw

/-- Modelled from the spec: the width of the cursor field `actual_length`,
which the controller's header (not among the sources) declares.  The spec
reports the cursor whole as the 32-bit payload of QUERY_DMA_OK and
DMA_COMPLETE, so the field is an unsigned 32-bit integer, and
`ep->actual_length += xlen` with the `int xlen` is an addition modulo 2^32. -/
def cursor_add (cursor : Nat) (xlen : Int) : Nat :=
  (((cursor : Int) + xlen) % 4294967296).toNat

/-- The tail shared by `apple_sio_dma_read` and `apple_sio_dma_write`: the
`int xlen` is added to the cursor and, once the cursor has reached the size of
the I/O vector, the completion is written back.  The controller is recovered
from the endpoint through the endpoint's own `id`, so the writeback needs `id`
to be the endpoint's index. -/
def dma_advance (s : AppleSIOState) (i : Nat) (ep : AppleSIODMAEndpoint) (xlen : Int) :
    Option AppleSIOState :=
  if cursor_add ep.actual_length xlen ≥ iov_size ep.iov then
    if ep.id = i then
      some (apple_sio_dma_writeback s i
        { ep with actual_length := cursor_add ep.actual_length xlen })
    else none
  else
    some { s with
      eps := s.eps.set i { ep with actual_length := cursor_add ep.actual_length xlen } }

/-- Embeds `apple_sio_dma_read` on the endpoint at index `i`: the `int` returned, the
bytes placed in the caller's buffer, and the state after the call.  The number
of bytes copied is converted to the `int xlen`, which is what is added to the
cursor and returned. -/
def apple_sio_dma_read (host : Nat → Nat) (s : AppleSIOState) (i len : Nat) :
    Option (Int × List Nat × AppleSIOState) :=
  match s.eps[i]? with
  | none => none
  | some ep =>
    if ep.mapped = false then some (0, [], s)
    else if ep.dir ≠ DMADirection.DMA_DIRECTION_TO_DEVICE then none
    else
      (dma_advance s i ep
          (to_int (qemu_iovec_to_buf host ep.iov ep.actual_length len).length)).map
        fun s1 =>
          (to_int (qemu_iovec_to_buf host ep.iov ep.actual_length len).length,
            qemu_iovec_to_buf host ep.iov ep.actual_length len, s1)

/-- Embeds `apple_sio_dma_write` on the endpoint at index `i`: the `int` returned, the
stores made into the mapped buffers, and the state after the call.  The number
of bytes copied is converted to the `int xlen`, which is what is added to the
cursor and returned. -/
def apple_sio_dma_write (s : AppleSIOState) (i : Nat) (buffer : List Nat) (len : Nat) :
    Option (Int × List (Nat × Nat) × AppleSIOState) :=
  match s.eps[i]? with
  | none => none
  | some ep =>
    if ep.mapped = false then some (0, [], s)
    else if ep.dir ≠ DMADirection.DMA_DIRECTION_FROM_DEVICE then none
    else
      (dma_advance s i ep
          (to_int (qemu_iovec_from_buf ep.iov ep.actual_length buffer len).length)).map
        fun s1 =>
          (to_int (qemu_iovec_from_buf ep.iov ep.actual_length buffer len).length,
            qemu_iovec_from_buf ep.iov ep.actual_length buffer len, s1)

/-- Embeds `apple_sio_dma_remaining`: the size of the I/O vector minus the cursor,
returned as a C `int`. -/
def apple_sio_dma_remaining (ep : AppleSIODMAEndpoint) : Int :=
  to_int ((iov_size ep.iov : Int) - (ep.actual_length : Int))

/-- Embeds `apple_sio_control`: the parameter sub-protocol.  The table holds 32-bit
entries; an index outside the table leaves the defined behaviour. -/
def apple_sio_control (s : AppleSIOState) (m : sio_msg) : Option AppleSIOState :=
  let reply : sio_msg := { ep := m.ep, tag := m.tag, op := 0, param := 0, data := 0 }
  if m.op = OP_GET_PARAM then
    match s.params[m.param]? with
    | none => none
    | some v =>
      some (apple_rtkit_send_user_msg s 0
        { reply with data := v % 4294967296, op := OP_GET_PARAM_RETURN }.raw)
  else if m.op = OP_SET_PARAM then
    if m.param < s.params.length then
      some (apple_rtkit_send_user_msg
        { s with params := s.params.set m.param (m.data % 4294967296) } 0
        { reply with op := OP_ACK }.raw)
    else none
  else
    some (apple_rtkit_send_user_msg s 0 reply.raw)

/-- The guest address `(params[PARAM_DMA_SEGMENT_BASE] << 12) + data * 12`,
computed on 32-bit unsigned values. -/
def sio_handle_addr (base_param data : Nat) : Nat :=
  (base_param * 4096 % 4294967296 + data * 12 % 4294967296) % 4294967296

/-- The segment array of START_DMA: `g_new0` zeroes it and a `dma_memory_read`
whose result is not looked at fills it. -/
def fetch_segments (as : AddressSpace) (seg_addr segment_count : Nat) : List sio_dma_segment :=
  match as.dma_memory_read seg_addr (segment_count * SEGMENT_SIZE) with
  | none => List.replicate segment_count { addr := 0, len := 0 }
  | some bytes => decode_segments segment_count bytes

/-- The START_DMA case of `apple_sio_dma` once the segment count has been
read: the endpoint records the tag and the count, the segment array is
fetched and turned into the scatter-gather list, the list is mapped, and the
request is acknowledged. -/
def start_dma_segments (as : AddressSpace) (fuel : Nat) (s : AppleSIOState) (i : Nat)
    (ep : AppleSIODMAEndpoint) (m : sio_msg) (handle_addr segment_count : Nat) :
    Option AppleSIOState :=
  let seg_addr := handle_addr + 0x48
  let segments := fetch_segments as seg_addr segment_count
  let ep1 := { ep with
    tag := m.tag, count := segment_count,
    segments := if segment_count = 0 then none else some segments,
    sgl := segments.map fun g => { base := g.addr, len := g.len } }
  (apple_sio_map_dma as fuel ep1).map fun ep2 =>
    apple_rtkit_send_user_msg { s with eps := s.eps.set i ep2 } 0
      ({ ep := m.ep, tag := m.tag, op := OP_ACK, param := 0, data := 0 } : sio_msg).raw

/-- The START_DMA case of `apple_sio_dma`, `handle_addr` computed: a mapped
endpoint is answered by ERROR; otherwise the segment count is read at
`handle_addr + 0x3C`, and a failed read ends the handler without a reply. -/
def start_dma (as : AddressSpace) (fuel : Nat) (s : AppleSIOState) (i : Nat)
    (ep : AppleSIODMAEndpoint) (m : sio_msg) (handle_addr : Nat) : Option AppleSIOState :=
  if ep.mapped then
    some (apple_rtkit_send_user_msg s 0
      ({ ep := m.ep, tag := m.tag, op := OP_ERROR, param := 0, data := 0 } : sio_msg).raw)
  else
    match as.dma_memory_read (handle_addr + 0x3C) 4 with
    | none => some s
    | some count_bytes =>
      start_dma_segments as fuel s i ep m handle_addr (le_value (count_bytes.take 4) % 4294967296)

/-- Embeds `apple_sio_dma` on the endpoint at index `i`: the DMA sub-protocol. -/
def apple_sio_dma (as : AddressSpace) (fuel : Nat) (s : AppleSIOState) (i : Nat) (m : sio_msg) :
    Option AppleSIOState :=
  match s.eps[i]? with
  | none => none
  | some ep =>
    let reply : sio_msg := { ep := m.ep, tag := m.tag, op := 0, param := 0, data := 0 }
    if m.op = OP_CONFIG_SHIM then
      match s.params[PARAM_DMA_SEGMENT_BASE]? with
      | none => none
      | some p =>
        match as.dma_memory_read (sio_handle_addr p m.data) ep.config.length with
        | none => some s
        | some bytes =>
          some (apple_rtkit_send_user_msg
            { s with eps := s.eps.set i { ep with config := bytes } } 0
            { reply with op := OP_ACK }.raw)
    else if m.op = OP_START_DMA then
      match s.params[PARAM_DMA_SEGMENT_BASE]? with
      | none => none
      | some p => start_dma as fuel s i ep m (sio_handle_addr p m.data)
    else if m.op = OP_QUERY_DMA then
      if ep.mapped = false then
        some (apple_rtkit_send_user_msg s 0 { reply with op := OP_ERROR }.raw)
      else
        some (apple_rtkit_send_user_msg s 0
          { reply with op := OP_QUERY_DMA_OK, data := ep.actual_length % 4294967296 }.raw)
    else if m.op = OP_STOP_DMA then
      if ep.mapped = false then
        some (apple_rtkit_send_user_msg s 0 { reply with op := OP_ERROR }.raw)
      else
        some (apple_rtkit_send_user_msg (apple_sio_unmap_dma s i ep) 0
          { reply with op := OP_ACK }.raw)
    else
      some (apple_rtkit_send_user_msg s 0 { reply with op := OP_ERROR }.raw)

/-- Embeds `apple_sio_handle_endpoint`: a raw request is decoded and routed by its
endpoint byte: the two control ids to the parameter sub-protocol, an id beyond
the endpoint array to nothing, any other id to the DMA sub-protocol. -/
def apple_sio_handle_endpoint (as : AddressSpace) (fuel : Nat) (s : AppleSIOState)
    (msg : Nat) : Option AppleSIOState :=
  let m := sio_msg.of_raw msg
  if m.ep = EP_CONTROL ∨ m.ep = EP_PERF then apple_sio_control s m
  else if m.ep ≥ SIO_NUM_EPS s then some s
  else apple_sio_dma as fuel s m.ep m

/-- An endpoint of a freshly created controller: every field zero. -/
def endpoint_zero (config_size : Nat) : AppleSIODMAEndpoint :=
  { config := List.replicate config_size 0, dir := DMADirection.DMA_DIRECTION_TO_DEVICE,
    sgl := [], iov := [], segments := none, count := 0, actual_length := 0, id := 0, tag := 0,
    mapped := false }

/-- A freshly created controller with `num_eps` endpoints and a table of
`num_params` entries: every field zero. -/
def sio_zero (num_eps num_params config_size : Nat) : AppleSIOState :=
  { eps := List.replicate num_eps (endpoint_zero config_size),
    params := List.replicate num_params 0, outbox := [], unmapped := [] }

/-- The loop of `apple_sio_realize`: endpoint `i` gets id `i` and a direction
by the parity of `i`. -/
def apple_sio_realize (s : AppleSIOState) : AppleSIOState :=
  { s with eps := s.eps.enum.map fun p =>
      { p.2 with id := p.1,
                 dir := if p.1 % 2 = 1 then DMADirection.DMA_DIRECTION_FROM_DEVICE
                        else DMADirection.DMA_DIRECTION_TO_DEVICE } }

/-- One round of the loop of `apple_sio_reset_hold`, for endpoint `i`. -/
def reset_endpoint (s : AppleSIOState) (i : Nat) : AppleSIOState :=
  match s.eps[i]? with
  | none => s
  | some ep =>
    let s1 := if ep.mapped then apple_sio_unmap_dma s i ep else s
    match s1.eps[i]? with
    | none => s1
    | some ep1 =>
      { s1 with eps := s1.eps.set i { ep1 with config := List.replicate ep1.config.length 0 } }

/-- Embeds `apple_sio_reset_hold`: the protocol parameter is set to 9, every mapped
endpoint is unmapped and every config blob is zeroed. -/
def apple_sio_reset_hold (s : AppleSIOState) : Option AppleSIOState :=
  if PARAM_PROTOCOL < s.params.length then
    some ((List.range (SIO_NUM_EPS s)).foldl reset_endpoint
      { s with params := s.params.set PARAM_PROTOCOL 9 })
  else none

/-- What can happen to the controller: a request from the mailbox, or a read
or write call from a collaborator. -/
inductive SIOEvent where
  | request (as : AddressSpace) (fuel : Nat) (msg : Nat)
  | read (host : Nat → Nat) (i : Nat) (len : Nat)
  | write (i : Nat) (buffer : List Nat) (len : Nat)

/-- The state after one event. -/
def sio_step (s : AppleSIOState) : SIOEvent → Option AppleSIOState
  | SIOEvent.request as fuel msg => apple_sio_handle_endpoint as fuel s msg
  | SIOEvent.read host i len => (apple_sio_dma_read host s i len).map fun r => r.2.2
  | SIOEvent.write i buffer len => (apple_sio_dma_write s i buffer len).map fun r => r.2.2

/-- The state after a sequence of events. -/
def sio_run : AppleSIOState → List SIOEvent → Option AppleSIOState
  | s, [] => some s
  | s, e :: es =>
    match sio_step s e with
    | none => none
    | some s1 => sio_run s1 es

/-- An address space in which every read fails and every mapping is null. -/
def address_space_none : AddressSpace :=
  { dma_memory_read := fun _ _ => none, dma_memory_map := fun _ _ _ _ => none }

/-- The state after creation, realize and the first reset of a controller
with `num_eps` endpoints, `num_params` parameters and config blobs of
`config_size` bytes. -/
def sio_reset_state (num_eps num_params config_size : Nat) : Option AppleSIOState :=
  apple_sio_reset_hold (apple_sio_realize (sio_zero num_eps num_params config_size))

/-- The event is a SET_PARAM request on a control endpoint that writes parameter `id`. -/
def writes_param (id : Nat) : SIOEvent → Prop
  | SIOEvent.request _ _ msg =>
    ((sio_msg.of_raw msg).ep = EP_CONTROL ∨ (sio_msg.of_raw msg).ep = EP_PERF) ∧
      (sio_msg.of_raw msg).op = OP_SET_PARAM ∧ (sio_msg.of_raw msg).param = id
  | SIOEvent.read _ _ _ => False
  | SIOEvent.write _ _ _ => False

instance (id : Nat) (e : SIOEvent) : Decidable (writes_param id e) := by
  cases e <;> unfold writes_param <;> infer_instance

/-- The reset state of a controller with 4 endpoints and 40 parameters. -/
def sio_reset_example : AppleSIOState :=
  (sio_reset_state 4 40 28).getD (sio_zero 0 0 0)

/-- A SET_PARAM(5, 7) request on the control endpoint. -/
def set_param_5_event : SIOEvent :=
  SIOEvent.request address_space_none 0
    ({ ep := 0, tag := 1, op := OP_SET_PARAM, param := 5, data := 7 } : sio_msg).raw

/-- A mapped endpoint with id `id`, direction `dir`, reply tag 5, cursor
`cursor`, and two mapped buffers of 0x10 and 0x20 bytes. -/
def mapped_endpoint_example (id : Nat) (dir : DMADirection) (cursor : Nat) :
    AppleSIODMAEndpoint :=
  { config := List.replicate 28 0, dir := dir,
    sgl := [⟨0x1000, 0x10⟩, ⟨0x2000, 0x20⟩],
    iov := [⟨0x1000, 0x10⟩, ⟨0x2000, 0x20⟩],
    segments := some [⟨0x1000, 0x10⟩, ⟨0x2000, 0x20⟩],
    count := 2, actual_length := cursor, id := id, tag := 5, mapped := true }

/-- The reset state of the 4-endpoint controller in which endpoint 1 (from
device) and endpoint 2 (to device) have since been mapped; endpoint 2 has
moved 0x10 bytes. -/
def sio_mapped_example : AppleSIOState :=
  { sio_reset_example with
    eps := (sio_reset_example.eps.set 1
      (mapped_endpoint_example 1 DMADirection.DMA_DIRECTION_FROM_DEVICE 0)).set 2
      (mapped_endpoint_example 2 DMADirection.DMA_DIRECTION_TO_DEVICE 0x10) }

/-- A call made by a collaborator on an endpoint: `apple_sio_dma_read` into a
buffer of `len` bytes, or `apple_sio_dma_write` of `len` bytes from `buffer`. -/
inductive DMACall where
  | read (host : Nat → Nat) (len : Nat)
  | write (buffer : List Nat) (len : Nat)

/-- The direction an endpoint must have for the call: reads are for
to-device endpoints, writes for from-device endpoints. -/
def DMACall.dir : DMACall → DMADirection
  | DMACall.read _ _ => DMADirection.DMA_DIRECTION_TO_DEVICE
  | DMACall.write _ _ => DMADirection.DMA_DIRECTION_FROM_DEVICE

/-- The length argument of a call. -/
def DMACall.len : DMACall → Nat
  | DMACall.read _ len => len
  | DMACall.write _ len => len

/-- The call on the endpoint at index `i`: the count returned and the state
after the call. -/
def dma_call (s : AppleSIOState) (i : Nat) : DMACall → Option (Int × AppleSIOState)
  | DMACall.read host len => (apple_sio_dma_read host s i len).map fun r => (r.1, r.2.2)
  | DMACall.write buffer len => (apple_sio_dma_write s i buffer len).map fun r => (r.1, r.2.2)

/-- A sequence of calls on the endpoint at index `i`, in order: the counts
returned and the state after the last call. -/
def dma_calls : AppleSIOState → Nat → List DMACall → Option (List Int × AppleSIOState)
  | s, _, [] => some ([], s)
  | s, i, c :: cs =>
    match dma_call s i c with
    | none => none
    | some (x, s1) => (dma_calls s1 i cs).map fun r => (x :: r.1, r.2)

/-- The completion message of an endpoint whose transfer of `total` bytes is done. -/
def dma_complete_msg (ep : AppleSIODMAEndpoint) (total : Nat) : sio_msg :=
  { ep := ep.id % 256, tag := ep.tag % 256, op := OP_DMA_COMPLETE, param := 128, data := total }

/-- Two read calls, of 8 and of 0x100 bytes, from a host memory whose byte at
address `a` is `a % 256`. -/
def two_reads_example : List DMACall :=
  [DMACall.read (fun a => a % 256) 8, DMACall.read (fun a => a % 256) 0x100]

/-- The example state after the two reads on endpoint 2. -/
def sio_reads_done_example : AppleSIOState :=
  ((dma_calls sio_mapped_example 2 two_reads_example).map Prod.snd).getD sio_mapped_example

/-- Every mapping call on a non-empty range returns a buffer of positive length. -/
def mappings_succeed (as : AddressSpace) (dir : DMADirection) : Prop :=
  ∀ k base len, 0 < len → ∃ mem xlen, as.dma_memory_map k base len dir = some (mem, xlen) ∧ 0 < xlen

/-- The total length of a segment list. -/
def segments_length (segs : List sio_dma_segment) : Nat :=
  (segs.map fun g => g.len).sum

/-- A guest address space holding, for a handle at address 0, a segment count
of 2 and the segments (0x1000, 0x10) and (0x2000, 0x20), and in which every
range maps in one piece onto a buffer at its own address. -/
def address_space_two_segments : AddressSpace :=
  { dma_memory_read := fun addr len =>
      if addr = 0x3C ∧ len = 4 then some [2, 0, 0, 0]
      else if addr = 0x48 ∧ len = 32 then
        some (le_bytes 0x1000 8 ++ le_bytes 0x10 8 ++ le_bytes 0x2000 8 ++ le_bytes 0x20 8)
      else none,
    dma_memory_map := fun _ base len _ => some (base, len) }

/-- A START_DMA request with tag 9 for endpoint 1, handle index 0. -/
def start_dma_request_example : Nat :=
  ({ ep := 1, tag := 9, op := OP_START_DMA, param := 0, data := 0 } : sio_msg).raw

/-- The reset state after the START_DMA request of the example, handled
against the two-segment address space. -/
def sio_started_example : AppleSIOState :=
  (apple_sio_handle_endpoint address_space_two_segments 0x30 sio_reset_example
    start_dma_request_example).getD sio_reset_example

/-- One write call of 0x30 bytes. -/
def one_write_example : List DMACall :=
  [DMACall.write (List.replicate 0x30 0xAA) 0x30]

/-- The started example state after the write of 0x30 bytes on endpoint 1. -/
def sio_written_example : AppleSIOState :=
  ((dma_calls sio_started_example 1 one_write_example).map Prod.snd).getD sio_started_example

/-- What a single event can do to the record of an endpoint: store a config
blob (or leave the record alone), unmap it, move its cursor to a value short
of the mapped size, or map it afresh over a segment list. -/
def endpoint_trans (ep ep1 : AppleSIODMAEndpoint) : Prop :=
  (∃ config, ep1 = { ep with config := config }) ∨
  (ep.mapped = true ∧ ep1 = unmapped_endpoint ep) ∨
  (ep.mapped = true ∧ ∃ y, y < iov_size ep.iov ∧ ep1 = { ep with actual_length := y }) ∨
  (ep.mapped = false ∧ ∃ tag segs iov segments, iov_size iov = segments_length segs ∧
    ep1 = { ep with
      tag := tag, count := segs.length, segments := segments,
      sgl := segs.map (fun g => { base := g.addr, len := g.len }),
      iov := iov, mapped := true, actual_length := 0 })

/-- The endpoint at index `i` exists and is mapped. -/
def endpoint_mapped (s : AppleSIOState) (i : Nat) : Prop :=
  ∃ ep, s.eps[i]? = some ep ∧ ep.mapped = true

/-- The endpoint at index `i` is mapped before each of the events and after
the last one: the events run, and none of them ends the mapping. -/
def stays_mapped (i : Nat) : AppleSIOState → List SIOEvent → Prop
  | s, [] => endpoint_mapped s i
  | s, e :: es =>
    endpoint_mapped s i ∧
      match sio_step s e with
      | some s1 => stays_mapped i s1 es
      | none => False

/-- A request on the control endpoint carrying the opcode value of START_DMA. -/
def control_start_request_example : Nat :=
  ({ ep := 0, tag := 4, op := OP_START_DMA, param := 0, data := 0 } : sio_msg).raw

/-- A request for endpoint 1 with opcode 9, which no sub-protocol defines. -/
def unknown_dma_request_example : Nat :=
  ({ ep := 1, tag := 4, op := 9, param := 0, data := 0 } : sio_msg).raw

/-- A request on the control endpoint with opcode 9, which no sub-protocol defines. -/
def unknown_control_request_example : Nat :=
  ({ ep := 0, tag := 4, op := 9, param := 0, data := 0 } : sio_msg).raw

/-- A guest address space in which only the 4-byte read at address 0x3C
succeeds, giving a segment count of 1; every other read fails. -/
def address_space_count_only : AddressSpace :=
  { dma_memory_read := fun addr len =>
      if addr = 0x3C ∧ len = 4 then some [1, 0, 0, 0] else none,
    dma_memory_map := fun _ base len _ => some (base, len) }

/-- A guest address space in which a read succeeds exactly at address `a`,
giving bytes 0xFF. -/
def address_space_only_at (a : Nat) : AddressSpace :=
  { dma_memory_read := fun addr len =>
      if addr = a then some (List.replicate len 0xFF) else none,
    dma_memory_map := fun _ base len _ => some (base, len) }

/-- A CONFIG_SHIM request with tag 9 for endpoint 1, handle index 0. -/
def config_shim_request_example : Nat :=
  ({ ep := 1, tag := 9, op := OP_CONFIG_SHIM, param := 0, data := 0 } : sio_msg).raw

/-- A CONFIG_SHIM request with tag 9 for endpoint 1 whose payload is 0x20000000. -/
def config_shim_far_request_example : Nat :=
  ({ ep := 1, tag := 9, op := OP_CONFIG_SHIM, param := 0, data := 0x20000000 } : sio_msg).raw

/-- The bytes of a mapped scatter-gather region: the contents of its buffers,
concatenated in list order; `host` gives the byte at a host address. -/
def iov_contents (host : Nat → Nat) : List iovec → List Nat
  | [] => []
  | v :: vs => (List.range v.iov_len).map (fun k => host (v.iov_base + k)) ++ iov_contents host vs

/-- The invariant of an endpoint: the cursor is at most the size of the I/O
vector; an unmapped endpoint has an empty vector and cursor 0; the vector of a
mapped endpoint has the total length of the scatter-gather list. -/
def endpoint_ok (ep : AppleSIODMAEndpoint) : Prop :=
  ep.actual_length ≤ iov_size ep.iov ∧
  (ep.mapped = false → ep.iov = [] ∧ ep.actual_length = 0) ∧
  (ep.mapped = true → iov_size ep.iov = (ep.sgl.map fun g => g.len).sum)

/-- Every endpoint of the controller satisfies the invariant. -/
def state_ok (s : AppleSIOState) : Prop := ∀ ep ∈ s.eps, endpoint_ok ep

/-- A START_DMA request for endpoint 1 against the two-segment address space,
then a write of 0x10 bytes on endpoint 1. -/
def start_then_write_example : List SIOEvent :=
  [SIOEvent.request address_space_two_segments 0x30 start_dma_request_example,
   SIOEvent.write 1 (List.replicate 0x10 0xAA) 0x10]

/-- The example reset state after the START_DMA request and the write of 0x10 bytes. -/
def sio_half_written_example : AppleSIOState :=
  (sio_run sio_reset_example start_then_write_example).getD sio_reset_example

/-- The example mailbox after a 4-byte read of IOP_RECV0 has popped the older
of its two Messages. -/
def mailbox_first_word_read : AppleA7IOPMailbox :=
  { mailbox_two_queued with
    iop_recv_reg := [1, 2, 3, 4, 5, 6, 7, 8, 9, 10, 11, 12, 13, 14, 15, 16],
    iop_queue := [⟨[17, 18, 19, 20, 21, 22, 23, 24, 25, 26, 27, 28, 29, 30, 31, 32]⟩] }

/-- The send staging buffer written through the send slots of the frame
starting at `base`. -/
def staging_of_send (base : Nat) (s : AppleA7IOPMailbox) : List Nat :=
  if base = REG_IOP_SEND0 then s.iop_send_reg else s.ap_send_reg

/-- The four IOP send slots written in slot order: one complete frame. -/
def writes_whole_frame : List RegWrite :=
  writes_in_order ++ [⟨REG_IOP_SEND3, 0x44444444, 4⟩]

/-- The initial mailbox after the four slot writes of one complete frame. -/
def mailbox_frame_sent : AppleA7IOPMailbox :=
  (reg_writes mailbox_init writes_whole_frame).getD mailbox_init

/-- The initial mailbox after the first three IOP send slots have been written. -/
def mailbox_three_staged : AppleA7IOPMailbox :=
  (reg_writes mailbox_init writes_in_order).getD mailbox_init

/-- A request with tag 4 and opcode START_DMA whose endpoint byte is 7. -/
def unknown_endpoint_request_example : Nat :=
  ({ ep := 7, tag := 4, op := OP_START_DMA, param := 0, data := 0 } : sio_msg).raw

/-- An unmapped endpoint whose scatter-gather list holds the two segments
(0x1000, 0x10) and (0x2000, 0x20). -/
def unmapped_two_segments_example : AppleSIODMAEndpoint :=
  { endpoint_zero 28 with
    id := 1, dir := DMADirection.DMA_DIRECTION_FROM_DEVICE, count := 2,
    sgl := [⟨0x1000, 0x10⟩, ⟨0x2000, 0x20⟩],
    segments := some [⟨0x1000, 0x10⟩, ⟨0x2000, 0x20⟩] }

/-- A guest address space in which a mapping call returns at most 8 bytes at a
time, and in which every third call (calls 0, 3, 6, ...) returns a null
buffer. -/
def address_space_short_mappings : AddressSpace :=
  { dma_memory_read := fun _ _ => none,
    dma_memory_map := fun k base len _ =>
      if k % 3 = 0 then none else some (base, min len 8) }

/-- A mapped endpoint with id `id`, direction `dir`, reply tag 9 and cursor
`cursor`, mapped over one buffer of `size` bytes at host address 0x1000. -/
def one_buffer_endpoint (id : Nat) (dir : DMADirection) (size cursor : Nat) :
    AppleSIODMAEndpoint :=
  { config := List.replicate 28 0, dir := dir,
    sgl := [⟨0x1000, size⟩], iov := [⟨0x1000, size⟩], segments := some [⟨0x1000, size⟩],
    count := 1, actual_length := cursor, id := id, tag := 9, mapped := true }

/-- The reset state of the 4-endpoint controller in which endpoint 2 (to
device) has since been mapped over one buffer of `size` bytes and has moved
`cursor` bytes. -/
def sio_one_buffer_example (size cursor : Nat) : AppleSIOState :=
  { sio_reset_example with
    eps := sio_reset_example.eps.set 2
      (one_buffer_endpoint 2 DMADirection.DMA_DIRECTION_TO_DEVICE size cursor) }

/-- Three read calls, of 0x60000000, 0x60000000 and 0x40000000 bytes, from a
host memory whose byte at address `a` is `a % 256`. -/
def three_reads_example : List DMACall :=
  [DMACall.read (fun a => a % 256) 0x60000000, DMACall.read (fun a => a % 256) 0x60000000,
   DMACall.read (fun a => a % 256) 0x40000000]

/-- A guest address space holding, for a handle at address 0, a segment count
of 1 and the one segment (0x1000, `size`), and in which every range maps in
one piece onto a buffer at its own address. -/
def address_space_one_segment (size : Nat) : AddressSpace :=
  { dma_memory_read := fun addr len =>
      if addr = 0x3C ∧ len = 4 then some [1, 0, 0, 0]
      else if addr = 0x48 ∧ len = 16 then some (le_bytes 0x1000 8 ++ le_bytes size 8)
      else none,
    dma_memory_map := fun _ base len _ => some (base, len) }

/-- The reset state of the 4-endpoint controller after a START_DMA request with
tag 9 has mapped endpoint 1 (from device) over one segment of `size` bytes and
has been answered by ACK; the endpoint has since moved `cursor` bytes. -/
def sio_one_segment_example (size cursor : Nat) : AppleSIOState :=
  { sio_reset_example with
    eps := sio_reset_example.eps.set 1
      (one_buffer_endpoint 1 DMADirection.DMA_DIRECTION_FROM_DEVICE size cursor),
    outbox := sio_reset_example.outbox ++
      [({ ep := 1, tag := 9, op := OP_ACK, param := 0, data := 0 } : sio_msg).raw] }

theorem length_le_bytes (data size : Nat) : (le_bytes data size).length = size := by
  simp [le_bytes]

theorem getD_le_bytes (data size k : Nat) (hk : k < size) :
    (le_bytes data size).getD k 0 = data / 2 ^ (8 * k) % 256 := by
  simp [le_bytes, List.getD_eq_getElem?_getD, List.getElem?_map, List.getElem?_range hk]

theorem length_memcpy (dst : List Nat) (off : Nat) (src : List Nat) :
    (memcpy dst off src).length = dst.length := by
  simp [memcpy]

theorem getD_memcpy (dst : List Nat) (off : Nat) (src : List Nat) (i : Nat)
    (hi : i < dst.length) :
    (memcpy dst off src).getD i 0 =
      if off ≤ i ∧ i < off + src.length then src.getD (i - off) 0 else dst.getD i 0 := by
  simp [memcpy, List.getD_eq_getElem?_getD, List.getElem?_map, List.getElem?_range hi]

theorem list_eq_of_getD (a b : List Nat) (hlen : a.length = b.length)
    (h : ∀ i, i < a.length → a.getD i 0 = b.getD i 0) : a = b := by
  apply List.ext_getElem hlen
  intro i h1 h2
  have := h i h1
  simpa [List.getD_eq_getElem?_getD, List.getElem?_eq_getElem h1,
    List.getElem?_eq_getElem h2] using this

theorem memcpy_whole (dst src : List Nat) (hlen : src.length = dst.length) :
    memcpy dst 0 src = src := by
  apply list_eq_of_getD
  · rw [length_memcpy, hlen]
  · intro i hi
    rw [length_memcpy] at hi
    rw [getD_memcpy _ _ _ _ hi]
    have h1 : (0 ≤ i ∧ i < 0 + src.length) := by omega
    rw [if_pos h1]
    simp

/-! ## Lemmas on the C `int` and on the cursor -/

theorem to_int_eq (n : Int) : to_int n = (n + 2147483648) % 4294967296 - 2147483648 := by
  cases n with
  | ofNat n =>
    simp only [to_int]
    split
    · simp only [Int.ofNat_eq_coe]; omega
    · simp only [Int.ofNat_eq_coe, Int.negSucc_eq]; omega
  | negSucc n =>
    simp only [to_int]
    split
    · simp only [Int.negSucc_eq]; omega
    · simp only [Int.ofNat_eq_coe, Int.negSucc_eq]; omega

theorem to_int_small (n : Nat) (h : n < 2147483648) : to_int n = n := by
  rw [to_int_eq]; omega

theorem cursor_add_to_int (c n : Nat) : cursor_add c (to_int n) = (c + n) % 4294967296 := by
  rw [to_int_eq]; unfold cursor_add; omega

theorem cursor_add_small (c n : Nat) (h : c + n < 4294967296) :
    cursor_add c (to_int n) = c + n := by
  rw [cursor_add_to_int, Nat.mod_eq_of_lt h]

/-! ## Send path of the register window -/

theorem iop_send_write (s : AppleA7IOPMailbox) (w : RegWrite)
    (hw : send_slot_write REG_IOP_SEND0 w) (hlen : s.iop_send_reg.length = FRAME_SIZE) :
    apple_a7iop_mailbox_reg_write_v4 s w.addr w.data w.size =
      some (if w.addr + w.size = REG_IOP_SEND0 + 16 then
          { s with
            iop_send_reg := staged_after s.iop_send_reg REG_IOP_SEND0 w.addr w.data w.size,
            iop_queue := s.iop_queue ++
              [{ data := staged_after s.iop_send_reg REG_IOP_SEND0 w.addr w.data w.size }] }
        else
          { s with
            iop_send_reg := staged_after s.iop_send_reg REG_IOP_SEND0 w.addr w.data w.size }) := by
  obtain ⟨addr, data, size⟩ := w
  obtain ⟨hslot, hsz, hb⟩ := hw
  have htake : ∀ l : List Nat, l.length = FRAME_SIZE → l.take FRAME_SIZE = l := by
    intro l hl; rw [← hl]; exact List.take_length l
  have hM : (staged_after s.iop_send_reg REG_IOP_SEND0 addr data size).length = FRAME_SIZE := by
    rw [staged_after, length_memcpy, hlen]
  simp only [REG_IOP_SEND0, FRAME_SIZE] at hslot hb hlen hM htake ⊢
  simp only [staged_after, REG_IOP_SEND0] at hM ⊢
  rcases hslot with h | h | h | h <;> subst h <;>
    simp [apple_a7iop_mailbox_reg_write_v4, apple_a7iop_mailbox_send_iop, REG_INT_MASK_SET,
      REG_INT_MASK_CLR, REG_IOP_CTRL, REG_AP_CTRL, REG_IOP_SEND0, REG_IOP_SEND1, REG_IOP_SEND2,
      REG_IOP_SEND3, FRAME_SIZE, hsz, hlen, hb] <;>
    split <;> simp_all

theorem ap_send_write (s : AppleA7IOPMailbox) (w : RegWrite)
    (hw : send_slot_write REG_AP_SEND0 w) (hlen : s.ap_send_reg.length = FRAME_SIZE) :
    apple_a7iop_mailbox_reg_write_v4 s w.addr w.data w.size =
      some (if w.addr + w.size = REG_AP_SEND0 + 16 then
          { s with
            ap_send_reg := staged_after s.ap_send_reg REG_AP_SEND0 w.addr w.data w.size,
            ap_queue := s.ap_queue ++
              [{ data := staged_after s.ap_send_reg REG_AP_SEND0 w.addr w.data w.size }] }
        else
          { s with
            ap_send_reg := staged_after s.ap_send_reg REG_AP_SEND0 w.addr w.data w.size }) := by
  obtain ⟨addr, data, size⟩ := w
  obtain ⟨hslot, hsz, hb⟩ := hw
  have htake : ∀ l : List Nat, l.length = FRAME_SIZE → l.take FRAME_SIZE = l := by
    intro l hl; rw [← hl]; exact List.take_length l
  have hM : (staged_after s.ap_send_reg REG_AP_SEND0 addr data size).length = FRAME_SIZE := by
    rw [staged_after, length_memcpy, hlen]
  simp only [REG_AP_SEND0, FRAME_SIZE] at hslot hb hlen hM htake ⊢
  simp only [staged_after, REG_AP_SEND0] at hM ⊢
  rcases hslot with h | h | h | h <;> subst h <;>
    simp [apple_a7iop_mailbox_reg_write_v4, apple_a7iop_mailbox_send_ap, REG_INT_MASK_SET,
      REG_INT_MASK_CLR, REG_IOP_CTRL, REG_AP_CTRL, REG_IOP_SEND0, REG_IOP_SEND1, REG_IOP_SEND2,
      REG_IOP_SEND3, REG_AP_SEND0, REG_AP_SEND1, REG_AP_SEND2, REG_AP_SEND3, FRAME_SIZE, hsz,
      hlen, hb] <;>
    split <;> simp_all

/-- The byte a write leaves at frame offset `i`, when it touches that offset. -/
theorem getD_staged_after (reg : List Nat) (base addr data size i : Nat)
    (hi : i < reg.length) :
    (staged_after reg base addr data size).getD i 0 =
      if addr - base ≤ i ∧ i < addr - base + size then
        data / 2 ^ (8 * (i - (addr - base))) % 256
      else reg.getD i 0 := by
  rw [staged_after, getD_memcpy _ _ _ _ hi, length_le_bytes]
  split
  · next h => rw [getD_le_bytes _ _ _ (by omega)]
  · rfl

theorem last_written_cons (base : Nat) (w : RegWrite) (ws : List RegWrite) (i d : Nat) :
    (last_written base (w :: ws) i).getD d =
      (last_written base ws i).getD
        (if w.addr - base ≤ i ∧ i < w.addr - base + w.size then
          w.data / 2 ^ (8 * (i - (w.addr - base))) % 256
        else d) := by
  show (match last_written base ws i with
    | some b => some b
    | none =>
      if w.addr - base ≤ i ∧ i < w.addr - base + w.size then
        some (w.data / 2 ^ (8 * (i - (w.addr - base))) % 256)
      else none).getD d = _
  generalize last_written base ws i = o
  cases o with
  | some b => rfl
  | none =>
    by_cases h : w.addr - base ≤ i ∧ i < w.addr - base + w.size
    · simp only [if_pos h]; rfl
    · simp only [if_neg h]

theorem last_written_append (base : Nat) (ws : List RegWrite) (w : RegWrite) (i : Nat) :
    last_written base (ws ++ [w]) i =
      if w.addr - base ≤ i ∧ i < w.addr - base + w.size then
        some (w.data / 2 ^ (8 * (i - (w.addr - base))) % 256)
      else last_written base ws i := by
  induction ws with
  | nil => simp [last_written]
  | cons x xs ih =>
    show (match last_written base (xs ++ [w]) i with
      | some b => some b
      | none =>
        if x.addr - base ≤ i ∧ i < x.addr - base + x.size then
          some (x.data / 2 ^ (8 * (i - (x.addr - base))) % 256)
        else none) = _
    rw [ih]
    by_cases h : w.addr - base ≤ i ∧ i < w.addr - base + w.size
    · simp only [if_pos h]
    · simp only [if_neg h]; rfl

theorem last_written_isSome (base : Nat) (ws : List RegWrite) (i : Nat)
    (h : ∃ w ∈ ws, w.addr - base ≤ i ∧ i < w.addr - base + w.size) :
    ∃ b, last_written base ws i = some b := by
  induction ws with
  | nil => simp at h
  | cons x xs ih =>
    simp only [last_written]
    cases hx : last_written base xs i with
    | some b => exact ⟨b, rfl⟩
    | none =>
      obtain ⟨w, hw, hc⟩ := h
      rcases List.mem_cons.mp hw with rfl | hmem
      · simp [hc]
      · obtain ⟨b, hb⟩ := ih ⟨w, hmem, hc⟩
        rw [hx] at hb; cases hb

theorem reg_writes_append (s : AppleA7IOPMailbox) (a b : List RegWrite) :
    reg_writes s (a ++ b) = (reg_writes s a).bind fun s1 => reg_writes s1 b := by
  induction a generalizing s with
  | nil => simp [reg_writes]
  | cons x xs ih =>
    simp only [List.cons_append, reg_writes]
    cases apple_a7iop_mailbox_reg_write_v4 s x.addr x.data x.size with
    | none => simp
    | some s1 => simpa using ih s1

/-- Slot writes that do not end the frame only stage bytes: the queues keep
their contents and every staged byte is the last one written there. -/
theorem iop_send_staged (ws : List RegWrite) :
    ∀ s : AppleA7IOPMailbox, s.iop_send_reg.length = FRAME_SIZE →
      (∀ w ∈ ws, send_slot_write REG_IOP_SEND0 w) →
      (∀ w ∈ ws, w.addr + w.size ≠ REG_IOP_SEND0 + 16) →
      ∃ s1, reg_writes s ws = some s1 ∧ s1.iop_queue = s.iop_queue ∧
        s1.ap_queue = s.ap_queue ∧ s1.ap_send_reg = s.ap_send_reg ∧
        s1.iop_send_reg.length = FRAME_SIZE ∧
        ∀ i, i < FRAME_SIZE → s1.iop_send_reg.getD i 0 =
          (last_written REG_IOP_SEND0 ws i).getD (s.iop_send_reg.getD i 0) := by
  induction ws with
  | nil => intro s hlen _ _; exact ⟨s, rfl, rfl, rfl, rfl, hlen, fun i _ => rfl⟩
  | cons w ws ih =>
    intro s hlen hv hn
    have hw := hv w (List.mem_cons_self _ _)
    have hne := hn w (List.mem_cons_self _ _)
    have hstep := iop_send_write s w hw hlen
    rw [if_neg hne] at hstep
    have hlen1 : (staged_after s.iop_send_reg REG_IOP_SEND0 w.addr w.data w.size).length =
        FRAME_SIZE := by rw [staged_after, length_memcpy, hlen]
    obtain ⟨s1, hrun, hq, hq2, hr2, hl, hb⟩ := ih
      { s with
        iop_send_reg := staged_after s.iop_send_reg REG_IOP_SEND0 w.addr w.data w.size } hlen1
      (fun x hx => hv x (List.mem_cons_of_mem _ hx))
      (fun x hx => hn x (List.mem_cons_of_mem _ hx))
    refine ⟨s1, ?_, hq, hq2, hr2, hl, ?_⟩
    · simp only [reg_writes, hstep]; exact hrun
    · intro i hi
      have h2 := getD_staged_after s.iop_send_reg REG_IOP_SEND0 w.addr w.data w.size i
        (by rw [hlen]; exact hi)
      rw [hb i hi, last_written_cons, ← h2]

theorem ap_send_staged (ws : List RegWrite) :
    ∀ s : AppleA7IOPMailbox, s.ap_send_reg.length = FRAME_SIZE →
      (∀ w ∈ ws, send_slot_write REG_AP_SEND0 w) →
      (∀ w ∈ ws, w.addr + w.size ≠ REG_AP_SEND0 + 16) →
      ∃ s1, reg_writes s ws = some s1 ∧ s1.ap_queue = s.ap_queue ∧
        s1.iop_queue = s.iop_queue ∧ s1.iop_send_reg = s.iop_send_reg ∧
        s1.ap_send_reg.length = FRAME_SIZE ∧
        ∀ i, i < FRAME_SIZE → s1.ap_send_reg.getD i 0 =
          (last_written REG_AP_SEND0 ws i).getD (s.ap_send_reg.getD i 0) := by
  induction ws with
  | nil => intro s hlen _ _; exact ⟨s, rfl, rfl, rfl, rfl, hlen, fun i _ => rfl⟩
  | cons w ws ih =>
    intro s hlen hv hn
    have hw := hv w (List.mem_cons_self _ _)
    have hne := hn w (List.mem_cons_self _ _)
    have hstep := ap_send_write s w hw hlen
    rw [if_neg hne] at hstep
    have hlen1 : (staged_after s.ap_send_reg REG_AP_SEND0 w.addr w.data w.size).length =
        FRAME_SIZE := by rw [staged_after, length_memcpy, hlen]
    obtain ⟨s1, hrun, hq, hq2, hr2, hl, hb⟩ := ih
      { s with
        ap_send_reg := staged_after s.ap_send_reg REG_AP_SEND0 w.addr w.data w.size } hlen1
      (fun x hx => hv x (List.mem_cons_of_mem _ hx))
      (fun x hx => hn x (List.mem_cons_of_mem _ hx))
    refine ⟨s1, ?_, hq, hq2, hr2, hl, ?_⟩
    · simp only [reg_writes, hstep]; exact hrun
    · intro i hi
      have h2 := getD_staged_after s.ap_send_reg REG_AP_SEND0 w.addr w.data w.size i
        (by rw [hlen]; exact hi)
      rw [hb i hi, last_written_cons, ← h2]

/-- The message built by the write that ends the frame carries, at every
offset, the byte written there last. -/
theorem completed_frame_bytes (base : Nat) (ws : List RegWrite) (w : RegWrite)
    (reg reg1 : List Nat) (hlen1 : reg1.length = FRAME_SIZE)
    (hb : ∀ i, i < FRAME_SIZE → reg1.getD i 0 = (last_written base ws i).getD (reg.getD i 0))
    (hfill : fills_frame base (ws ++ [w])) (i : Nat) (hi : i < FRAME_SIZE) :
    last_written base (ws ++ [w]) i =
      some ((staged_after reg1 base w.addr w.data w.size).getD i 0) := by
  rw [last_written_append, getD_staged_after _ _ _ _ _ _ (by rw [hlen1]; exact hi)]
  by_cases hc : w.addr - base ≤ i ∧ i < w.addr - base + w.size
  · simp only [if_pos hc]
  · simp only [if_neg hc]
    obtain ⟨x, hx, hcx⟩ := hfill i hi
    have hx2 : x ∈ ws := by
      rcases List.mem_append.mp hx with h | h
      · exact h
      · have : x = w := by simpa using h
        subst this; exact absurd hcx hc
    obtain ⟨b, hb2⟩ := last_written_isSome base ws i ⟨x, hx2, hcx⟩
    rw [hb i hi, hb2]; rfl

/-- C1 (amended): for either direction, a sequence of accepted slot writes
whose last write, and no earlier one, ends at the end of the fourth slot, and
which together touch all 16 bytes of the frame, enqueues exactly one Message
for that direction; each payload byte of that Message is the byte written last
at that offset. -/
theorem send_frame_enqueues_once (base : Nat)
    (hbase : base = REG_IOP_SEND0 ∨ base = REG_AP_SEND0)
    (s : AppleA7IOPMailbox) (hwf : s.wf) (ws : List RegWrite) (w : RegWrite)
    (hv : ∀ x ∈ ws ++ [w], send_slot_write base x)
    (hearly : ∀ x ∈ ws, x.addr + x.size ≠ base + FRAME_SIZE)
    (hlast : w.addr + w.size = base + FRAME_SIZE)
    (hfill : fills_frame base (ws ++ [w])) :
    ∃ s1 msg, reg_writes s (ws ++ [w]) = some s1 ∧
      queue_of_send base s1 = queue_of_send base s ++ [msg] ∧
      msg.data.length = FRAME_SIZE ∧
      ∀ i, i < FRAME_SIZE → last_written base (ws ++ [w]) i = some (msg.data.getD i 0) := by
  obtain ⟨h1, h2, -, -, -, -⟩ := hwf
  have hvw : send_slot_write base w := hv w (by simp)
  have hvs : ∀ x ∈ ws, send_slot_write base x := fun x hx => hv x (by simp [hx])
  simp only [FRAME_SIZE] at hearly hlast
  rcases hbase with rfl | rfl
  · obtain ⟨s1, hrun, hq, -, -, hl, hb⟩ := iop_send_staged ws s h1 hvs hearly
    have hstep := iop_send_write s1 w hvw hl
    rw [if_pos hlast] at hstep
    refine ⟨{ s1 with
        iop_send_reg := staged_after s1.iop_send_reg REG_IOP_SEND0 w.addr w.data w.size,
        iop_queue := s1.iop_queue ++
          [{ data := staged_after s1.iop_send_reg REG_IOP_SEND0 w.addr w.data w.size }] },
      ⟨staged_after s1.iop_send_reg REG_IOP_SEND0 w.addr w.data w.size⟩, ?_, ?_, ?_, ?_⟩
    · rw [reg_writes_append, hrun]
      simp only [Option.some_bind, reg_writes, hstep]
    · simp [queue_of_send, hq]
    · rw [staged_after, length_memcpy, hl]
    · intro i hi
      exact completed_frame_bytes _ ws w s.iop_send_reg s1.iop_send_reg hl hb hfill i hi
  · obtain ⟨s1, hrun, hq, -, -, hl, hb⟩ := ap_send_staged ws s h2 hvs hearly
    have hstep := ap_send_write s1 w hvw hl
    rw [if_pos hlast] at hstep
    refine ⟨{ s1 with
        ap_send_reg := staged_after s1.ap_send_reg REG_AP_SEND0 w.addr w.data w.size,
        ap_queue := s1.ap_queue ++
          [{ data := staged_after s1.ap_send_reg REG_AP_SEND0 w.addr w.data w.size }] },
      ⟨staged_after s1.ap_send_reg REG_AP_SEND0 w.addr w.data w.size⟩, ?_, ?_, ?_, ?_⟩
    · rw [reg_writes_append, hrun]
      simp only [Option.some_bind, reg_writes, hstep]
    · simp [queue_of_send, hq, REG_AP_SEND0, REG_IOP_SEND0]
    · rw [staged_after, length_memcpy, hl]
    · intro i hi
      exact completed_frame_bytes _ ws w s.ap_send_reg s1.ap_send_reg hl hb hfill i hi

/-- C1 (witness): the four IOP send slots written in slot order from the
initial mailbox. -/
theorem send_frame_enqueues_once_witness :
    ∃ s1 msg, reg_writes mailbox_init (writes_in_order ++ [⟨REG_IOP_SEND3, 0x44444444, 4⟩]) =
        some s1 ∧
      queue_of_send REG_IOP_SEND0 s1 = queue_of_send REG_IOP_SEND0 mailbox_init ++ [msg] ∧
      msg.data.length = FRAME_SIZE ∧
      ∀ i, i < FRAME_SIZE →
        last_written REG_IOP_SEND0 (writes_in_order ++ [⟨REG_IOP_SEND3, 0x44444444, 4⟩]) i =
          some (msg.data.getD i 0) :=
  send_frame_enqueues_once REG_IOP_SEND0 (Or.inl rfl) mailbox_init (by decide) writes_in_order
    ⟨REG_IOP_SEND3, 0x44444444, 4⟩ (by decide) (by decide) (by decide) (by decide)

/-- C1 (counterexample): the claim as stated fails when the fourth slot is not
written last and only last.  Writing the fourth slot first and then the other
three fills all four words, yet the one Message enqueued holds zeros where
0x11, 0x22, 0x33 were written; writing the fourth slot a second time after all
four words were written enqueues two Messages. -/
theorem send_frame_any_order_counterexample :
    (mailbox_init.wf ∧
      (∀ x ∈ writes_fourth_slot_first, send_slot_write REG_IOP_SEND0 x) ∧
      fills_frame REG_IOP_SEND0 writes_fourth_slot_first ∧
      (reg_writes mailbox_init writes_fourth_slot_first).map (fun s => s.iop_queue) =
        some [⟨[0, 0, 0, 0, 0, 0, 0, 0, 0, 0, 0, 0, 0x44, 0x44, 0x44, 0x44]⟩] ∧
      last_written REG_IOP_SEND0 writes_fourth_slot_first 0 = some 0x11) ∧
    ((∀ x ∈ writes_fourth_slot_twice, send_slot_write REG_IOP_SEND0 x) ∧
      fills_frame REG_IOP_SEND0 writes_fourth_slot_twice ∧
      (reg_writes mailbox_init writes_fourth_slot_twice).map (fun s => s.iop_queue) =
        some [⟨[0x11, 0x11, 0x11, 0x11, 0, 0, 0, 0, 0, 0, 0, 0, 0x44, 0x44, 0x44, 0x44]⟩,
          ⟨[0x11, 0x11, 0x11, 0x11, 0x22, 0x22, 0x22, 0x22, 0x33, 0x33, 0x33, 0x33,
            0x55, 0x55, 0x55, 0x55]⟩]) := by
  refine ⟨⟨by decide, by decide, by decide, by decide, by decide⟩, by decide, by decide, by decide⟩

/-! ## Receive path of the register window -/

theorem le_value_replicate_zero (n : Nat) : le_value (List.replicate n 0) = 0 := by
  induction n with
  | zero => rfl
  | succ n ih => simp [List.replicate_succ, le_value, ih]

theorem le_value_take_replicate_zero (n size : Nat) :
    le_value ((List.replicate n 0).take size) = 0 := by
  rw [List.take_replicate]; exact le_value_replicate_zero _

theorem iop_recv_tail_first (s : AppleA7IOPMailbox) (size : Nat) (hs : size ≤ 8)
    (hl : size ≤ s.iop_recv_reg.length) :
    iop_recv_tail s REG_IOP_RECV0 size = some (le_value (s.iop_recv_reg.take size), s) := by
  simp [iop_recv_tail, hs, hl]

theorem ap_recv_tail_first (s : AppleA7IOPMailbox) (size : Nat) (hs : size ≤ 8)
    (hl : size ≤ s.ap_recv_reg.length) :
    ap_recv_tail s REG_AP_RECV0 size = some (le_value (s.ap_recv_reg.take size), s) := by
  simp [ap_recv_tail, hs, hl]

theorem read_iop_recv0 (s : AppleA7IOPMailbox) (size : Nat) :
    apple_a7iop_mailbox_reg_read_v4 s REG_IOP_RECV0 size =
      match apple_a7iop_mailbox_recv_iop s with
      | (some msg, s1) =>
        iop_recv_tail
          { s1 with iop_recv_reg := memcpy s1.iop_recv_reg 0 (msg.data.take FRAME_SIZE) }
          REG_IOP_RECV0 size
      | (none, s1) =>
        iop_recv_tail { s1 with iop_recv_reg := List.replicate FRAME_SIZE 0 }
          REG_IOP_RECV0 size := by
  simp [apple_a7iop_mailbox_reg_read_v4, REG_INT_MASK_SET, REG_INT_MASK_CLR, REG_IOP_CTRL,
    REG_AP_CTRL, REG_IOP_RECV0]

theorem read_ap_recv0 (s : AppleA7IOPMailbox) (size : Nat) :
    apple_a7iop_mailbox_reg_read_v4 s REG_AP_RECV0 size =
      match apple_a7iop_mailbox_recv_ap s with
      | (some msg, s1) =>
        ap_recv_tail
          { s1 with ap_recv_reg := memcpy s1.ap_recv_reg 0 (msg.data.take FRAME_SIZE) }
          REG_AP_RECV0 size
      | (none, s1) =>
        ap_recv_tail { s1 with ap_recv_reg := List.replicate FRAME_SIZE 0 }
          REG_AP_RECV0 size := by
  simp [apple_a7iop_mailbox_reg_read_v4, REG_INT_MASK_SET, REG_INT_MASK_CLR, REG_IOP_CTRL,
    REG_AP_CTRL, REG_IOP_RECV0, REG_IOP_RECV1, REG_IOP_RECV2, REG_IOP_RECV3, REG_AP_RECV0]

theorem take_frame (l : List Nat) (hl : l.length = FRAME_SIZE) : l.take FRAME_SIZE = l := by
  rw [← hl]; exact List.take_length l

/-- C2: a read of the first receive slot of either direction.  With the
queue of that direction empty, the receive staging buffer becomes 16 zero
bytes and the read returns 0.  With the queue non-empty, the staging buffer
becomes the bytes of the oldest Message, the queue loses exactly that Message
and keeps the rest in order, and the read returns the first `size` bytes of
that Message as a little-endian value: its first word for a 4-byte read. -/
theorem recv_first_word_read (s : AppleA7IOPMailbox) (hwf : s.wf) (size : Nat)
    (hsize : size ≤ 8) :
    (s.iop_queue = [] →
      apple_a7iop_mailbox_reg_read_v4 s REG_IOP_RECV0 size =
        some (0, { s with iop_recv_reg := List.replicate FRAME_SIZE 0 })) ∧
    (∀ m rest, s.iop_queue = m :: rest →
      apple_a7iop_mailbox_reg_read_v4 s REG_IOP_RECV0 size =
        some (le_value (m.data.take size),
          { s with iop_recv_reg := m.data, iop_queue := rest })) ∧
    (s.ap_queue = [] →
      apple_a7iop_mailbox_reg_read_v4 s REG_AP_RECV0 size =
        some (0, { s with ap_recv_reg := List.replicate FRAME_SIZE 0 })) ∧
    (∀ m rest, s.ap_queue = m :: rest →
      apple_a7iop_mailbox_reg_read_v4 s REG_AP_RECV0 size =
        some (le_value (m.data.take size),
          { s with ap_recv_reg := m.data, ap_queue := rest })) := by
  obtain ⟨-, -, h3, h4, h5, h6⟩ := hwf
  have h16 : size ≤ FRAME_SIZE := by rw [FRAME_SIZE]; omega
  refine ⟨?_, ?_, ?_, ?_⟩
  · intro hq
    rw [read_iop_recv0]
    simp only [apple_a7iop_mailbox_recv_iop, hq]
    rw [iop_recv_tail_first _ _ hsize (by simpa using h16)]
    simp only [le_value_take_replicate_zero]
  · intro m rest hq
    have hm : m.data.length = FRAME_SIZE := h5 m (by simp [hq])
    have hcopy : memcpy s.iop_recv_reg 0 (m.data.take FRAME_SIZE) = m.data := by
      rw [take_frame _ hm]; exact memcpy_whole _ _ (by rw [hm, h3])
    rw [read_iop_recv0]
    simp only [apple_a7iop_mailbox_recv_iop, hq, hcopy]
    rw [iop_recv_tail_first _ _ hsize (by simpa [hm] using h16)]
  · intro hq
    rw [read_ap_recv0]
    simp only [apple_a7iop_mailbox_recv_ap, hq]
    rw [ap_recv_tail_first _ _ hsize (by simpa using h16)]
    simp only [le_value_take_replicate_zero]
  · intro m rest hq
    have hm : m.data.length = FRAME_SIZE := h6 m (by simp [hq])
    have hcopy : memcpy s.ap_recv_reg 0 (m.data.take FRAME_SIZE) = m.data := by
      rw [take_frame _ hm]; exact memcpy_whole _ _ (by rw [hm, h4])
    rw [read_ap_recv0]
    simp only [apple_a7iop_mailbox_recv_ap, hq, hcopy]
    rw [ap_recv_tail_first _ _ hsize (by simpa [hm] using h16)]

/-- C2 (witness): a 4-byte read of IOP_RECV0 with two Messages queued returns
the first word of the older one, stages its bytes and leaves the newer one. -/
theorem recv_first_word_read_witness :
    mailbox_two_queued.wf ∧ 4 ≤ 8 ∧
    apple_a7iop_mailbox_reg_read_v4 mailbox_two_queued REG_IOP_RECV0 4 =
      some (0x04030201,
        { mailbox_two_queued with
          iop_recv_reg := [1, 2, 3, 4, 5, 6, 7, 8, 9, 10, 11, 12, 13, 14, 15, 16],
          iop_queue := [⟨[17, 18, 19, 20, 21, 22, 23, 24, 25, 26, 27, 28, 29, 30, 31, 32]⟩] }) :=
  ⟨by decide, by decide,
    (recv_first_word_read mailbox_two_queued (by decide) 4 (by decide)).2.1
      ⟨[1, 2, 3, 4, 5, 6, 7, 8, 9, 10, 11, 12, 13, 14, 15, 16]⟩
      [⟨[17, 18, 19, 20, 21, 22, 23, 24, 25, 26, 27, 28, 29, 30, 31, 32]⟩] rfl⟩

/-! ## Requests and replies of the Smart IO controller -/

theorem of_raw_raw (m : sio_msg) (h1 : m.ep < 256) (h2 : m.tag < 256) (h3 : m.op < 256)
    (h4 : m.param < 256) (h5 : m.data < 4294967296) : sio_msg.of_raw m.raw = m := by
  obtain ⟨e, t, o, p, d⟩ := m
  simp only at h1 h2 h3 h4 h5
  simp only [sio_msg.of_raw, sio_msg.raw, sio_msg.mk.injEq]
  refine ⟨?_, ?_, ?_, ?_, ?_⟩ <;> omega

theorem handle_control (as : AddressSpace) (fuel : Nat) (s : AppleSIOState) (msg : Nat)
    (h : (sio_msg.of_raw msg).ep = EP_CONTROL ∨ (sio_msg.of_raw msg).ep = EP_PERF) :
    apple_sio_handle_endpoint as fuel s msg = apple_sio_control s (sio_msg.of_raw msg) := by
  simp only [apple_sio_handle_endpoint, if_pos h]

theorem handle_dma (as : AddressSpace) (fuel : Nat) (s : AppleSIOState) (msg : Nat)
    (h0 : (sio_msg.of_raw msg).ep ≠ EP_CONTROL) (h3 : (sio_msg.of_raw msg).ep ≠ EP_PERF)
    (hlt : (sio_msg.of_raw msg).ep < s.eps.length) :
    apple_sio_handle_endpoint as fuel s msg =
      apple_sio_dma as fuel s (sio_msg.of_raw msg).ep (sio_msg.of_raw msg) := by
  have h : ¬ ((sio_msg.of_raw msg).ep = EP_CONTROL ∨ (sio_msg.of_raw msg).ep = EP_PERF) := by
    intro h; rcases h with h | h
    · exact h0 h
    · exact h3 h
  have h2 : ¬ ((sio_msg.of_raw msg).ep ≥ SIO_NUM_EPS s) := by
    simp only [SIO_NUM_EPS]; omega
  simp only [apple_sio_handle_endpoint, if_neg h, if_neg h2]

theorem control_set_param (s : AppleSIOState) (m : sio_msg) (hop : m.op = OP_SET_PARAM)
    (hin : m.param < s.params.length) :
    apple_sio_control s m =
      some { s with
        params := s.params.set m.param (m.data % 4294967296),
        outbox := s.outbox ++
          [({ ep := m.ep, tag := m.tag, op := OP_ACK, param := 0, data := 0 } : sio_msg).raw] } := by
  simp [apple_sio_control, hop, hin, OP_SET_PARAM, OP_GET_PARAM, apple_rtkit_send_user_msg]

theorem control_get_param (s : AppleSIOState) (m : sio_msg) (v : Nat) (hop : m.op = OP_GET_PARAM)
    (hv : s.params[m.param]? = some v) :
    apple_sio_control s m =
      some { s with
        outbox := s.outbox ++
          [({ ep := m.ep, tag := m.tag, op := OP_GET_PARAM_RETURN, param := 0,
              data := v % 4294967296 } : sio_msg).raw] } := by
  simp [apple_sio_control, hop, hv, apple_rtkit_send_user_msg]

theorem handle_set_param (as : AddressSpace) (fuel : Nat) (s : AppleSIOState)
    (e t id v : Nat) (he : e = EP_CONTROL ∨ e = EP_PERF) (ht : t < 256) (hid : id < 256)
    (hin : id < s.params.length) (hv : v < 4294967296) :
    apple_sio_handle_endpoint as fuel s
        ({ ep := e, tag := t, op := OP_SET_PARAM, param := id, data := v } : sio_msg).raw =
      some { s with
        params := s.params.set id v,
        outbox := s.outbox ++
          [({ ep := e, tag := t, op := OP_ACK, param := 0, data := 0 } : sio_msg).raw] } := by
  have hb : e < 256 := by rcases he with h | h <;> simp [h, EP_CONTROL, EP_PERF]
  have hr := of_raw_raw { ep := e, tag := t, op := OP_SET_PARAM, param := id, data := v }
    hb ht (by simp [OP_SET_PARAM]) hid hv
  rw [handle_control _ _ _ _ (by rw [hr]; exact he), hr, control_set_param s _ rfl hin]
  simp only [Nat.mod_eq_of_lt hv]

theorem handle_get_param (as : AddressSpace) (fuel : Nat) (s : AppleSIOState)
    (e t id d x : Nat) (he : e = EP_CONTROL ∨ e = EP_PERF) (ht : t < 256) (hid : id < 256)
    (hd : d < 4294967296) (hx : s.params[id]? = some x) (hx32 : x < 4294967296) :
    apple_sio_handle_endpoint as fuel s
        ({ ep := e, tag := t, op := OP_GET_PARAM, param := id, data := d } : sio_msg).raw =
      some { s with
        outbox := s.outbox ++
          [({ ep := e, tag := t, op := OP_GET_PARAM_RETURN, param := 0, data := x } :
            sio_msg).raw] } := by
  have hb : e < 256 := by rcases he with h | h <;> simp [h, EP_CONTROL, EP_PERF]
  have hr := of_raw_raw { ep := e, tag := t, op := OP_GET_PARAM, param := id, data := d }
    hb ht (by simp [OP_GET_PARAM]) hid hd
  rw [handle_control _ _ _ _ (by rw [hr]; exact he), hr, control_get_param s _ x rfl hx]
  simp only [Nat.mod_eq_of_lt hx32]

/-- C3: on a control endpoint, SET_PARAM(id, v) followed immediately by
GET_PARAM(id) is answered by ACK and then by GET_PARAM_RETURN with payload v,
for every id of the parameter table and every 32-bit v. -/
theorem set_param_then_get_param (as1 as2 : AddressSpace) (fuel1 fuel2 : Nat)
    (s : AppleSIOState) (e1 e2 t1 t2 id v d2 : Nat)
    (he1 : e1 = EP_CONTROL ∨ e1 = EP_PERF) (he2 : e2 = EP_CONTROL ∨ e2 = EP_PERF)
    (ht1 : t1 < 256) (ht2 : t2 < 256) (hid : id < 256) (hin : id < s.params.length)
    (hv : v < 4294967296) (hd2 : d2 < 4294967296) :
    ∃ s1 s2,
      apple_sio_handle_endpoint as1 fuel1 s
        ({ ep := e1, tag := t1, op := OP_SET_PARAM, param := id, data := v } : sio_msg).raw =
          some s1 ∧
      apple_sio_handle_endpoint as2 fuel2 s1
        ({ ep := e2, tag := t2, op := OP_GET_PARAM, param := id, data := d2 } : sio_msg).raw =
          some s2 ∧
      ∃ reply, s2.outbox = s1.outbox ++ [reply] ∧
        sio_msg.of_raw reply =
          { ep := e2, tag := t2, op := OP_GET_PARAM_RETURN, param := 0, data := v } := by
  have hb2 : e2 < 256 := by rcases he2 with h | h <;> simp [h, EP_CONTROL, EP_PERF]
  have hr3 := of_raw_raw
    { ep := e2, tag := t2, op := OP_GET_PARAM_RETURN, param := 0, data := v }
    hb2 ht2 (by simp [OP_GET_PARAM_RETURN]) (show (0 : Nat) < 256 by decide) hv
  refine ⟨_, _, handle_set_param as1 fuel1 s e1 t1 id v he1 ht1 hid hin hv,
    handle_get_param as2 fuel2 _ e2 t2 id d2 v he2 ht2 hid hd2 ?_ hv, _, rfl, hr3⟩
  simp [hin]

/-- C3 (witness): SET_PARAM(id = 1, 0x1000) then GET_PARAM(id = 1) on a
controller with a table of 64 parameters. -/
theorem set_param_then_get_param_witness :
    ∃ s1 s2,
      apple_sio_handle_endpoint address_space_none 0 (sio_zero 8 64 28)
        ({ ep := 0, tag := 7, op := OP_SET_PARAM, param := 1, data := 0x1000 } : sio_msg).raw =
          some s1 ∧
      apple_sio_handle_endpoint address_space_none 0 s1
        ({ ep := 0, tag := 8, op := OP_GET_PARAM, param := 1, data := 0 } : sio_msg).raw =
          some s2 ∧
      ∃ reply, s2.outbox = s1.outbox ++ [reply] ∧
        sio_msg.of_raw reply =
          { ep := 0, tag := 8, op := OP_GET_PARAM_RETURN, param := 0, data := 0x1000 } :=
  set_param_then_get_param address_space_none address_space_none 0 0 (sio_zero 8 64 28)
    0 0 7 8 1 0x1000 0 (Or.inl rfl) (Or.inl rfl) (by decide) (by decide) (by decide)
    (by decide) (by decide) (by decide)

/-! ## What the handlers leave alone -/

theorem start_dma_segments_params (as : AddressSpace) (fuel : Nat) (s : AppleSIOState) (i : Nat)
    (ep : AppleSIODMAEndpoint) (m : sio_msg) (handle_addr segment_count : Nat)
    (s1 : AppleSIOState)
    (h : start_dma_segments as fuel s i ep m handle_addr segment_count = some s1) :
    s1.params = s.params := by
  unfold start_dma_segments at h
  obtain ⟨ep2, -, h2⟩ := Option.map_eq_some'.mp h
  subst h2; rfl

theorem start_dma_params (as : AddressSpace) (fuel : Nat) (s : AppleSIOState) (i : Nat)
    (ep : AppleSIODMAEndpoint) (m : sio_msg) (handle_addr : Nat) (s1 : AppleSIOState)
    (h : start_dma as fuel s i ep m handle_addr = some s1) :
    s1.params = s.params := by
  unfold start_dma at h
  repeat' split at h
  all_goals first
    | exact start_dma_segments_params _ _ _ _ _ _ _ _ _ h
    | (cases h; rfl)

theorem dma_params (as : AddressSpace) (fuel : Nat) (s : AppleSIOState) (i : Nat) (m : sio_msg)
    (s1 : AppleSIOState) (h : apple_sio_dma as fuel s i m = some s1) :
    s1.params = s.params := by
  unfold apple_sio_dma at h
  repeat' split at h
  all_goals first
    | exact start_dma_params _ _ _ _ _ _ _ _ h
    | (cases h; rfl)
    | cases h

theorem dma_advance_params (s : AppleSIOState) (i : Nat) (ep : AppleSIODMAEndpoint) (xlen : Int)
    (s1 : AppleSIOState) (h : dma_advance s i ep xlen = some s1) : s1.params = s.params := by
  unfold dma_advance at h
  repeat' split at h
  all_goals first
    | (cases h; rfl)
    | cases h

theorem read_params (host : Nat → Nat) (s : AppleSIOState) (i len : Nat)
    (r : Int × List Nat × AppleSIOState) (h : apple_sio_dma_read host s i len = some r) :
    r.2.2.params = s.params := by
  unfold apple_sio_dma_read at h
  repeat' split at h
  all_goals first
    | (obtain ⟨s1, h1, h2⟩ := Option.map_eq_some'.mp h
       subst h2; exact dma_advance_params _ _ _ _ _ h1)
    | (cases h; rfl)
    | cases h

theorem write_params (s : AppleSIOState) (i : Nat) (buffer : List Nat) (len : Nat)
    (r : Int × List (Nat × Nat) × AppleSIOState)
    (h : apple_sio_dma_write s i buffer len = some r) :
    r.2.2.params = s.params := by
  unfold apple_sio_dma_write at h
  repeat' split at h
  all_goals first
    | (obtain ⟨s1, h1, h2⟩ := Option.map_eq_some'.mp h
       subst h2; exact dma_advance_params _ _ _ _ _ h1)
    | (cases h; rfl)
    | cases h

theorem control_params_other (s : AppleSIOState) (m : sio_msg) (s1 : AppleSIOState) (id : Nat)
    (h : apple_sio_control s m = some s1) (hnot : ¬ (m.op = OP_SET_PARAM ∧ m.param = id)) :
    s1.params[id]? = s.params[id]? := by
  unfold apple_sio_control at h
  repeat' split at h
  all_goals try (first | (cases h; rfl) | (cases h; done))
  next h2 h3 _ =>
    cases h
    have hne : m.param ≠ id := fun hp => hnot ⟨h3, hp⟩
    simp [apple_rtkit_send_user_msg, List.getElem?_set_ne hne]

theorem handle_params_other (as : AddressSpace) (fuel : Nat) (s : AppleSIOState) (msg : Nat)
    (s1 : AppleSIOState) (id : Nat)
    (h : apple_sio_handle_endpoint as fuel s msg = some s1)
    (hnot : ¬ writes_param id (SIOEvent.request as fuel msg)) :
    s1.params[id]? = s.params[id]? := by
  simp only [apple_sio_handle_endpoint] at h
  simp only [writes_param] at hnot
  split at h
  · next hc => exact control_params_other _ _ _ _ h (fun hh => hnot ⟨hc, hh⟩)
  · split at h
    · cases h; rfl
    · rw [dma_params _ _ _ _ _ _ h]

theorem step_params_other (s : AppleSIOState) (e : SIOEvent) (s1 : AppleSIOState) (id : Nat)
    (h : sio_step s e = some s1) (hnot : ¬ writes_param id e) :
    s1.params[id]? = s.params[id]? := by
  cases e with
  | request as fuel msg => exact handle_params_other as fuel s msg s1 id h hnot
  | read host i len =>
    obtain ⟨r, h1, h2⟩ := Option.map_eq_some'.mp h
    subst h2; rw [read_params _ _ _ _ _ h1]
  | write i buffer len =>
    obtain ⟨r, h1, h2⟩ := Option.map_eq_some'.mp h
    subst h2; rw [write_params _ _ _ _ _ h1]

theorem run_params_other (es : List SIOEvent) (id : Nat) :
    ∀ s s1 : AppleSIOState, sio_run s es = some s1 → (∀ e ∈ es, ¬ writes_param id e) →
      s1.params[id]? = s.params[id]? := by
  induction es with
  | nil => intro s s1 h _; cases h; rfl
  | cons e es ih =>
    intro s s1 h hnot
    simp only [sio_run] at h
    cases hs : sio_step s e with
    | none => rw [hs] at h; cases h
    | some s2 =>
      rw [hs] at h
      rw [ih s2 s1 h (fun x hx => hnot x (List.mem_cons_of_mem _ hx)),
        step_params_other s e s2 id hs (hnot e (List.mem_cons_self _ _))]

theorem reset_endpoint_params (s : AppleSIOState) (i : Nat) :
    (reset_endpoint s i).params = s.params := by
  simp only [reset_endpoint]
  split
  · rfl
  · split <;> (split <;> rfl)

theorem foldl_reset_endpoint_params (l : List Nat) :
    ∀ s : AppleSIOState, (l.foldl reset_endpoint s).params = s.params := by
  induction l with
  | nil => intro s; rfl
  | cons i l ih => intro s; rw [List.foldl_cons, ih, reset_endpoint_params]

theorem reset_state_params (num_eps num_params config_size : Nat) (s0 : AppleSIOState)
    (h : sio_reset_state num_eps num_params config_size = some s0) :
    s0.params = (List.replicate num_params 0).set PARAM_PROTOCOL 9 := by
  unfold sio_reset_state apple_sio_reset_hold at h
  split at h
  · cases h
    rw [foldl_reset_endpoint_params]
    rfl
  · cases h

/-- C4 (amended): starting from the reset state and after any events among
which no SET_PARAM request writes parameter `id`, a GET_PARAM request for `id`
is answered by GET_PARAM_RETURN with payload 0 when `id` is not
PARAM_PROTOCOL, and with payload 9, the value stored by reset, when it is. -/
theorem get_param_never_set (num_eps num_params config_size : Nat) (s0 s : AppleSIOState)
    (events : List SIOEvent) (id : Nat)
    (h0 : sio_reset_state num_eps num_params config_size = some s0)
    (hrun : sio_run s0 events = some s)
    (hnot : ∀ e ∈ events, ¬ writes_param id e)
    (hid : id < 256) (hin : id < num_params)
    (as : AddressSpace) (fuel e t d : Nat) (he : e = EP_CONTROL ∨ e = EP_PERF) (ht : t < 256)
    (hd : d < 4294967296) :
    apple_sio_handle_endpoint as fuel s
        ({ ep := e, tag := t, op := OP_GET_PARAM, param := id, data := d } : sio_msg).raw =
      some { s with
        outbox := s.outbox ++
          [({ ep := e, tag := t, op := OP_GET_PARAM_RETURN, param := 0,
              data := if id = PARAM_PROTOCOL then 9 else 0 } : sio_msg).raw] } := by
  have hp : s.params[id]? = some (if id = PARAM_PROTOCOL then 9 else 0) := by
    rw [run_params_other events id s0 s hrun hnot, reset_state_params _ _ _ _ h0]
    by_cases hz : id = PARAM_PROTOCOL
    · subst hz
      simp only [if_true]
      rw [List.getElem?_set_self (by simpa using hin)]
    · rw [if_neg hz, List.getElem?_set_ne (Ne.symm hz)]
      simp [hin]
  refine handle_get_param as fuel s e t id d _ he ht hid hd hp ?_
  split <;> decide

/-- C4 (witness): after reset and a SET_PARAM(5, 7), GET_PARAM(2) is answered
with payload 0. -/
theorem get_param_never_set_witness :
    apple_sio_handle_endpoint address_space_none 0
        { sio_reset_example with
          params := sio_reset_example.params.set 5 7,
          outbox := [({ ep := 0, tag := 1, op := OP_ACK, param := 0, data := 0 } : sio_msg).raw] }
        ({ ep := 0, tag := 2, op := OP_GET_PARAM, param := 2, data := 0 } : sio_msg).raw =
      some { sio_reset_example with
        params := sio_reset_example.params.set 5 7,
        outbox := [({ ep := 0, tag := 1, op := OP_ACK, param := 0, data := 0 } : sio_msg).raw] ++
          [({ ep := 0, tag := 2, op := OP_GET_PARAM_RETURN, param := 0,
              data := if 2 = PARAM_PROTOCOL then 9 else 0 } : sio_msg).raw] } :=
  get_param_never_set 4 40 28 sio_reset_example _ [set_param_5_event] 2 (by decide) (by decide)
    (by decide) (by decide) (by decide)
    address_space_none 0 0 2 0 (Or.inl rfl) (by decide) (by decide)

/-- C4 (counterexample): in the reset state, where no SET_PARAM request has
been handled at all, GET_PARAM(PARAM_PROTOCOL) is answered with payload 9. -/
theorem get_param_protocol_counterexample :
    sio_reset_state 4 40 28 = some sio_reset_example ∧
    apple_sio_handle_endpoint address_space_none 0 sio_reset_example
        ({ ep := 0, tag := 1, op := OP_GET_PARAM, param := PARAM_PROTOCOL, data := 0 } :
          sio_msg).raw =
      some { sio_reset_example with
        outbox := [({ ep := 0, tag := 1, op := OP_GET_PARAM_RETURN, param := 0, data := 9 } :
          sio_msg).raw] } ∧
    (sio_msg.of_raw ({ ep := 0, tag := 1, op := OP_GET_PARAM_RETURN, param := 0, data := 9 } :
      sio_msg).raw).data = 9 := by
  refine ⟨by decide, by decide, by decide⟩

/-! ## The DMA sub-protocol, request by request -/

theorem lt_length_of_getElem? {α : Type} (l : List α) (i : Nat) (a : α) (h : l[i]? = some a) :
    i < l.length := by
  by_contra hlt
  rw [List.getElem?_eq_none (by omega)] at h
  cases h

theorem dma_start_mapped (as : AddressSpace) (fuel : Nat) (s : AppleSIOState) (i : Nat)
    (m : sio_msg) (ep : AppleSIODMAEndpoint) (hop : m.op = OP_START_DMA)
    (hep : s.eps[i]? = some ep) (hm : ep.mapped = true)
    (hp : PARAM_DMA_SEGMENT_BASE < s.params.length) :
    apple_sio_dma as fuel s i m =
      some { s with outbox := s.outbox ++
        [({ ep := m.ep, tag := m.tag, op := OP_ERROR, param := 0, data := 0 } : sio_msg).raw] } := by
  have hq : s.params[PARAM_DMA_SEGMENT_BASE]? = some s.params[PARAM_DMA_SEGMENT_BASE] :=
    List.getElem?_eq_getElem hp
  simp [apple_sio_dma, hep, hop, hq, start_dma, hm, apple_rtkit_send_user_msg, OP_START_DMA,
    OP_CONFIG_SHIM]

theorem dma_stop_unmapped (as : AddressSpace) (fuel : Nat) (s : AppleSIOState) (i : Nat)
    (m : sio_msg) (ep : AppleSIODMAEndpoint) (hop : m.op = OP_STOP_DMA)
    (hep : s.eps[i]? = some ep) (hm : ep.mapped = false) :
    apple_sio_dma as fuel s i m =
      some { s with outbox := s.outbox ++
        [({ ep := m.ep, tag := m.tag, op := OP_ERROR, param := 0, data := 0 } : sio_msg).raw] } := by
  simp [apple_sio_dma, hep, hop, hm, apple_rtkit_send_user_msg, OP_START_DMA, OP_CONFIG_SHIM,
    OP_STOP_DMA, OP_QUERY_DMA]

theorem dma_stop_mapped (as : AddressSpace) (fuel : Nat) (s : AppleSIOState) (i : Nat)
    (m : sio_msg) (ep : AppleSIODMAEndpoint) (hop : m.op = OP_STOP_DMA)
    (hep : s.eps[i]? = some ep) (hm : ep.mapped = true) :
    apple_sio_dma as fuel s i m =
      some { s with
        eps := s.eps.set i (unmapped_endpoint ep),
        unmapped := s.unmapped ++ unmap_calls ep.iov ep.actual_length,
        outbox := s.outbox ++
          [({ ep := m.ep, tag := m.tag, op := OP_ACK, param := 0, data := 0 } : sio_msg).raw] } := by
  simp [apple_sio_dma, hep, hop, hm, apple_rtkit_send_user_msg, apple_sio_unmap_dma,
    OP_START_DMA, OP_CONFIG_SHIM, OP_STOP_DMA, OP_QUERY_DMA]

theorem dma_query_unmapped (as : AddressSpace) (fuel : Nat) (s : AppleSIOState) (i : Nat)
    (m : sio_msg) (ep : AppleSIODMAEndpoint) (hop : m.op = OP_QUERY_DMA)
    (hep : s.eps[i]? = some ep) (hm : ep.mapped = false) :
    apple_sio_dma as fuel s i m =
      some { s with outbox := s.outbox ++
        [({ ep := m.ep, tag := m.tag, op := OP_ERROR, param := 0, data := 0 } : sio_msg).raw] } := by
  simp [apple_sio_dma, hep, hop, hm, apple_rtkit_send_user_msg, OP_START_DMA, OP_CONFIG_SHIM,
    OP_STOP_DMA, OP_QUERY_DMA]

theorem dma_query_mapped (as : AddressSpace) (fuel : Nat) (s : AppleSIOState) (i : Nat)
    (m : sio_msg) (ep : AppleSIODMAEndpoint) (hop : m.op = OP_QUERY_DMA)
    (hep : s.eps[i]? = some ep) (hm : ep.mapped = true) :
    apple_sio_dma as fuel s i m =
      some { s with outbox := s.outbox ++
        [({ ep := m.ep, tag := m.tag, op := OP_QUERY_DMA_OK, param := 0,
            data := ep.actual_length % 4294967296 } : sio_msg).raw] } := by
  simp [apple_sio_dma, hep, hop, hm, apple_rtkit_send_user_msg, OP_START_DMA, OP_CONFIG_SHIM,
    OP_STOP_DMA, OP_QUERY_DMA]

/-- C5: a START_DMA request addressed to a mapped endpoint is answered by
ERROR and changes nothing but the host-bound queue: the endpoint's mapping,
segment list, cursor and reply tag, every other endpoint and the parameters
stay as they were.  The outcome is the same for every guest address space,
one whose reads all fail included: guest memory is not consulted. -/
theorem start_dma_on_mapped_endpoint (as : AddressSpace) (fuel : Nat) (s : AppleSIOState)
    (msg : Nat) (ep : AppleSIODMAEndpoint)
    (hop : (sio_msg.of_raw msg).op = OP_START_DMA)
    (h0 : (sio_msg.of_raw msg).ep ≠ EP_CONTROL) (h3 : (sio_msg.of_raw msg).ep ≠ EP_PERF)
    (hep : s.eps[(sio_msg.of_raw msg).ep]? = some ep) (hm : ep.mapped = true)
    (hp : PARAM_DMA_SEGMENT_BASE < s.params.length) :
    apple_sio_handle_endpoint as fuel s msg =
      some { s with outbox := s.outbox ++
        [({ ep := (sio_msg.of_raw msg).ep, tag := (sio_msg.of_raw msg).tag, op := OP_ERROR,
            param := 0, data := 0 } : sio_msg).raw] } ∧
    apple_sio_handle_endpoint as fuel s msg =
      apple_sio_handle_endpoint address_space_none fuel s msg := by
  have hlt := lt_length_of_getElem? _ _ _ hep
  rw [handle_dma _ _ _ _ h0 h3 hlt, handle_dma _ _ _ _ h0 h3 hlt,
    dma_start_mapped _ _ _ _ _ _ hop hep hm hp, dma_start_mapped _ _ _ _ _ _ hop hep hm hp]
  exact ⟨rfl, rfl⟩

/-- C5 (witness): START_DMA with tag 9 on endpoint 1 of the example state,
which is mapped. -/
theorem start_dma_on_mapped_endpoint_witness :
    apple_sio_handle_endpoint address_space_none 0 sio_mapped_example
        ({ ep := 1, tag := 9, op := OP_START_DMA, param := 0, data := 0 } : sio_msg).raw =
      some { sio_mapped_example with outbox := sio_mapped_example.outbox ++
        [({ ep := (sio_msg.of_raw
              ({ ep := 1, tag := 9, op := OP_START_DMA, param := 0, data := 0 } : sio_msg).raw).ep,
            tag := (sio_msg.of_raw
              ({ ep := 1, tag := 9, op := OP_START_DMA, param := 0, data := 0 } : sio_msg).raw).tag,
            op := OP_ERROR, param := 0, data := 0 } : sio_msg).raw] } :=
  (start_dma_on_mapped_endpoint address_space_none 0 sio_mapped_example
    ({ ep := 1, tag := 9, op := OP_START_DMA, param := 0, data := 0 } : sio_msg).raw
    (mapped_endpoint_example 1 DMADirection.DMA_DIRECTION_FROM_DEVICE 0)
    (by decide) (by decide) (by decide) (by decide) (by decide) (by decide)).1

/-- C8: a STOP_DMA request addressed to an unmapped endpoint is answered by
ERROR and changes nothing but the host-bound queue: the parameters and every
endpoint are the same after the request as before it. -/
theorem stop_dma_on_unmapped_endpoint (as : AddressSpace) (fuel : Nat) (s : AppleSIOState)
    (msg : Nat) (ep : AppleSIODMAEndpoint)
    (hop : (sio_msg.of_raw msg).op = OP_STOP_DMA)
    (h0 : (sio_msg.of_raw msg).ep ≠ EP_CONTROL) (h3 : (sio_msg.of_raw msg).ep ≠ EP_PERF)
    (hep : s.eps[(sio_msg.of_raw msg).ep]? = some ep) (hm : ep.mapped = false) :
    apple_sio_handle_endpoint as fuel s msg =
      some { s with outbox := s.outbox ++
        [({ ep := (sio_msg.of_raw msg).ep, tag := (sio_msg.of_raw msg).tag, op := OP_ERROR,
            param := 0, data := 0 } : sio_msg).raw] } := by
  have hlt := lt_length_of_getElem? _ _ _ hep
  rw [handle_dma _ _ _ _ h0 h3 hlt, dma_stop_unmapped _ _ _ _ _ _ hop hep hm]

/-- C8 (witness): STOP_DMA on endpoint 1 of the reset state, which is unmapped. -/
theorem stop_dma_on_unmapped_endpoint_witness :
    apple_sio_handle_endpoint address_space_none 0 sio_reset_example
        ({ ep := 1, tag := 9, op := OP_STOP_DMA, param := 0, data := 0 } : sio_msg).raw =
      some { sio_reset_example with outbox := sio_reset_example.outbox ++
        [({ ep := (sio_msg.of_raw
              ({ ep := 1, tag := 9, op := OP_STOP_DMA, param := 0, data := 0 } : sio_msg).raw).ep,
            tag := (sio_msg.of_raw
              ({ ep := 1, tag := 9, op := OP_STOP_DMA, param := 0, data := 0 } : sio_msg).raw).tag,
            op := OP_ERROR, param := 0, data := 0 } : sio_msg).raw] } :=
  stop_dma_on_unmapped_endpoint address_space_none 0 sio_reset_example
    ({ ep := 1, tag := 9, op := OP_STOP_DMA, param := 0, data := 0 } : sio_msg).raw
    { endpoint_zero 28 with id := 1, dir := DMADirection.DMA_DIRECTION_FROM_DEVICE }
    (by decide) (by decide) (by decide) (by decide) (by decide)

theorem unmap_loop_buffers (iov : List iovec) :
    ∀ n : Int, (unmap_loop iov n).map Prod.fst = iov := by
  induction iov with
  | nil => intro n; rfl
  | cons v vs ih => intro n; simp [unmap_loop, ih]

theorem unmap_calls_buffers (iov : List iovec) (n : Nat) :
    (unmap_calls iov n).map Prod.fst = iov :=
  unmap_loop_buffers iov _

/-- C9: a STOP_DMA request addressed to a mapped endpoint is answered by ACK;
afterwards that endpoint is unmapped, its cursor, reply tag and segment count
are 0, its I/O vector, segment array and scatter-gather list are gone, and
every buffer of the mapping has been handed back to the memory system; every
other endpoint and the parameters are as before. -/
theorem stop_dma_on_mapped_endpoint (as : AddressSpace) (fuel : Nat) (s : AppleSIOState)
    (msg : Nat) (ep : AppleSIODMAEndpoint)
    (hop : (sio_msg.of_raw msg).op = OP_STOP_DMA)
    (h0 : (sio_msg.of_raw msg).ep ≠ EP_CONTROL) (h3 : (sio_msg.of_raw msg).ep ≠ EP_PERF)
    (hep : s.eps[(sio_msg.of_raw msg).ep]? = some ep) (hm : ep.mapped = true) :
    ∃ s1 ep1 released,
      apple_sio_handle_endpoint as fuel s msg = some s1 ∧
      s1.outbox = s.outbox ++
        [({ ep := (sio_msg.of_raw msg).ep, tag := (sio_msg.of_raw msg).tag, op := OP_ACK,
            param := 0, data := 0 } : sio_msg).raw] ∧
      s1.eps[(sio_msg.of_raw msg).ep]? = some ep1 ∧
      ep1.mapped = false ∧ ep1.actual_length = 0 ∧ ep1.tag = 0 ∧ ep1.count = 0 ∧
      ep1.iov = [] ∧ ep1.segments = none ∧ ep1.sgl = [] ∧
      ep1.id = ep.id ∧ ep1.dir = ep.dir ∧ ep1.config = ep.config ∧
      s1.unmapped = s.unmapped ++ released ∧ released.map Prod.fst = ep.iov ∧
      (∀ j, j ≠ (sio_msg.of_raw msg).ep → s1.eps[j]? = s.eps[j]?) ∧
      s1.eps.length = s.eps.length ∧
      s1.params = s.params := by
  have hlt := lt_length_of_getElem? _ _ _ hep
  refine ⟨{ s with
      eps := s.eps.set (sio_msg.of_raw msg).ep (unmapped_endpoint ep),
      unmapped := s.unmapped ++ unmap_calls ep.iov ep.actual_length,
      outbox := s.outbox ++
        [({ ep := (sio_msg.of_raw msg).ep, tag := (sio_msg.of_raw msg).tag, op := OP_ACK,
            param := 0, data := 0 } : sio_msg).raw] },
    unmapped_endpoint ep, unmap_calls ep.iov ep.actual_length, ?_, rfl, ?_, rfl, rfl,
    rfl, rfl, rfl, rfl, rfl, rfl, rfl, rfl, rfl, unmap_calls_buffers _ _, ?_, ?_, rfl⟩
  · rw [handle_dma _ _ _ _ h0 h3 hlt, dma_stop_mapped _ _ _ _ _ _ hop hep hm]
  · simp [hlt]
  · intro j hj
    simp [List.getElem?_set_ne (Ne.symm hj)]
  · simp

/-- C9 (witness): STOP_DMA with tag 9 on endpoint 2 of the example state,
which is mapped with cursor 0x10. -/
theorem stop_dma_on_mapped_endpoint_witness :
    ∃ s1 ep1 released,
      apple_sio_handle_endpoint address_space_none 0 sio_mapped_example
        ({ ep := 2, tag := 9, op := OP_STOP_DMA, param := 0, data := 0 } : sio_msg).raw =
          some s1 ∧
      s1.outbox = sio_mapped_example.outbox ++
        [({ ep := (sio_msg.of_raw
              ({ ep := 2, tag := 9, op := OP_STOP_DMA, param := 0, data := 0 } : sio_msg).raw).ep,
            tag := (sio_msg.of_raw
              ({ ep := 2, tag := 9, op := OP_STOP_DMA, param := 0, data := 0 } : sio_msg).raw).tag,
            op := OP_ACK, param := 0, data := 0 } : sio_msg).raw] ∧
      s1.eps[(sio_msg.of_raw
        ({ ep := 2, tag := 9, op := OP_STOP_DMA, param := 0, data := 0 } : sio_msg).raw).ep]? =
          some ep1 ∧
      ep1.mapped = false ∧ ep1.actual_length = 0 ∧ ep1.tag = 0 ∧ ep1.count = 0 ∧
      ep1.iov = [] ∧ ep1.segments = none ∧ ep1.sgl = [] ∧
      ep1.id = (mapped_endpoint_example 2 DMADirection.DMA_DIRECTION_TO_DEVICE 0x10).id ∧
      ep1.dir = (mapped_endpoint_example 2 DMADirection.DMA_DIRECTION_TO_DEVICE 0x10).dir ∧
      ep1.config = (mapped_endpoint_example 2 DMADirection.DMA_DIRECTION_TO_DEVICE 0x10).config ∧
      s1.unmapped = sio_mapped_example.unmapped ++ released ∧
      released.map Prod.fst =
        (mapped_endpoint_example 2 DMADirection.DMA_DIRECTION_TO_DEVICE 0x10).iov ∧
      (∀ j, j ≠ (sio_msg.of_raw
          ({ ep := 2, tag := 9, op := OP_STOP_DMA, param := 0, data := 0 } : sio_msg).raw).ep →
        s1.eps[j]? = sio_mapped_example.eps[j]?) ∧
      s1.eps.length = sio_mapped_example.eps.length ∧
      s1.params = sio_mapped_example.params :=
  stop_dma_on_mapped_endpoint address_space_none 0 sio_mapped_example
    ({ ep := 2, tag := 9, op := OP_STOP_DMA, param := 0, data := 0 } : sio_msg).raw
    (mapped_endpoint_example 2 DMADirection.DMA_DIRECTION_TO_DEVICE 0x10)
    (by decide) (by decide) (by decide) (by decide) (by decide)

/-- C10: a QUERY_DMA request is answered by QUERY_DMA_OK with the endpoint's
cursor as payload when the endpoint is mapped (the cursor being a 32-bit
value, as the payload field is), and by ERROR when the endpoint is unmapped;
in both cases nothing changes but the host-bound queue. -/
theorem query_dma_reply (as : AddressSpace) (fuel : Nat) (s : AppleSIOState)
    (msg : Nat) (ep : AppleSIODMAEndpoint)
    (hop : (sio_msg.of_raw msg).op = OP_QUERY_DMA)
    (h0 : (sio_msg.of_raw msg).ep ≠ EP_CONTROL) (h3 : (sio_msg.of_raw msg).ep ≠ EP_PERF)
    (hep : s.eps[(sio_msg.of_raw msg).ep]? = some ep) :
    (ep.mapped = true → ep.actual_length < 4294967296 →
      apple_sio_handle_endpoint as fuel s msg =
        some { s with outbox := s.outbox ++
          [({ ep := (sio_msg.of_raw msg).ep, tag := (sio_msg.of_raw msg).tag,
              op := OP_QUERY_DMA_OK, param := 0, data := ep.actual_length } : sio_msg).raw] }) ∧
    (ep.mapped = false →
      apple_sio_handle_endpoint as fuel s msg =
        some { s with outbox := s.outbox ++
          [({ ep := (sio_msg.of_raw msg).ep, tag := (sio_msg.of_raw msg).tag, op := OP_ERROR,
              param := 0, data := 0 } : sio_msg).raw] }) := by
  have hlt := lt_length_of_getElem? _ _ _ hep
  constructor
  · intro hm hc
    rw [handle_dma _ _ _ _ h0 h3 hlt, dma_query_mapped _ _ _ _ _ _ hop hep hm,
      Nat.mod_eq_of_lt hc]
  · intro hm
    rw [handle_dma _ _ _ _ h0 h3 hlt, dma_query_unmapped _ _ _ _ _ _ hop hep hm]

/-- C10 (witness): QUERY_DMA with tag 9 on endpoint 2 of the example state,
mapped with cursor 0x10, is answered by QUERY_DMA_OK with payload 0x10. -/
theorem query_dma_reply_witness :
    apple_sio_handle_endpoint address_space_none 0 sio_mapped_example
        ({ ep := 2, tag := 9, op := OP_QUERY_DMA, param := 0, data := 0 } : sio_msg).raw =
      some { sio_mapped_example with outbox := sio_mapped_example.outbox ++
        [({ ep := (sio_msg.of_raw
              ({ ep := 2, tag := 9, op := OP_QUERY_DMA, param := 0, data := 0 } : sio_msg).raw).ep,
            tag := (sio_msg.of_raw
              ({ ep := 2, tag := 9, op := OP_QUERY_DMA, param := 0, data := 0 } : sio_msg).raw).tag,
            op := OP_QUERY_DMA_OK, param := 0,
            data := (mapped_endpoint_example 2
              DMADirection.DMA_DIRECTION_TO_DEVICE 0x10).actual_length } : sio_msg).raw] } :=
  (query_dma_reply address_space_none 0 sio_mapped_example
    ({ ep := 2, tag := 9, op := OP_QUERY_DMA, param := 0, data := 0 } : sio_msg).raw
    (mapped_endpoint_example 2 DMADirection.DMA_DIRECTION_TO_DEVICE 0x10)
    (by decide) (by decide) (by decide) (by decide)).1 (by decide) (by decide)

/-! ## The transfer path -/

theorem length_iov_addresses (iov : List iovec) : (iov_addresses iov).length = iov_size iov := by
  induction iov with
  | nil => rfl
  | cons v vs ih => simp [iov_addresses, iov_size, ih]

theorem length_qemu_iovec_to_buf (host : Nat → Nat) (iov : List iovec) (offset bytes : Nat) :
    (qemu_iovec_to_buf host iov offset bytes).length = min bytes (iov_size iov - offset) := by
  simp [qemu_iovec_to_buf, length_iov_addresses]

theorem length_qemu_iovec_from_buf (iov : List iovec) (offset : Nat) (buffer : List Nat)
    (bytes : Nat) :
    (qemu_iovec_from_buf iov offset buffer bytes).length = min bytes (iov_size iov - offset) := by
  simp [qemu_iovec_from_buf, length_iov_addresses]

theorem dma_call_unmapped (s : AppleSIOState) (i : Nat) (c : DMACall) (ep : AppleSIODMAEndpoint)
    (hep : s.eps[i]? = some ep) (hm : ep.mapped = false) : dma_call s i c = some (0, s) := by
  cases c <;> simp [dma_call, apple_sio_dma_read, apple_sio_dma_write, hep, hm]

theorem dma_call_mapped (s : AppleSIOState) (i : Nat) (c : DMACall) (ep : AppleSIODMAEndpoint)
    (hep : s.eps[i]? = some ep) (hm : ep.mapped = true) (hdir : c.dir = ep.dir) :
    dma_call s i c =
      (dma_advance s i ep
          (to_int (min c.len (iov_size ep.iov - ep.actual_length) : Nat))).map fun s1 =>
        (to_int (min c.len (iov_size ep.iov - ep.actual_length) : Nat), s1) := by
  cases c with
  | read host len =>
    simp only [DMACall.dir] at hdir
    simp [dma_call, apple_sio_dma_read, hep, hm, ← hdir, length_qemu_iovec_to_buf, DMACall.len,
      Option.map_map, Function.comp_def]
  | write buffer len =>
    simp only [DMACall.dir] at hdir
    simp [dma_call, apple_sio_dma_write, hep, hm, ← hdir, length_qemu_iovec_from_buf,
      DMACall.len, Option.map_map, Function.comp_def]

theorem dma_calls_cons (s : AppleSIOState) (i : Nat) (c : DMACall) (cs : List DMACall)
    (x : Int) (s1 : AppleSIOState) (h : dma_call s i c = some (x, s1)) :
    dma_calls s i (c :: cs) = (dma_calls s1 i cs).map fun r => (x :: r.1, r.2) := by
  simp only [dma_calls, h]

theorem dma_calls_three (s0 s1 s2 s3 : AppleSIOState) (i : Nat) (c1 c2 c3 : DMACall)
    (x1 x2 x3 : Int) (h1 : dma_call s0 i c1 = some (x1, s1))
    (h2 : dma_call s1 i c2 = some (x2, s2)) (h3 : dma_call s2 i c3 = some (x3, s3)) :
    dma_calls s0 i [c1, c2, c3] = some ([x1, x2, x3], s3) := by
  rw [dma_calls_cons s0 i c1 _ x1 s1 h1, dma_calls_cons s1 i c2 _ x2 s2 h2,
    dma_calls_cons s2 i c3 _ x3 s3 h3]
  rfl

theorem dma_calls_unmapped (cs : List DMACall) (s : AppleSIOState) (i : Nat)
    (ep : AppleSIODMAEndpoint) (hep : s.eps[i]? = some ep) (hm : ep.mapped = false) :
    dma_calls s i cs = some (List.replicate cs.length 0, s) := by
  induction cs with
  | nil => rfl
  | cons c cs ih =>
    simp [dma_calls, dma_call_unmapped s i c ep hep hm, ih, List.replicate_succ]

theorem sum_replicate_zero (n : Nat) : (List.replicate n (0 : Int)).sum = 0 := by
  induction n with
  | zero => rfl
  | succ n ih => simp [List.replicate_succ, ih]

theorem dma_advance_done (s : AppleSIOState) (i : Nat) (ep : AppleSIODMAEndpoint) (x : Nat)
    (hid : ep.id = i) (hx : ep.actual_length + x < 4294967296)
    (h : iov_size ep.iov ≤ ep.actual_length + x) :
    dma_advance s i ep (to_int x) =
      some (apple_sio_dma_writeback s i { ep with actual_length := ep.actual_length + x }) := by
  simp [dma_advance, cursor_add_small _ _ hx, hid, h]

theorem dma_advance_more (s : AppleSIOState) (i : Nat) (ep : AppleSIODMAEndpoint) (x : Nat)
    (hx : ep.actual_length + x < 4294967296)
    (h : ep.actual_length + x < iov_size ep.iov) :
    dma_advance s i ep (to_int x) =
      some { s with eps := s.eps.set i { ep with actual_length := ep.actual_length + x } } := by
  have h2 : ¬ (ep.actual_length + x ≥ iov_size ep.iov) := by omega
  simp only [dma_advance, cursor_add_small _ _ hx, if_neg h2]

theorem writeback_endpoint (s : AppleSIOState) (i : Nat) (ep : AppleSIODMAEndpoint)
    (hi : i < s.eps.length) :
    (apple_sio_dma_writeback s i ep).eps[i]? = some (unmapped_endpoint ep) := by
  simp [apple_sio_dma_writeback, apple_rtkit_send_user_msg, apple_sio_unmap_dma, hi]

/-- Calls in the endpoint's direction on an endpoint mapped over less than
2^32 bytes never leave the defined behaviour.  Each count returned is the
number of bytes moved, converted to `int`, so the cursor plus the counts
returned is, modulo 2^32, the cursor plus the bytes moved: it never exceeds the
mapped size, and once it is exactly the mapped size the state is the one left
by a single writeback at the mapped size. -/
theorem dma_calls_complete (i : Nat) (cs : List DMACall) :
    ∀ (s : AppleSIOState) (ep : AppleSIODMAEndpoint), s.eps[i]? = some ep →
      ep.mapped = true → ep.id = i → ep.actual_length ≤ iov_size ep.iov →
      iov_size ep.iov < 4294967296 →
      (∀ c ∈ cs, c.dir = ep.dir) →
      ∃ xs s1, dma_calls s i cs = some (xs, s1) ∧ xs.length = cs.length ∧
        ((ep.actual_length : Int) + xs.sum) % 4294967296 ≤ iov_size ep.iov ∧
        (cs ≠ [] → ((ep.actual_length : Int) + xs.sum) % 4294967296 = iov_size ep.iov →
          s1 = apple_sio_dma_writeback s i { ep with actual_length := iov_size ep.iov }) := by
  induction cs with
  | nil =>
    intro s ep _ _ _ hc hL _
    refine ⟨[], s, rfl, rfl, ?_, fun h => absurd rfl h⟩
    simp only [List.sum_nil]
    omega
  | cons c cs ih =>
    intro s ep hep hm hid hc hL hdir
    have hi := lt_length_of_getElem? _ _ _ hep
    have hcall := dma_call_mapped s i c ep hep hm (hdir c (List.mem_cons_self _ _))
    have hxle : min c.len (iov_size ep.iov - ep.actual_length) ≤
        iov_size ep.iov - ep.actual_length := Nat.min_le_right _ _
    generalize min c.len (iov_size ep.iov - ep.actual_length) = x at hcall hxle
    have hxi := to_int_eq x
    by_cases hdone : iov_size ep.iov ≤ ep.actual_length + x
    · have hsum : ep.actual_length + x = iov_size ep.iov := by omega
      rw [dma_advance_done s i ep _ hid (by omega) hdone, hsum] at hcall
      have hrest := dma_calls_unmapped cs _ i _ (writeback_endpoint s i
        { ep with actual_length := iov_size ep.iov } hi) rfl
      refine ⟨to_int x :: List.replicate cs.length 0, _, ?_, by simp, ?_, fun _ _ => rfl⟩
      · simp only [dma_calls, hcall, Option.map_some', hrest]
      · simp only [List.sum_cons, sum_replicate_zero]
        omega
    · have hlt : ep.actual_length + x < iov_size ep.iov := by omega
      rw [dma_advance_more s i ep _ (by omega) hlt] at hcall
      obtain ⟨xs, s1, hrun, hlen, hle, hfin⟩ := ih
        { s with eps := s.eps.set i ({ ep with actual_length := ep.actual_length + x }) }
        { ep with actual_length := ep.actual_length + x }
        (by simp [hi]) hm hid (Nat.le_of_lt hlt) hL
        (fun y hy => hdir y (List.mem_cons_of_mem _ hy))
      simp only [Nat.cast_add] at hle hfin
      refine ⟨to_int x :: xs, s1, ?_, by simp [hlen], ?_, ?_⟩
      · simp only [dma_calls, hcall, Option.map_some', hrun]
      · simp only [List.sum_cons]
        omega
      · intro _ htot
        simp only [List.sum_cons] at htot
        have hne : cs ≠ [] := by
          intro hnil
          subst hnil
          have : xs = [] := List.length_eq_zero.mp (by simpa using hlen)
          subst this
          simp only [List.sum_nil] at htot
          omega
        have h2 := hfin hne (by omega)
        rw [h2]
        simp [apple_sio_dma_writeback, apple_sio_unmap_dma, apple_rtkit_send_user_msg,
          unmapped_endpoint]

theorem writeback_outbox (s : AppleSIOState) (i : Nat) (ep : AppleSIODMAEndpoint)
    (hL : ep.actual_length < 4294967296) :
    ∃ r, (apple_sio_dma_writeback s i ep).outbox = s.outbox ++ [r] ∧
      sio_msg.of_raw r = dma_complete_msg ep ep.actual_length := by
  refine ⟨_, rfl, ?_⟩
  have h := of_raw_raw
    { op := OP_DMA_COMPLETE, ep := ep.id % 256, param := 128, tag := ep.tag % 256,
      data := ep.actual_length % 4294967296 }
    (Nat.mod_lt _ (by decide)) (Nat.mod_lt _ (by decide))
    (show OP_DMA_COMPLETE < 256 by decide) (show (128 : Nat) < 256 by decide)
    (Nat.mod_lt _ (by decide))
  rw [h, Nat.mod_eq_of_lt hL]
  rfl

/-- C6 (amended): on a mapped endpoint whose mapping is L bytes long, L below
2^32, every non-empty sequence of calls in the endpoint's direction (read
calls on a to-device endpoint, write calls on a from-device endpoint) runs to
its end, and whenever the bytes it moves bring the cursor to exactly L (each
count returned is the bytes moved as an `int`, so: the cursor plus the counts
returned is L modulo 2^32; from a fresh mapping, the counts sum to L), exactly
one message has been sent, a DMA_COMPLETE with payload L, the endpoint is
unmapped, and any further read or write call returns 0 and leaves the state,
the host-bound queue included, as it is. -/
theorem transfer_consumes_mapping (s : AppleSIOState) (i : Nat) (ep : AppleSIODMAEndpoint)
    (cs : List DMACall) (hep : s.eps[i]? = some ep) (hm : ep.mapped = true) (hid : ep.id = i)
    (hc : ep.actual_length ≤ iov_size ep.iov) (hL : iov_size ep.iov < 4294967296)
    (hdir : ∀ c ∈ cs, c.dir = ep.dir) (hne : cs ≠ []) :
    (∃ xs s1, dma_calls s i cs = some (xs, s1)) ∧
    ∀ xs s1, dma_calls s i cs = some (xs, s1) →
      ((ep.actual_length : Int) + xs.sum) % 4294967296 = iov_size ep.iov →
      (∃ r, s1.outbox = s.outbox ++ [r] ∧
        sio_msg.of_raw r = dma_complete_msg ep (iov_size ep.iov)) ∧
      (∃ ep1, s1.eps[i]? = some ep1 ∧ ep1.mapped = false) ∧
      (∀ c, dma_call s1 i c = some (0, s1)) := by
  obtain ⟨xs0, s0, hrun0, -, -, hfin⟩ := dma_calls_complete i cs s ep hep hm hid hc hL hdir
  refine ⟨⟨xs0, s0, hrun0⟩, ?_⟩
  intro xs s1 hrun hsum
  rw [hrun0] at hrun
  simp only [Option.some.injEq, Prod.mk.injEq] at hrun
  obtain ⟨rfl, rfl⟩ := hrun
  have hs := hfin hne hsum
  have hi := lt_length_of_getElem? _ _ _ hep
  have hunm := writeback_endpoint s i { ep with actual_length := iov_size ep.iov } hi
  rw [← hs] at hunm
  refine ⟨?_, ⟨_, hunm, rfl⟩, fun c => dma_call_unmapped _ i c _ hunm rfl⟩
  rw [hs]
  exact writeback_outbox s i { ep with actual_length := iov_size ep.iov } hL

/-- C6 (witness): endpoint 2 of the example state is mapped over 0x30 bytes
with cursor 0x10; reads of 8 and 0x100 bytes move 8 and 0x18 bytes and
complete the transfer. -/
theorem transfer_consumes_mapping_witness :
    dma_calls sio_mapped_example 2 two_reads_example = some ([8, 0x18], sio_reads_done_example) ∧
    (((mapped_endpoint_example 2 DMADirection.DMA_DIRECTION_TO_DEVICE 0x10).actual_length : Int) +
      ([8, 0x18] : List Int).sum) % 4294967296 =
      iov_size (mapped_endpoint_example 2 DMADirection.DMA_DIRECTION_TO_DEVICE 0x10).iov ∧
    ((∃ r, sio_reads_done_example.outbox = sio_mapped_example.outbox ++ [r] ∧
        sio_msg.of_raw r =
          dma_complete_msg (mapped_endpoint_example 2 DMADirection.DMA_DIRECTION_TO_DEVICE 0x10)
            (iov_size
              (mapped_endpoint_example 2 DMADirection.DMA_DIRECTION_TO_DEVICE 0x10).iov)) ∧
      (∃ ep1, sio_reads_done_example.eps[2]? = some ep1 ∧ ep1.mapped = false) ∧
      (∀ c, dma_call sio_reads_done_example 2 c = some (0, sio_reads_done_example))) :=
  ⟨by decide, by decide,
    (transfer_consumes_mapping sio_mapped_example 2
      (mapped_endpoint_example 2 DMADirection.DMA_DIRECTION_TO_DEVICE 0x10) two_reads_example
      (by decide) (by decide) (by decide) (by decide) (by decide) (by decide)
      (List.cons_ne_nil _ _)).2
      [8, 0x18] sio_reads_done_example (by decide) (by decide)⟩

/-- C6 (counterexample): endpoint 2, to device, is mapped over one buffer of
0x100000000 bytes with cursor 0.  Reads of 0x60000000, 0x60000000 and
0x40000000 bytes return these counts, which sum to the mapped length; the
state after them is the state before them: the endpoint is mapped, its cursor
is 0, and no DMA_COMPLETE has been sent. -/
theorem transfer_wraps_counterexample :
    (sio_one_buffer_example 0x100000000 0).eps[2]? =
      some (one_buffer_endpoint 2 DMADirection.DMA_DIRECTION_TO_DEVICE 0x100000000 0) ∧
    (one_buffer_endpoint 2 DMADirection.DMA_DIRECTION_TO_DEVICE 0x100000000 0).mapped = true ∧
    iov_size (one_buffer_endpoint 2 DMADirection.DMA_DIRECTION_TO_DEVICE 0x100000000 0).iov =
      0x100000000 ∧
    dma_calls (sio_one_buffer_example 0x100000000 0) 2 three_reads_example =
      some ([0x60000000, 0x60000000, 0x40000000], sio_one_buffer_example 0x100000000 0) ∧
    ([0x60000000, 0x60000000, 0x40000000] : List Int).sum = 0x100000000 ∧
    (∀ r ∈ (sio_one_buffer_example 0x100000000 0).outbox,
      (sio_msg.of_raw r).op ≠ OP_DMA_COMPLETE) := by
  refine ⟨by decide, by decide, by decide, ?_, by decide, by decide⟩
  have h1 : dma_call (sio_one_buffer_example 0x100000000 0) 2
      (DMACall.read (fun a => a % 256) 0x60000000) =
      some (0x60000000, sio_one_buffer_example 0x100000000 0x60000000) := by
    rw [dma_call_mapped _ 2 _
      (one_buffer_endpoint 2 DMADirection.DMA_DIRECTION_TO_DEVICE 0x100000000 0)
      (by decide) (by decide) (by decide)]
    decide
  have h2 : dma_call (sio_one_buffer_example 0x100000000 0x60000000) 2
      (DMACall.read (fun a => a % 256) 0x60000000) =
      some (0x60000000, sio_one_buffer_example 0x100000000 0xC0000000) := by
    rw [dma_call_mapped _ 2 _
      (one_buffer_endpoint 2 DMADirection.DMA_DIRECTION_TO_DEVICE 0x100000000 0x60000000)
      (by decide) (by decide) (by decide)]
    decide
  have h3 : dma_call (sio_one_buffer_example 0x100000000 0xC0000000) 2
      (DMACall.read (fun a => a % 256) 0x40000000) =
      some (0x40000000, sio_one_buffer_example 0x100000000 0) := by
    rw [dma_call_mapped _ 2 _
      (one_buffer_endpoint 2 DMADirection.DMA_DIRECTION_TO_DEVICE 0x100000000 0xC0000000)
      (by decide) (by decide) (by decide)]
    decide
  exact dma_calls_three _ _ _ _ 2 _ _ _ _ _ _ h1 h2 h3

/-! ## Mapping a scatter-gather list -/

theorem iov_size_append (a b : List iovec) : iov_size (a ++ b) = iov_size a + iov_size b := by
  induction a with
  | nil => simp [iov_size]
  | cons v vs ih => simp [iov_size, ih, Nat.add_assoc]

theorem map_range_total (as : AddressSpace) (dir : DMADirection)
    (hmap : mappings_succeed as dir) :
    ∀ (fuel len k base : Nat) (iov : List iovec), len ≤ fuel →
      ∃ k1 iov1, map_range as dir fuel k base len iov = some (k1, iov1) ∧
        iov_size iov1 = iov_size iov + len := by
  intro fuel
  induction fuel with
  | zero =>
    intro len k base iov hle
    have h0 : len = 0 := by omega
    subst h0
    exact ⟨k, iov, by simp [map_range], rfl⟩
  | succ fuel ih =>
    intro len k base iov hle
    by_cases h0 : len = 0
    · subst h0
      exact ⟨k, iov, by simp [map_range], rfl⟩
    · obtain ⟨mem, xlen, hm, hpos⟩ := hmap k base len (by omega)
      have hx : (if xlen > len then len else xlen) ≤ len := by split <;> omega
      have hx0 : 0 < (if xlen > len then len else xlen) := by split <;> omega
      obtain ⟨k1, iov1, hrun, hsz⟩ := ih (len - (if xlen > len then len else xlen)) (k + 1)
        ((base + (if xlen > len then len else xlen)) % 2 ^ 64)
        (iov ++ [{ iov_base := mem, iov_len := if xlen > len then len else xlen }]) (by omega)
      refine ⟨k1, iov1, ?_, ?_⟩
      · simp only [map_range, if_neg h0, hm]
        exact hrun
      · rw [hsz, iov_size_append]
        simp only [iov_size]
        omega

theorem map_entries_total (as : AddressSpace) (dir : DMADirection) (fuel : Nat)
    (hmap : mappings_succeed as dir) (gs : List ScatterGatherEntry) :
    ∀ (k : Nat) (iov : List iovec), (∀ g ∈ gs, g.len ≤ fuel) →
      ∃ k1 iov1, map_entries as dir fuel gs k iov = some (k1, iov1) ∧
        iov_size iov1 = iov_size iov + (gs.map fun g => g.len).sum := by
  induction gs with
  | nil => intro k iov _; exact ⟨k, iov, rfl, by simp⟩
  | cons g gs ih =>
    intro k iov hf
    obtain ⟨k1, iov1, h1, hs1⟩ := map_range_total as dir hmap fuel g.len k g.base iov
      (hf g (List.mem_cons_self _ _))
    obtain ⟨k2, iov2, h2, hs2⟩ := ih k1 iov1 (fun x hx => hf x (List.mem_cons_of_mem _ hx))
    refine ⟨k2, iov2, ?_, ?_⟩
    · simp only [map_entries, h1]
      exact h2
    · rw [hs2, hs1]
      simp only [List.map_cons, List.sum_cons]
      omega

theorem length_fetch_segments (as : AddressSpace) (seg_addr n : Nat) :
    (fetch_segments as seg_addr n).length = n := by
  unfold fetch_segments
  split <;> simp [decode_segments]

theorem dma_start_unmapped (as : AddressSpace) (fuel : Nat) (s : AppleSIOState) (i : Nat)
    (m : sio_msg) (ep : AppleSIODMAEndpoint) (p : Nat) (count_bytes : List Nat)
    (hop : m.op = OP_START_DMA) (hep : s.eps[i]? = some ep) (hm : ep.mapped = false)
    (hp : s.params[PARAM_DMA_SEGMENT_BASE]? = some p)
    (hcount : as.dma_memory_read (sio_handle_addr p m.data + 0x3C) 4 = some count_bytes) :
    apple_sio_dma as fuel s i m =
      start_dma_segments as fuel s i ep m (sio_handle_addr p m.data)
        (le_value (count_bytes.take 4) % 4294967296) := by
  simp [apple_sio_dma, hep, hop, hp, start_dma, hm, hcount, OP_START_DMA, OP_CONFIG_SHIM]

theorem of_raw_bounds (msg : Nat) :
    (sio_msg.of_raw msg).ep < 256 ∧ (sio_msg.of_raw msg).tag < 256 ∧
      (sio_msg.of_raw msg).op < 256 ∧ (sio_msg.of_raw msg).param < 256 ∧
      (sio_msg.of_raw msg).data < 4294967296 := by
  simp only [sio_msg.of_raw]
  refine ⟨?_, ?_, ?_, ?_, ?_⟩ <;> omega

theorem map_range_size (as : AddressSpace) (dir : DMADirection) :
    ∀ (fuel k base len : Nat) (iov : List iovec) (k1 : Nat) (iov1 : List iovec),
      map_range as dir fuel k base len iov = some (k1, iov1) →
      iov_size iov1 = iov_size iov + len := by
  intro fuel
  induction fuel with
  | zero =>
    intro k base len iov k1 iov1 h
    simp only [map_range] at h
    split at h
    · next h0 => cases h; omega
    · cases h
  | succ fuel ih =>
    intro k base len iov k1 iov1 h
    simp only [map_range] at h
    split at h
    · next h0 => cases h; omega
    · next h0 =>
      split at h
      · exact ih _ _ _ _ _ _ h
      · next mem xlen hm =>
        have hx : (if xlen > len then len else xlen) ≤ len := by split <;> omega
        rw [ih _ _ _ _ _ _ h, iov_size_append]
        simp only [iov_size]
        omega

theorem map_entries_size (as : AddressSpace) (dir : DMADirection) (fuel : Nat)
    (gs : List ScatterGatherEntry) :
    ∀ (k : Nat) (iov : List iovec) (k1 : Nat) (iov1 : List iovec),
      map_entries as dir fuel gs k iov = some (k1, iov1) →
      iov_size iov1 = iov_size iov + (gs.map fun g => g.len).sum := by
  induction gs with
  | nil => intro k iov k1 iov1 h; cases h; simp
  | cons g gs ih =>
    intro k iov k1 iov1 h
    simp only [map_entries] at h
    split at h
    · cases h
    · next k2 iov2 h2 =>
      rw [ih _ _ _ _ h, map_range_size _ _ _ _ _ _ _ _ _ h2]
      simp only [List.map_cons, List.sum_cons]
      omega

theorem apple_sio_map_dma_some (as : AddressSpace) (fuel : Nat) (ep ep2 : AppleSIODMAEndpoint)
    (h : apple_sio_map_dma as fuel ep = some ep2) (hm : ep.mapped = false)
    (hcount : ep.count = ep.sgl.length) :
    ∃ iov, ep2 = { ep with iov := iov, mapped := true, actual_length := 0 } ∧
      iov_size iov = (ep.sgl.map fun g => g.len).sum := by
  have htake : ep.sgl.take ep.count = ep.sgl := by rw [hcount]; exact List.take_length _
  unfold apple_sio_map_dma at h
  rw [if_neg (by simp [hm]), if_neg (by omega), htake] at h
  cases hrun : map_entries as ep.dir fuel ep.sgl 0 [] with
  | none => rw [hrun] at h; cases h
  | some r =>
    obtain ⟨k, iov⟩ := r
    rw [hrun] at h
    cases h
    exact ⟨iov, rfl, by simpa [iov_size] using map_entries_size _ _ _ _ _ _ _ _ hrun⟩

theorem endpoint_trans_refl (ep : AppleSIODMAEndpoint) : endpoint_trans ep ep :=
  Or.inl ⟨ep.config, rfl⟩

theorem start_dma_shape (as : AddressSpace) (fuel : Nat) (s : AppleSIOState) (i : Nat)
    (ep : AppleSIODMAEndpoint) (m : sio_msg) (handle_addr : Nat) (s1 : AppleSIOState)
    (h : start_dma as fuel s i ep m handle_addr = some s1) :
    (s1.unmapped = s.unmapped) ∧
    (s1.eps = s.eps ∨ ∃ ep1, s1.eps = s.eps.set i ep1 ∧ endpoint_trans ep ep1) ∧
    (s1.outbox = s.outbox ∨ ∃ op data, s1.outbox = s.outbox ++
      [({ ep := m.ep, tag := m.tag, op := op, param := 0, data := data } : sio_msg).raw]) := by
  unfold start_dma at h
  split at h
  · cases h
    exact ⟨rfl, Or.inl rfl, Or.inr ⟨_, _, rfl⟩⟩
  · next hm =>
    split at h
    · cases h
      exact ⟨rfl, Or.inl rfl, Or.inl rfl⟩
    · next count_bytes hcount =>
      unfold start_dma_segments at h
      obtain ⟨ep2, hmap, h2⟩ := Option.map_eq_some'.mp h
      subst h2
      obtain ⟨iov, hep2, hsz⟩ := apple_sio_map_dma_some as fuel _ ep2 hmap
        (by simpa using hm) (by simp [length_fetch_segments])
      refine ⟨rfl, Or.inr ⟨ep2, rfl, Or.inr (Or.inr (Or.inr ⟨by simpa using hm, m.tag,
        fetch_segments as (handle_addr + 0x48) (le_value (count_bytes.take 4) % 4294967296),
        iov,
        (if le_value (count_bytes.take 4) % 4294967296 = 0 then none
          else some (fetch_segments as (handle_addr + 0x48)
            (le_value (count_bytes.take 4) % 4294967296))),
        ?_, ?_⟩))⟩, Or.inr ⟨_, _, rfl⟩⟩
      · rw [hsz]; simp [segments_length, List.map_map, Function.comp_def]
      · rw [hep2]; simp [length_fetch_segments]

theorem dma_shape (as : AddressSpace) (fuel : Nat) (s : AppleSIOState) (i : Nat) (m : sio_msg)
    (s1 : AppleSIOState) (h : apple_sio_dma as fuel s i m = some s1) :
    ∃ ep, s.eps[i]? = some ep ∧
      (s1.eps = s.eps ∨ ∃ ep1, s1.eps = s.eps.set i ep1 ∧ endpoint_trans ep ep1) ∧
      (s1.outbox = s.outbox ∨ ∃ op data, s1.outbox = s.outbox ++
        [({ ep := m.ep, tag := m.tag, op := op, param := 0, data := data } : sio_msg).raw]) := by
  unfold apple_sio_dma at h
  cases hep : s.eps[i]? with
  | none => rw [hep] at h; cases h
  | some ep =>
    rw [hep] at h
    refine ⟨ep, rfl, ?_⟩
    simp only at h
    repeat' split at h
    all_goals first
      | exact (start_dma_shape _ _ _ _ _ _ _ _ h).2
      | (cases h; exact ⟨Or.inl rfl, Or.inl rfl⟩)
      | (cases h; exact ⟨Or.inl rfl, Or.inr ⟨_, _, rfl⟩⟩)
      | (cases h; exact ⟨Or.inr ⟨_, rfl, Or.inl ⟨_, rfl⟩⟩, Or.inr ⟨_, _, rfl⟩⟩)
      | (cases h
         exact ⟨Or.inr ⟨_, rfl, Or.inr (Or.inl ⟨by simp_all, rfl⟩)⟩, Or.inr ⟨_, _, rfl⟩⟩)
      | cases h

theorem control_shape (s : AppleSIOState) (m : sio_msg) (s1 : AppleSIOState)
    (h : apple_sio_control s m = some s1) :
    s1.eps = s.eps ∧ s1.unmapped = s.unmapped ∧
    (m.op ≠ OP_SET_PARAM → s1.params = s.params) ∧
    (m.op = OP_SET_PARAM → s1.params = s.params.set m.param (m.data % 4294967296)) ∧
    ∃ op data, s1.outbox = s.outbox ++
      [({ ep := m.ep, tag := m.tag, op := op, param := 0, data := data } : sio_msg).raw] := by
  unfold apple_sio_control at h
  repeat' split at h
  all_goals first
    | (cases h
       refine ⟨rfl, rfl, fun _ => rfl, fun h3 => ?_, _, _, rfl⟩
       simp_all [OP_GET_PARAM, OP_SET_PARAM])
    | (cases h
       exact ⟨rfl, rfl, fun h3 => absurd (by assumption) h3, fun _ => rfl, _, _, rfl⟩)
    | cases h

theorem dma_advance_shape (s : AppleSIOState) (i : Nat) (ep : AppleSIODMAEndpoint) (x : Int)
    (s1 : AppleSIOState) (h : dma_advance s i ep x = some s1) (hm : ep.mapped = true) :
    ∃ ep1, s1.eps = s.eps.set i ep1 ∧ endpoint_trans ep ep1 := by
  unfold dma_advance at h
  split at h
  · split at h
    · cases h
      exact ⟨unmapped_endpoint ep, rfl, Or.inr (Or.inl ⟨hm, rfl⟩)⟩
    · cases h
  · next hlt =>
    cases h
    exact ⟨_, rfl, Or.inr (Or.inr (Or.inl ⟨hm, cursor_add ep.actual_length x, by omega, rfl⟩))⟩

theorem read_shape (host : Nat → Nat) (s : AppleSIOState) (i len : Nat)
    (r : Int × List Nat × AppleSIOState) (h : apple_sio_dma_read host s i len = some r) :
    ∃ ep, s.eps[i]? = some ep ∧
      (r.2.2.eps = s.eps ∨ ∃ ep1, r.2.2.eps = s.eps.set i ep1 ∧ endpoint_trans ep ep1) := by
  unfold apple_sio_dma_read at h
  cases hep : s.eps[i]? with
  | none => rw [hep] at h; cases h
  | some ep =>
    rw [hep] at h
    refine ⟨ep, rfl, ?_⟩
    simp only at h
    split at h
    · cases h; exact Or.inl rfl
    · next hm =>
      split at h
      · cases h
      · obtain ⟨s1, h1, h2⟩ := Option.map_eq_some'.mp h
        subst h2
        exact Or.inr (dma_advance_shape _ _ _ _ _ h1 (by simpa using hm))

theorem write_shape (s : AppleSIOState) (i : Nat) (buffer : List Nat) (len : Nat)
    (r : Int × List (Nat × Nat) × AppleSIOState)
    (h : apple_sio_dma_write s i buffer len = some r) :
    ∃ ep, s.eps[i]? = some ep ∧
      (r.2.2.eps = s.eps ∨ ∃ ep1, r.2.2.eps = s.eps.set i ep1 ∧ endpoint_trans ep ep1) := by
  unfold apple_sio_dma_write at h
  cases hep : s.eps[i]? with
  | none => rw [hep] at h; cases h
  | some ep =>
    rw [hep] at h
    refine ⟨ep, rfl, ?_⟩
    simp only at h
    split at h
    · cases h; exact Or.inl rfl
    · next hm =>
      split at h
      · cases h
      · obtain ⟨s1, h1, h2⟩ := Option.map_eq_some'.mp h
        subst h2
        exact Or.inr (dma_advance_shape _ _ _ _ _ h1 (by simpa using hm))

theorem handle_shape (as : AddressSpace) (fuel : Nat) (s : AppleSIOState) (msg : Nat)
    (s1 : AppleSIOState) (h : apple_sio_handle_endpoint as fuel s msg = some s1) :
    (s1.eps = s.eps ∨ ∃ ep ep1, s.eps[(sio_msg.of_raw msg).ep]? = some ep ∧
      (sio_msg.of_raw msg).ep ≠ EP_CONTROL ∧ (sio_msg.of_raw msg).ep ≠ EP_PERF ∧
      s1.eps = s.eps.set (sio_msg.of_raw msg).ep ep1 ∧ endpoint_trans ep ep1) ∧
    (s1.outbox = s.outbox ∨ ∃ op data, s1.outbox = s.outbox ++
      [({ ep := (sio_msg.of_raw msg).ep, tag := (sio_msg.of_raw msg).tag, op := op,
          param := 0, data := data } : sio_msg).raw]) := by
  simp only [apple_sio_handle_endpoint] at h
  split at h
  · obtain ⟨h1, -, -, -, h5⟩ := control_shape _ _ _ h
    exact ⟨Or.inl h1, Or.inr h5⟩
  · next hc =>
    split at h
    · cases h; exact ⟨Or.inl rfl, Or.inl rfl⟩
    · obtain ⟨ep, hep, h1, h2⟩ := dma_shape _ _ _ _ _ _ h
      refine ⟨?_, h2⟩
      rcases h1 with h1 | ⟨ep1, h1, ht⟩
      · exact Or.inl h1
      · exact Or.inr ⟨ep, ep1, hep, fun h0 => hc (Or.inl h0), fun h3 => hc (Or.inr h3), h1, ht⟩

theorem step_shape (s : AppleSIOState) (e : SIOEvent) (s1 : AppleSIOState)
    (h : sio_step s e = some s1) :
    s1.eps = s.eps ∨ ∃ j ep ep1, s.eps[j]? = some ep ∧ s1.eps = s.eps.set j ep1 ∧
      endpoint_trans ep ep1 := by
  cases e with
  | request as fuel msg =>
    rcases (handle_shape as fuel s msg s1 h).1 with h1 | ⟨ep, ep1, hep, -, -, h1, ht⟩
    · exact Or.inl h1
    · exact Or.inr ⟨_, ep, ep1, hep, h1, ht⟩
  | read host i len =>
    obtain ⟨r, h1, h2⟩ := Option.map_eq_some'.mp h
    subst h2
    obtain ⟨ep, hep, h3⟩ := read_shape _ _ _ _ _ h1
    rcases h3 with h3 | ⟨ep1, h3, ht⟩
    · exact Or.inl h3
    · exact Or.inr ⟨i, ep, ep1, hep, h3, ht⟩
  | write i buffer len =>
    obtain ⟨r, h1, h2⟩ := Option.map_eq_some'.mp h
    subst h2
    obtain ⟨ep, hep, h3⟩ := write_shape _ _ _ _ _ h1
    rcases h3 with h3 | ⟨ep1, h3, ht⟩
    · exact Or.inl h3
    · exact Or.inr ⟨i, ep, ep1, hep, h3, ht⟩

/-! ## Endpoint id and tag of the messages sent -/

theorem of_raw_raw_header (m : sio_msg) :
    (sio_msg.of_raw m.raw).ep = m.ep % 256 ∧ (sio_msg.of_raw m.raw).tag = m.tag % 256 ∧
      (sio_msg.of_raw m.raw).op = m.op % 256 := by
  simp only [sio_msg.of_raw, sio_msg.raw]
  refine ⟨?_, ?_, ?_⟩ <;> omega

theorem dma_start_tag (as : AddressSpace) (fuel : Nat) (s : AppleSIOState) (i : Nat)
    (m : sio_msg) (ep : AppleSIODMAEndpoint) (s1 : AppleSIOState) (ep1 : AppleSIODMAEndpoint)
    (h : apple_sio_dma as fuel s i m = some s1) (hop : m.op = OP_START_DMA)
    (hep : s.eps[i]? = some ep) (hm : ep.mapped = false)
    (hep1 : s1.eps[i]? = some ep1) (hm1 : ep1.mapped = true) :
    ep1.tag = m.tag ∧ ep1.id = ep.id := by
  have hi := lt_length_of_getElem? _ _ _ hep
  cases hp : s.params[PARAM_DMA_SEGMENT_BASE]? with
  | none => simp [apple_sio_dma, hep, hop, hp, OP_START_DMA, OP_CONFIG_SHIM] at h
  | some p =>
    cases hc : as.dma_memory_read (sio_handle_addr p m.data + 0x3C) 4 with
    | none =>
      have hs : s = s1 := by
        simpa [apple_sio_dma, hep, hop, hp, start_dma, hm, hc, OP_START_DMA, OP_CONFIG_SHIM]
          using h
      subst hs
      rw [hep] at hep1
      cases hep1
      rw [hm] at hm1
      cases hm1
    | some count_bytes =>
      rw [dma_start_unmapped as fuel s i m ep p count_bytes hop hep hm hp hc] at h
      unfold start_dma_segments at h
      obtain ⟨ep2, hmap, h2⟩ := Option.map_eq_some'.mp h
      subst h2
      obtain ⟨iov, hep2, -⟩ := apple_sio_map_dma_some as fuel _ ep2 hmap hm
        (by simp [length_fetch_segments])
      have : ep1 = ep2 := by
        simpa [apple_rtkit_send_user_msg, hi] using hep1.symm
      subst this
      rw [hep2]
      exact ⟨rfl, rfl⟩

theorem step_keeps_tag (i : Nat) (s s1 : AppleSIOState) (e : SIOEvent)
    (ep ep1 : AppleSIODMAEndpoint) (h : sio_step s e = some s1)
    (hep : s.eps[i]? = some ep) (hm : ep.mapped = true)
    (hep1 : s1.eps[i]? = some ep1) (hm1 : ep1.mapped = true) :
    ep1.tag = ep.tag ∧ ep1.id = ep.id := by
  have hi := lt_length_of_getElem? _ _ _ hep
  rcases step_shape s e s1 h with h1 | ⟨j, epj, epj1, hj, h1, ht⟩
  · rw [h1, hep] at hep1
    cases hep1
    exact ⟨rfl, rfl⟩
  · by_cases hji : j = i
    · subst hji
      rw [hep] at hj
      cases hj
      rw [h1] at hep1
      have : ep1 = epj1 := by simpa [hi] using hep1.symm
      subst this
      rcases ht with ⟨cfg, rfl⟩ | ⟨-, rfl⟩ | ⟨-, x, -, rfl⟩ | ⟨hf, -⟩
      · exact ⟨rfl, rfl⟩
      · cases hm1
      · exact ⟨rfl, rfl⟩
      · rw [hm] at hf; cases hf
    · rw [h1, List.getElem?_set_ne hji, hep] at hep1
      cases hep1
      exact ⟨rfl, rfl⟩

theorem run_keeps_tag (i : Nat) (es : List SIOEvent) :
    ∀ (s s2 : AppleSIOState) (ep : AppleSIODMAEndpoint), stays_mapped i s es →
      sio_run s es = some s2 → s.eps[i]? = some ep →
      ∃ ep2, s2.eps[i]? = some ep2 ∧ ep2.mapped = true ∧ ep2.tag = ep.tag ∧ ep2.id = ep.id := by
  induction es with
  | nil =>
    intro s s2 ep hst hrun hep
    cases hrun
    obtain ⟨ep0, h0, hm0⟩ := hst
    rw [hep] at h0
    cases h0
    exact ⟨ep, hep, hm0, rfl, rfl⟩
  | cons e es ih =>
    intro s s2 ep hst hrun hep
    obtain ⟨⟨ep0, h0, hm0⟩, hrest⟩ := hst
    rw [hep] at h0
    cases h0
    simp only [sio_run] at hrun
    cases hs : sio_step s e with
    | none => rw [hs] at hrun; cases hrun
    | some s1 =>
      rw [hs] at hrun hrest
      have hmid : endpoint_mapped s1 i := by
        cases es with
        | nil => exact hrest
        | cons e2 es2 => exact hrest.1
      obtain ⟨ep1, hep1, hm1⟩ := hmid
      obtain ⟨ht, hid⟩ := step_keeps_tag i s s1 e ep ep1 hs hep hm0 hep1 hm1
      obtain ⟨ep2, h2, hm2, ht2, hid2⟩ := ih s1 s2 ep1 hrest hrun hep1
      exact ⟨ep2, h2, hm2, by rw [ht2, ht], by rw [hid2, hid]⟩

theorem dma_call_outbox (s : AppleSIOState) (i : Nat) (c : DMACall) (x : Int)
    (s1 : AppleSIOState) (ep : AppleSIODMAEndpoint) (h : dma_call s i c = some (x, s1))
    (hep : s.eps[i]? = some ep) :
    s1.outbox = s.outbox ∨ ∃ total, s1.outbox = s.outbox ++
      [({ op := OP_DMA_COMPLETE, ep := ep.id % 256, param := 128, tag := ep.tag % 256,
          data := total } : sio_msg).raw] := by
  cases hm : ep.mapped with
  | false =>
    rw [dma_call_unmapped s i c ep hep hm] at h
    cases h
    exact Or.inl rfl
  | true =>
    by_cases hdir : c.dir = ep.dir
    · rw [dma_call_mapped s i c ep hep hm hdir] at h
      obtain ⟨s2, h1, h2⟩ := Option.map_eq_some'.mp h
      cases h2
      unfold dma_advance at h1
      split at h1
      · split at h1
        · cases h1
          exact Or.inr ⟨_, rfl⟩
        · cases h1
      · cases h1
        exact Or.inl rfl
    · cases c with
      | read host len =>
        simp only [DMACall.dir] at hdir
        simp [dma_call, apple_sio_dma_read, hep, hm, Ne.symm hdir] at h
      | write buffer len =>
        simp only [DMACall.dir] at hdir
        simp [dma_call, apple_sio_dma_write, hep, hm, Ne.symm hdir] at h

/-- C12: every message the controller sends carries the endpoint id and the
tag of the request behind it.  A request handled by the dispatcher sends at
most one reply, whose `ep` and `tag` bytes are those of the request.  When a
START_DMA request has mapped an endpoint (whose `id` is its index) and the
endpoint has stayed mapped through any further events, a message sent by a
read or write call on it is a DMA_COMPLETE whose `ep` byte is the endpoint's
id and whose `tag` byte is the tag of that START_DMA request. -/
theorem messages_carry_ep_and_tag :
    (∀ (as : AddressSpace) (fuel : Nat) (s : AppleSIOState) (msg : Nat) (s1 : AppleSIOState),
      apple_sio_handle_endpoint as fuel s msg = some s1 →
      s1.outbox = s.outbox ∨
        ∃ r, s1.outbox = s.outbox ++ [r] ∧
          (sio_msg.of_raw r).ep = (sio_msg.of_raw msg).ep ∧
          (sio_msg.of_raw r).tag = (sio_msg.of_raw msg).tag) ∧
    (∀ (as : AddressSpace) (fuel : Nat) (s : AppleSIOState) (msg : Nat) (s1 : AppleSIOState)
      (es : List SIOEvent) (s2 : AppleSIOState) (c : DMACall) (x : Int) (s3 : AppleSIOState)
      (ep : AppleSIODMAEndpoint),
      (sio_msg.of_raw msg).op = OP_START_DMA →
      s.eps[(sio_msg.of_raw msg).ep]? = some ep → ep.mapped = false →
      ep.id = (sio_msg.of_raw msg).ep →
      apple_sio_handle_endpoint as fuel s msg = some s1 →
      stays_mapped (sio_msg.of_raw msg).ep s1 es → sio_run s1 es = some s2 →
      dma_call s2 (sio_msg.of_raw msg).ep c = some (x, s3) →
      s3.outbox = s2.outbox ∨
        ∃ r, s3.outbox = s2.outbox ++ [r] ∧
          (sio_msg.of_raw r).op = OP_DMA_COMPLETE ∧
          (sio_msg.of_raw r).ep = (sio_msg.of_raw msg).ep ∧
          (sio_msg.of_raw r).tag = (sio_msg.of_raw msg).tag) := by
  constructor
  · intro as fuel s msg s1 h
    obtain ⟨hb1, hb2, -, -, -⟩ := of_raw_bounds msg
    rcases (handle_shape as fuel s msg s1 h).2 with h1 | ⟨op, data, h1⟩
    · exact Or.inl h1
    · refine Or.inr ⟨_, h1, ?_, ?_⟩
      · rw [(of_raw_raw_header _).1]; exact Nat.mod_eq_of_lt hb1
      · rw [(of_raw_raw_header _).2.1]; exact Nat.mod_eq_of_lt hb2
  · intro as fuel s msg s1 es s2 c x s3 ep hop hep hm hid h hst hrun hcall
    obtain ⟨hb1, hb2, -, -, -⟩ := of_raw_bounds msg
    have hlt := lt_length_of_getElem? _ _ _ hep
    have hmapped : endpoint_mapped s1 (sio_msg.of_raw msg).ep := by
      cases es with
      | nil => exact hst
      | cons e es => exact hst.1
    obtain ⟨ep1, hep1, hm1⟩ := hmapped
    have htag : ep1.tag = (sio_msg.of_raw msg).tag ∧ ep1.id = ep.id := by
      by_cases hc : (sio_msg.of_raw msg).ep = EP_CONTROL ∨ (sio_msg.of_raw msg).ep = EP_PERF
      · rw [handle_control _ _ _ _ hc] at h
        obtain ⟨h1, -⟩ := control_shape _ _ _ h
        rw [h1, hep] at hep1
        cases hep1
        rw [hm] at hm1
        cases hm1
      · rw [handle_dma _ _ _ _ (fun h0 => hc (Or.inl h0)) (fun h3 => hc (Or.inr h3)) hlt] at h
        exact dma_start_tag as fuel s _ _ ep s1 ep1 h hop hep hm hep1 hm1
    obtain ⟨ep2, hep2, -, ht2, hid2⟩ := run_keeps_tag _ es s1 s2 ep1 hst hrun hep1
    rcases dma_call_outbox s2 _ c x s3 ep2 hcall hep2 with h1 | ⟨total, h1⟩
    · exact Or.inl h1
    · refine Or.inr ⟨_, h1, ?_, ?_, ?_⟩
      · rw [(of_raw_raw_header _).2.2]; rfl
      · rw [(of_raw_raw_header _).1]
        simp only [hid2, htag.2, hid, Nat.mod_mod, Nat.mod_eq_of_lt hb1]
      · rw [(of_raw_raw_header _).2.1]
        simp only [ht2, htag.1, Nat.mod_mod, Nat.mod_eq_of_lt hb2]

/-- C12 (witness): START_DMA with tag 9 maps endpoint 1; the write of 0x30
bytes that follows sends a DMA_COMPLETE with `ep` 1 and `tag` 9. -/
theorem messages_carry_ep_and_tag_witness :
    ∃ r, sio_written_example.outbox = sio_started_example.outbox ++ [r] ∧
      (sio_msg.of_raw r).op = OP_DMA_COMPLETE ∧ (sio_msg.of_raw r).ep = 1 ∧
      (sio_msg.of_raw r).tag = 9 := by
  have h := messages_carry_ep_and_tag.2 address_space_two_segments 0x30 sio_reset_example
    start_dma_request_example sio_started_example [] sio_started_example
    (DMACall.write (List.replicate 0x30 0xAA) 0x30) 0x30 sio_written_example
    { endpoint_zero 28 with id := 1, dir := DMADirection.DMA_DIRECTION_FROM_DEVICE }
    (by decide) (by decide) (by decide) (by decide) (by decide)
    ⟨_, (by decide : sio_started_example.eps[1]? =
      some (sio_started_example.eps.getD 1 (endpoint_zero 0))), by decide⟩
    (by decide) (by decide)
  rcases h with h | h
  · exact absurd h (by decide)
  · exact h

/-! ## Routing by endpoint id -/

/-- C13: a request whose endpoint id is a control id (0 or 3) leaves every DMA
endpoint as it was, whatever its opcode, the opcode values of the DMA
sub-protocol included; only SET_PARAM changes the Parameter Store, and only
the addressed entry; an opcode other than GET_PARAM and SET_PARAM changes
nothing but the host-bound queue, and a request whose parameter id is inside
the table is always handled. -/
theorem control_requests_leave_endpoints (as : AddressSpace) (fuel : Nat) (s : AppleSIOState)
    (msg : Nat)
    (hc : (sio_msg.of_raw msg).ep = EP_CONTROL ∨ (sio_msg.of_raw msg).ep = EP_PERF) :
    (∀ s1, apple_sio_handle_endpoint as fuel s msg = some s1 →
      s1.eps = s.eps ∧ s1.unmapped = s.unmapped ∧
      ((sio_msg.of_raw msg).op ≠ OP_SET_PARAM → s1.params = s.params) ∧
      ((sio_msg.of_raw msg).op = OP_SET_PARAM →
        s1.params = s.params.set (sio_msg.of_raw msg).param (sio_msg.of_raw msg).data)) ∧
    ((sio_msg.of_raw msg).op ≠ OP_GET_PARAM → (sio_msg.of_raw msg).op ≠ OP_SET_PARAM →
      apple_sio_handle_endpoint as fuel s msg =
        some { s with outbox := s.outbox ++
          [({ ep := (sio_msg.of_raw msg).ep, tag := (sio_msg.of_raw msg).tag, op := 0,
              param := 0, data := 0 } : sio_msg).raw] }) ∧
    ((sio_msg.of_raw msg).param < s.params.length →
      ∃ s1, apple_sio_handle_endpoint as fuel s msg = some s1) := by
  obtain ⟨-, -, -, -, hb5⟩ := of_raw_bounds msg
  rw [handle_control _ _ _ _ hc]
  refine ⟨?_, ?_, ?_⟩
  · intro s1 h
    obtain ⟨h1, h2, h3, h4, -⟩ := control_shape _ _ _ h
    refine ⟨h1, h2, h3, fun hop => ?_⟩
    rw [h4 hop, Nat.mod_eq_of_lt hb5]
  · intro hg hs
    simp [apple_sio_control, hg, hs, apple_rtkit_send_user_msg]
  · intro hin
    by_cases hg : (sio_msg.of_raw msg).op = OP_GET_PARAM
    · exact ⟨_, control_get_param s _ _ hg (List.getElem?_eq_getElem hin)⟩
    · by_cases hs : (sio_msg.of_raw msg).op = OP_SET_PARAM
      · exact ⟨_, control_set_param s _ hs hin⟩
      · have h : apple_sio_control s (sio_msg.of_raw msg) =
            some { s with outbox := s.outbox ++
              [({ ep := (sio_msg.of_raw msg).ep, tag := (sio_msg.of_raw msg).tag, op := 0,
                  param := 0, data := 0 } : sio_msg).raw] } := by
          simp [apple_sio_control, hg, hs, apple_rtkit_send_user_msg]
        exact ⟨_, h⟩

/-- C13 (witness): a request on endpoint 0 with the opcode value of START_DMA,
in the example state with two mapped endpoints, changes only the host-bound
queue. -/
theorem control_requests_leave_endpoints_witness :
    apple_sio_handle_endpoint address_space_two_segments 0x30 sio_mapped_example
        control_start_request_example =
      some { sio_mapped_example with outbox := sio_mapped_example.outbox ++
        [({ ep := (sio_msg.of_raw control_start_request_example).ep,
            tag := (sio_msg.of_raw control_start_request_example).tag, op := 0,
            param := 0, data := 0 } : sio_msg).raw] } :=
  (control_requests_leave_endpoints address_space_two_segments 0x30 sio_mapped_example
    control_start_request_example (by decide)).2.1 (by decide) (by decide)

/-- C14: a request addressed to a DMA endpoint whose opcode is none of
CONFIG_SHIM, START_DMA, QUERY_DMA, STOP_DMA is answered by ERROR and changes
nothing but the host-bound queue. -/
theorem unknown_dma_opcode (as : AddressSpace) (fuel : Nat) (s : AppleSIOState)
    (msg : Nat) (ep : AppleSIODMAEndpoint)
    (h0 : (sio_msg.of_raw msg).ep ≠ EP_CONTROL) (h3 : (sio_msg.of_raw msg).ep ≠ EP_PERF)
    (hep : s.eps[(sio_msg.of_raw msg).ep]? = some ep)
    (hcfg : (sio_msg.of_raw msg).op ≠ OP_CONFIG_SHIM)
    (hstart : (sio_msg.of_raw msg).op ≠ OP_START_DMA)
    (hquery : (sio_msg.of_raw msg).op ≠ OP_QUERY_DMA)
    (hstop : (sio_msg.of_raw msg).op ≠ OP_STOP_DMA) :
    apple_sio_handle_endpoint as fuel s msg =
      some { s with outbox := s.outbox ++
        [({ ep := (sio_msg.of_raw msg).ep, tag := (sio_msg.of_raw msg).tag, op := OP_ERROR,
            param := 0, data := 0 } : sio_msg).raw] } := by
  have hlt := lt_length_of_getElem? _ _ _ hep
  rw [handle_dma _ _ _ _ h0 h3 hlt]
  simp [apple_sio_dma, hep, hcfg, hstart, hquery, hstop, apple_rtkit_send_user_msg]

/-- C14 (witness): opcode 9 on the mapped endpoint 1 of the example state. -/
theorem unknown_dma_opcode_witness :
    apple_sio_handle_endpoint address_space_two_segments 0x30 sio_mapped_example
        unknown_dma_request_example =
      some { sio_mapped_example with outbox := sio_mapped_example.outbox ++
        [({ ep := (sio_msg.of_raw unknown_dma_request_example).ep,
            tag := (sio_msg.of_raw unknown_dma_request_example).tag, op := OP_ERROR,
            param := 0, data := 0 } : sio_msg).raw] } :=
  unknown_dma_opcode address_space_two_segments 0x30 sio_mapped_example
    unknown_dma_request_example
    (mapped_endpoint_example 1 DMADirection.DMA_DIRECTION_FROM_DEVICE 0)
    (by decide) (by decide) (by decide) (by decide) (by decide) (by decide) (by decide)

/-- C15 (the code at the failing input): a request on the control endpoint
with opcode 9, neither GET_PARAM nor SET_PARAM, is answered by a reply whose
opcode byte is 0, not OP_ERROR; the same opcode on a DMA endpoint is answered
by OP_ERROR. -/
theorem unknown_control_opcode_reply :
    apple_sio_handle_endpoint address_space_none 0 sio_reset_example
        unknown_control_request_example =
      some { sio_reset_example with
        outbox := [({ ep := 0, tag := 4, op := 0, param := 0, data := 0 } : sio_msg).raw] } ∧
    (sio_msg.of_raw ({ ep := 0, tag := 4, op := 0, param := 0, data := 0 } : sio_msg).raw).op
      ≠ OP_ERROR ∧
    apple_sio_handle_endpoint address_space_none 0 sio_reset_example
        unknown_dma_request_example =
      some { sio_reset_example with
        outbox := [({ ep := 1, tag := 4, op := OP_ERROR, param := 0, data := 0 } :
          sio_msg).raw] } := by
  refine ⟨by decide, by decide, by decide⟩

/-! ## Guest-memory reads of the DMA sub-protocol -/

/-- The handle address is the sum `p * 2^12 + d * 12` reduced modulo `2^32`. -/
theorem sio_handle_addr_mod (p d : Nat) :
    sio_handle_addr p d = (p * 2 ^ 12 + d * 12) % 2 ^ 32 := by
  unfold sio_handle_addr
  norm_num

/-- Where the sum `p * 2^12 + d * 12` fits 32 bits, the handle address is that sum. -/
theorem sio_handle_addr_exact (p d : Nat) (h : p * 2 ^ 12 + d * 12 < 2 ^ 32) :
    sio_handle_addr p d = p * 2 ^ 12 + d * 12 := by
  rw [sio_handle_addr_mod, Nat.mod_eq_of_lt h]

/-- A CONFIG_SHIM request whose config read fails leaves the state as it was:
no reply is sent. -/
theorem config_shim_read_failure (as : AddressSpace) (fuel : Nat) (s : AppleSIOState)
    (i p : Nat) (ep : AppleSIODMAEndpoint) (m : sio_msg)
    (hep : s.eps[i]? = some ep) (hop : m.op = OP_CONFIG_SHIM)
    (hp : s.params[PARAM_DMA_SEGMENT_BASE]? = some p)
    (hread : as.dma_memory_read (sio_handle_addr p m.data) ep.config.length = none) :
    apple_sio_dma as fuel s i m = some s := by
  simp [apple_sio_dma, hep, hop, hp, hread]

/-- A START_DMA request on an unmapped endpoint whose segment-count read fails
leaves the state as it was: no reply is sent. -/
theorem start_dma_count_read_failure (as : AddressSpace) (fuel : Nat) (s : AppleSIOState)
    (i p : Nat) (ep : AppleSIODMAEndpoint) (m : sio_msg)
    (hep : s.eps[i]? = some ep) (hop : m.op = OP_START_DMA) (hm : ep.mapped = false)
    (hp : s.params[PARAM_DMA_SEGMENT_BASE]? = some p)
    (hread : as.dma_memory_read (sio_handle_addr p m.data + 0x3C) 4 = none) :
    apple_sio_dma as fuel s i m = some s := by
  simp [apple_sio_dma, hep, hop, hp, start_dma, hm, hread, OP_START_DMA, OP_CONFIG_SHIM]

/-- C16 (the code at the failing input): START_DMA for the unmapped endpoint 1
against a guest memory in which the segment-count read succeeds with count 1
and the segment-array read at handle + 0x48 fails: the read of the array does
fail, and yet an ACK carrying the request's tag is enqueued and the endpoint
is left mapped with one all-zero segment.  A failing config read of
CONFIG_SHIM and a failing count read of START_DMA, in the same state, enqueue
nothing. -/
theorem start_dma_segment_read_failure_acks :
    address_space_count_only.dma_memory_read (sio_handle_addr 0 0 + 0x48) (1 * SEGMENT_SIZE)
      = none ∧
    (apple_sio_handle_endpoint address_space_count_only 0x30 sio_reset_example
        start_dma_request_example).map (fun s => s.outbox) =
      some [({ ep := 1, tag := 9, op := OP_ACK, param := 0, data := 0 } : sio_msg).raw] ∧
    (apple_sio_handle_endpoint address_space_count_only 0x30 sio_reset_example
        start_dma_request_example).map
        (fun s => s.eps[1]?.map fun ep => (ep.mapped, ep.count, ep.segments)) =
      some (some (true, 1, some [{ addr := 0, len := 0 }])) ∧
    apple_sio_handle_endpoint address_space_none 0x30 sio_reset_example
        start_dma_request_example = some sio_reset_example ∧
    apple_sio_handle_endpoint address_space_none 0x30 sio_reset_example
        config_shim_request_example = some sio_reset_example ∧
    sio_reset_example.outbox = [] := by
  refine ⟨by decide, by decide, by decide, by decide, by decide, by decide⟩

/-- C17 (the code at the failing input): with parameter DMA_SEGMENT_BASE = 0
and request payload 0x20000000 the exact integer P * 2^12 + d * 12 is
0x180000000, while the address the code computes is 0x80000000: CONFIG_SHIM
is acknowledged, the config blob filled, when guest memory answers only at
0x80000000, and gets no reply when guest memory answers only at 0x180000000. -/
theorem config_shim_address_wraps :
    sio_reset_example.params[PARAM_DMA_SEGMENT_BASE]? = some 0 ∧
    (sio_msg.of_raw config_shim_far_request_example).data = 0x20000000 ∧
    0 * 2 ^ 12 + 0x20000000 * 12 = 0x180000000 ∧
    sio_handle_addr 0 0x20000000 = 0x80000000 ∧
    (apple_sio_handle_endpoint (address_space_only_at 0x80000000) 0 sio_reset_example
        config_shim_far_request_example).map
        (fun s => (s.outbox, s.eps[1]?.map fun ep => ep.config)) =
      some ([({ ep := 1, tag := 9, op := OP_ACK, param := 0, data := 0 } : sio_msg).raw],
        some (List.replicate 28 0xFF)) ∧
    apple_sio_handle_endpoint (address_space_only_at 0x180000000) 0 sio_reset_example
        config_shim_far_request_example = some sio_reset_example := by
  refine ⟨by decide, by decide, by decide, by decide, by decide, by decide⟩

/-! ## Transfers -/

/-- C18: a read or a write on an endpoint that is not mapped returns 0, moves
no byte, sends no message and leaves the whole state as it was. -/
theorem transfer_on_unmapped_endpoint (host : Nat → Nat) (s : AppleSIOState) (i : Nat)
    (ep : AppleSIODMAEndpoint) (buffer : List Nat) (len : Nat)
    (hep : s.eps[i]? = some ep) (hm : ep.mapped = false) :
    apple_sio_dma_read host s i len = some (0, [], s) ∧
    apple_sio_dma_write s i buffer len = some (0, [], s) := by
  constructor
  · simp [apple_sio_dma_read, hep, hm]
  · simp [apple_sio_dma_write, hep, hm]

/-- C18 (witness): endpoint 1 of the example reset state is not mapped. -/
theorem transfer_on_unmapped_endpoint_witness :
    apple_sio_dma_read (fun a => a % 256) sio_reset_example 1 8 = some (0, [], sio_reset_example) ∧
    apple_sio_dma_write sio_reset_example 1 [1, 2, 3] 8 = some (0, [], sio_reset_example) :=
  transfer_on_unmapped_endpoint (fun a => a % 256) sio_reset_example 1
    { endpoint_zero 28 with id := 1, dir := DMADirection.DMA_DIRECTION_FROM_DEVICE }
    [1, 2, 3] 8 (by decide) (by decide)

theorem iov_contents_eq (host : Nat → Nat) (iov : List iovec) :
    iov_contents host iov = (iov_addresses iov).map host := by
  induction iov with
  | nil => rfl
  | cons v vs ih => simp [iov_contents, iov_addresses, ih]

theorem qemu_iovec_to_buf_eq (host : Nat → Nat) (iov : List iovec) (offset bytes : Nat) :
    qemu_iovec_to_buf host iov offset bytes =
      ((iov_contents host iov).drop offset).take (min bytes (iov_size iov - offset)) := by
  rw [iov_contents_eq, qemu_iovec_to_buf, List.map_take, List.map_drop, List.take_eq_take]
  simp [length_iov_addresses]

theorem qemu_iovec_from_buf_eq (iov : List iovec) (offset : Nat) (buffer : List Nat)
    (bytes : Nat) :
    qemu_iovec_from_buf iov offset buffer bytes =
      (List.range (min bytes (iov_size iov - offset))).map fun j =>
        ((iov_addresses iov).getD (offset + j) 0, buffer.getD j 0) := by
  apply List.ext_getElem
  · simp [qemu_iovec_from_buf, length_iov_addresses]
  · intro j h1 h2
    simp only [List.length_map, List.length_range] at h2
    have h3 : offset + j < (iov_addresses iov).length := by
      rw [length_iov_addresses]; omega
    simp [qemu_iovec_from_buf, List.getElem_enum, List.getD_eq_getElem?_getD,
      List.getElem?_eq_getElem h3]

/-- The state after the `int xlen` has been added to the cursor of the mapped
endpoint `ep` at index `i`: if the cursor has reached the mapped size the
completion writeback is done on the endpoint so advanced. -/
theorem dma_advance_eq (s : AppleSIOState) (i : Nat) (ep : AppleSIODMAEndpoint) (xlen : Int)
    (hid : ep.id = i) :
    dma_advance s i ep xlen =
      some (if iov_size ep.iov ≤ cursor_add ep.actual_length xlen then
        apple_sio_dma_writeback s i { ep with actual_length := cursor_add ep.actual_length xlen }
      else
        { s with
          eps := s.eps.set i { ep with actual_length := cursor_add ep.actual_length xlen } }) := by
  unfold dma_advance
  by_cases h : iov_size ep.iov ≤ cursor_add ep.actual_length xlen
  · rw [if_pos h, if_pos h, if_pos hid]
  · rw [if_neg h, if_neg h]

/-- A read on a mapped to-device endpoint, for every length: the number n of
bytes copied is min(len, S - c), the value returned is n converted to `int`,
the bytes copied are the bytes c .. c+n-1 of the mapped region, and the cursor
becomes (c + n) mod 2^32. -/
theorem read_mapped (host : Nat → Nat) (s : AppleSIOState) (i : Nat)
    (ep : AppleSIODMAEndpoint) (len : Nat)
    (hep : s.eps[i]? = some ep) (hm : ep.mapped = true) (hid : ep.id = i)
    (hdir : ep.dir = DMADirection.DMA_DIRECTION_TO_DEVICE) :
    apple_sio_dma_read host s i len =
      some (to_int (min len (iov_size ep.iov - ep.actual_length) : Nat),
        ((iov_contents host ep.iov).drop ep.actual_length).take
          (min len (iov_size ep.iov - ep.actual_length)),
        if iov_size ep.iov ≤
            (ep.actual_length + min len (iov_size ep.iov - ep.actual_length)) % 4294967296 then
          apple_sio_dma_writeback s i
            { ep with actual_length :=
                (ep.actual_length + min len (iov_size ep.iov - ep.actual_length)) % 4294967296 }
        else
          { s with
            eps := s.eps.set i { ep with actual_length :=
              (ep.actual_length + min len (iov_size ep.iov - ep.actual_length)) %
                4294967296 } }) := by
  unfold apple_sio_dma_read
  rw [hep]
  simp only []
  rw [if_neg (by simp [hm]), if_neg (by simp [hdir]), length_qemu_iovec_to_buf,
    dma_advance_eq s i ep _ hid, qemu_iovec_to_buf_eq, cursor_add_to_int]
  rfl

/-- A write on a mapped from-device endpoint, for every length: the number n
of bytes copied is min(len, S - c), the value returned is n converted to
`int`, the caller's first n bytes are stored at the positions c .. c+n-1 of the
mapped region, and the cursor becomes (c + n) mod 2^32. -/
theorem write_mapped (s : AppleSIOState) (i : Nat)
    (ep : AppleSIODMAEndpoint) (buffer : List Nat) (len : Nat)
    (hep : s.eps[i]? = some ep) (hm : ep.mapped = true) (hid : ep.id = i)
    (hdir : ep.dir = DMADirection.DMA_DIRECTION_FROM_DEVICE) :
    apple_sio_dma_write s i buffer len =
      some (to_int (min len (iov_size ep.iov - ep.actual_length) : Nat),
        (List.range (min len (iov_size ep.iov - ep.actual_length))).map (fun j =>
          ((iov_addresses ep.iov).getD (ep.actual_length + j) 0, buffer.getD j 0)),
        if iov_size ep.iov ≤
            (ep.actual_length + min len (iov_size ep.iov - ep.actual_length)) % 4294967296 then
          apple_sio_dma_writeback s i
            { ep with actual_length :=
                (ep.actual_length + min len (iov_size ep.iov - ep.actual_length)) % 4294967296 }
        else
          { s with
            eps := s.eps.set i { ep with actual_length :=
              (ep.actual_length + min len (iov_size ep.iov - ep.actual_length)) %
                4294967296 } }) := by
  unfold apple_sio_dma_write
  rw [hep]
  simp only []
  rw [if_neg (by simp [hm]), if_neg (by simp [hdir]), length_qemu_iovec_from_buf,
    dma_advance_eq s i ep _ hid, qemu_iovec_from_buf_eq, cursor_add_to_int]
  rfl

/-- C19 (amended): on a mapped endpoint stored at the index that is its id,
with cursor c and mapped size S, a call of `len` bytes moves
n = min(len, S - c) bytes.  A read on a to-device endpoint places in the
caller's buffer the bytes c .. c+n-1 of the concatenation of the mapped
buffers in list order; a write on a from-device endpoint stores the caller's
first n bytes at the positions c .. c+n-1 of the mapped region.  The value
returned is n converted to `int`, which is n when n is below 2^31.  When c + n
is below 2^32 the cursor advances by n, and only then, if the cursor has
reached S, the completion is written back. -/
theorem transfer_on_mapped_endpoint (host : Nat → Nat) (s : AppleSIOState) (i : Nat)
    (ep : AppleSIODMAEndpoint) (buffer : List Nat) (len n : Nat)
    (hep : s.eps[i]? = some ep) (hm : ep.mapped = true) (hid : ep.id = i)
    (hn : n = min len (iov_size ep.iov - ep.actual_length)) :
    (ep.dir = DMADirection.DMA_DIRECTION_TO_DEVICE →
      ∃ r s1, apple_sio_dma_read host s i len =
          some (r, ((iov_contents host ep.iov).drop ep.actual_length).take n, s1) ∧
        r = to_int n ∧ (n < 2147483648 → r = n) ∧
        (ep.actual_length + n < 4294967296 →
          s1 = if iov_size ep.iov ≤ ep.actual_length + n then
            apple_sio_dma_writeback s i { ep with actual_length := ep.actual_length + n }
          else
            { s with eps := s.eps.set i { ep with actual_length := ep.actual_length + n } })) ∧
    (ep.dir = DMADirection.DMA_DIRECTION_FROM_DEVICE →
      ∃ r s1, apple_sio_dma_write s i buffer len =
          some (r,
            (List.range n).map (fun j =>
              ((iov_addresses ep.iov).getD (ep.actual_length + j) 0, buffer.getD j 0)), s1) ∧
        r = to_int n ∧ (n < 2147483648 → r = n) ∧
        (ep.actual_length + n < 4294967296 →
          s1 = if iov_size ep.iov ≤ ep.actual_length + n then
            apple_sio_dma_writeback s i { ep with actual_length := ep.actual_length + n }
          else
            { s with eps := s.eps.set i { ep with actual_length := ep.actual_length + n } })) := by
  constructor
  · intro hdir
    have h := read_mapped host s i ep len hep hm hid hdir
    rw [← hn] at h
    exact ⟨_, _, h, rfl, to_int_small n, fun hc32 => by rw [Nat.mod_eq_of_lt hc32]⟩
  · intro hdir
    have h := write_mapped s i ep buffer len hep hm hid hdir
    rw [← hn] at h
    exact ⟨_, _, h, rfl, to_int_small n, fun hc32 => by rw [Nat.mod_eq_of_lt hc32]⟩

/-- C19 (witness): a read of 8 bytes on endpoint 2 of the example state
(to device, cursor 0x10, size 0x30) returns 8 and gives the first 8 bytes of
the second buffer; a write of 0x40 bytes on endpoint 1 (from device, cursor 0)
returns 0x30. -/
theorem transfer_on_mapped_endpoint_witness :
    (apple_sio_dma_read (fun a => a % 256) sio_mapped_example 2 8).map (fun r => (r.1, r.2.1)) =
      some (8, [0, 1, 2, 3, 4, 5, 6, 7]) ∧
    (apple_sio_dma_write sio_mapped_example 1 (List.replicate 0x40 0xAA) 0x40).map
      (fun r => r.1) = some 0x30 := by
  constructor
  · obtain ⟨r, s1, h, -, hr, -⟩ := (transfer_on_mapped_endpoint (fun a => a % 256)
      sio_mapped_example 2
      (mapped_endpoint_example 2 DMADirection.DMA_DIRECTION_TO_DEVICE 0x10) [] 8 8
      (by decide) (by decide) (by decide) (by decide)).1 (by decide)
    rw [h, hr (by decide)]
    simp only [Option.map_some']
    decide
  · obtain ⟨r, s1, h, -, hr, -⟩ := (transfer_on_mapped_endpoint (fun a => a % 256)
      sio_mapped_example 1
      (mapped_endpoint_example 1 DMADirection.DMA_DIRECTION_FROM_DEVICE 0)
      (List.replicate 0x40 0xAA) 0x40 0x30
      (by decide) (by decide) (by decide) (by decide)).2 (by decide)
    rw [h, hr (by decide)]
    rfl

/-- C19 (counterexample): endpoint 2, to device, is mapped over one buffer.
With mapped size 0x90000000 and cursor 0, a read of 0x90000000 bytes moves
n = min(len, S - c) = 0x90000000 bytes, and the value returned is not n: it is
n converted to `int`, -1879048192.  With mapped size 0x100000000 and cursor
0xC0000000, a read of 0x40000000 bytes returns n = 0x40000000, and the cursor
is then 0, not c + n. -/
theorem transfer_count_counterexample :
    (apple_sio_dma_read (fun a => a % 256) (sio_one_buffer_example 0x90000000 0) 2
      0x90000000).map (fun r => r.1) = some (-1879048192) ∧
    (-1879048192 : Int) ≠ ((min 0x90000000 (0x90000000 - 0) : Nat) : Int) ∧
    (apple_sio_dma_read (fun a => a % 256) (sio_one_buffer_example 0x100000000 0xC0000000) 2
      0x40000000).map (fun r => (r.1, r.2.2)) =
      some (0x40000000, sio_one_buffer_example 0x100000000 0) ∧
    (0 : Nat) ≠ 0xC0000000 + min 0x40000000 (0x100000000 - 0xC0000000) := by
  refine ⟨?_, by decide, ?_, by decide⟩
  · rw [read_mapped (fun a => a % 256) (sio_one_buffer_example 0x90000000 0) 2
      (one_buffer_endpoint 2 DMADirection.DMA_DIRECTION_TO_DEVICE 0x90000000 0) 0x90000000
      (by decide) (by decide) (by decide) (by decide)]
    show some (to_int (min 0x90000000
      (iov_size (one_buffer_endpoint 2 DMADirection.DMA_DIRECTION_TO_DEVICE 0x90000000 0).iov -
        (one_buffer_endpoint 2 DMADirection.DMA_DIRECTION_TO_DEVICE 0x90000000 0).actual_length)
      : Nat)) = _
    decide
  · rw [read_mapped (fun a => a % 256) (sio_one_buffer_example 0x100000000 0xC0000000) 2
      (one_buffer_endpoint 2 DMADirection.DMA_DIRECTION_TO_DEVICE 0x100000000 0xC0000000)
      0x40000000 (by decide) (by decide) (by decide) (by decide)]
    simp only [Option.map_some']
    decide

/-! ## The cursor stays within the mapped size -/

theorem endpoint_trans_ok (ep ep1 : AppleSIODMAEndpoint) (hok : endpoint_ok ep)
    (h : endpoint_trans ep ep1) : endpoint_ok ep1 := by
  obtain ⟨h1, h2, h3⟩ := hok
  rcases h with ⟨config, rfl⟩ | ⟨-, rfl⟩ | ⟨hm, x, hx, rfl⟩ | ⟨-, tag, segs, iov, segments, hsz, rfl⟩
  · exact ⟨h1, h2, h3⟩
  · exact ⟨Nat.le_refl _, fun _ => ⟨rfl, rfl⟩, fun h => (by cases h)⟩
  · refine ⟨Nat.le_of_lt hx, fun h => ?_, h3⟩
    rw [show ep.mapped = false from h] at hm
    cases hm
  · refine ⟨Nat.zero_le _, fun h => (by cases h), fun _ => ?_⟩
    show iov_size iov = _
    rw [hsz, segments_length, List.map_map]
    rfl

theorem state_ok_set (eps : List AppleSIODMAEndpoint)
    (j : Nat) (ep1 : AppleSIODMAEndpoint) (hs : ∀ ep ∈ eps, endpoint_ok ep)
    (h1 : endpoint_ok ep1) : ∀ ep ∈ eps.set j ep1, endpoint_ok ep := by
  intro ep hmem
  rcases List.mem_or_eq_of_mem_set hmem with h | h
  · exact hs ep h
  · rw [h]; exact h1

theorem step_ok (s : AppleSIOState) (e : SIOEvent) (s1 : AppleSIOState)
    (hs : state_ok s) (h : sio_step s e = some s1) : state_ok s1 := by
  rcases step_shape s e s1 h with h1 | ⟨j, ep, ep1, hep, h1, ht⟩
  · intro ep hmem
    rw [h1] at hmem
    exact hs ep hmem
  · intro ep2 hmem
    rw [h1] at hmem
    exact state_ok_set s.eps j ep1 hs
      (endpoint_trans_ok ep ep1 (hs ep (List.getElem?_mem hep)) ht) ep2 hmem

theorem run_ok (events : List SIOEvent) :
    ∀ (s s1 : AppleSIOState), state_ok s → sio_run s events = some s1 → state_ok s1 := by
  induction events with
  | nil =>
    intro s s1 hs h
    cases h
    exact hs
  | cons e es ih =>
    intro s s1 hs h
    simp only [sio_run] at h
    cases hstep : sio_step s e with
    | none => rw [hstep] at h; cases h
    | some s2 =>
      rw [hstep] at h
      exact ih s2 s1 (step_ok s e s2 hs hstep) h

theorem reset_endpoint_ok (s : AppleSIOState) (i : Nat) (hs : state_ok s) :
    state_ok (reset_endpoint s i) := by
  unfold reset_endpoint
  cases hep : s.eps[i]? with
  | none => exact hs
  | some ep =>
    simp only []
    have hs1 : state_ok (if ep.mapped = true then apple_sio_unmap_dma s i ep else s) := by
      split
      · exact state_ok_set s.eps i _ hs
          ⟨Nat.le_refl _, fun _ => ⟨rfl, rfl⟩, fun h => by cases h⟩
      · exact hs
    generalize (if ep.mapped = true then apple_sio_unmap_dma s i ep else s) = s1 at hs1
    cases hep1 : s1.eps[i]? with
    | none => exact hs1
    | some ep1 =>
      exact state_ok_set s1.eps i _ hs1 (hs1 ep1 (List.getElem?_mem hep1))

theorem foldl_reset_endpoint_ok (l : List Nat) :
    ∀ s : AppleSIOState, state_ok s → state_ok (l.foldl reset_endpoint s) := by
  induction l with
  | nil => intro s hs; exact hs
  | cons i l ih => intro s hs; exact ih _ (reset_endpoint_ok s i hs)

theorem reset_state_ok (num_eps num_params config_size : Nat) (s0 : AppleSIOState)
    (h : sio_reset_state num_eps num_params config_size = some s0) : state_ok s0 := by
  unfold sio_reset_state apple_sio_reset_hold at h
  split at h
  · cases h
    apply foldl_reset_endpoint_ok
    intro ep hmem
    simp only [apple_sio_realize, sio_zero, List.mem_map] at hmem
    obtain ⟨p, hp, rfl⟩ := hmem
    have hz : p.2 = endpoint_zero config_size :=
      List.eq_of_mem_replicate (List.snd_mem_of_mem_enum hp)
    rw [hz]
    exact ⟨Nat.le_refl _, fun _ => ⟨rfl, rfl⟩, fun h => by cases h⟩
  · cases h

/-- C20 (amended): in every state reached from the reset state by requests and
by read and write calls, the cursor c of each endpoint is at most its mapped
size S, which for a mapped endpoint is the sum of the lengths of its
scatter-gather list.  The remaining count is S - c converted to `int`: it is
S - c, hence not negative, when S - c is below 2^31, and it is 0 for an
endpoint that is not mapped. -/
theorem cursor_within_mapped_size (num_eps num_params config_size : Nat)
    (s0 s : AppleSIOState) (events : List SIOEvent) (i : Nat) (ep : AppleSIODMAEndpoint)
    (h0 : sio_reset_state num_eps num_params config_size = some s0)
    (hrun : sio_run s0 events = some s)
    (hep : s.eps[i]? = some ep) :
    ep.actual_length ≤ iov_size ep.iov ∧
    (ep.mapped = true → iov_size ep.iov = (ep.sgl.map fun g => g.len).sum) ∧
    apple_sio_dma_remaining ep = to_int ((iov_size ep.iov - ep.actual_length : Nat) : Int) ∧
    (iov_size ep.iov - ep.actual_length < 2147483648 →
      apple_sio_dma_remaining ep = ((iov_size ep.iov - ep.actual_length : Nat) : Int) ∧
      0 ≤ apple_sio_dma_remaining ep) ∧
    (ep.mapped = false → apple_sio_dma_remaining ep = 0) := by
  obtain ⟨h1, h2, h3⟩ :=
    run_ok events s0 s (reset_state_ok _ _ _ s0 h0) hrun ep (List.getElem?_mem hep)
  have hr : apple_sio_dma_remaining ep =
      to_int ((iov_size ep.iov - ep.actual_length : Nat) : Int) := by
    unfold apple_sio_dma_remaining
    rw [Nat.cast_sub h1]
  refine ⟨h1, h3, hr, fun hlt => ?_, fun hm => ?_⟩
  · rw [hr, to_int_small _ hlt]
    exact ⟨rfl, Int.natCast_nonneg _⟩
  · obtain ⟨h4, h5⟩ := h2 hm
    rw [hr, h4, h5]
    rfl

/-- C20 (witness): after START_DMA on endpoint 1 with segments of 0x10 and 0x20
bytes and a write of 0x10 bytes, the cursor 0x10 is within the mapped size
0x30 and the remaining count is 0x20. -/
theorem cursor_within_mapped_size_witness :
    sio_half_written_example.eps[1]? =
      some { mapped_endpoint_example 1 DMADirection.DMA_DIRECTION_FROM_DEVICE 0x10 with
        tag := 9 } ∧
    (0x10 : Nat) ≤ iov_size [⟨0x1000, 0x10⟩, ⟨0x2000, 0x20⟩] ∧
    apple_sio_dma_remaining
      { mapped_endpoint_example 1 DMADirection.DMA_DIRECTION_FROM_DEVICE 0x10 with tag := 9 } =
      0x20 :=
  ⟨by decide,
   (cursor_within_mapped_size 4 40 28 sio_reset_example sio_half_written_example
      start_then_write_example 1
      { mapped_endpoint_example 1 DMADirection.DMA_DIRECTION_FROM_DEVICE 0x10 with tag := 9 }
      (by decide) (by decide) (by decide)).1,
   ((cursor_within_mapped_size 4 40 28 sio_reset_example sio_half_written_example
      start_then_write_example 1
      { mapped_endpoint_example 1 DMADirection.DMA_DIRECTION_FROM_DEVICE 0x10 with tag := 9 }
      (by decide) (by decide) (by decide)).2.2.2.1 (by decide)).1⟩

/-- C20 (counterexample): one START_DMA request on endpoint 1 of the reset
state, with one segment of 0x90000000 bytes, reaches a state in which the
cursor 0 of endpoint 1 is within its mapped size 0x90000000 and the remaining
count is negative: -1879048192. -/
theorem remaining_negative_counterexample :
    sio_reset_state 4 40 28 = some sio_reset_example ∧
    sio_run sio_reset_example
      [SIOEvent.request (address_space_one_segment 0x90000000) 0x30 start_dma_request_example] =
      some (sio_one_segment_example 0x90000000 0) ∧
    (sio_one_segment_example 0x90000000 0).eps[1]? =
      some (one_buffer_endpoint 1 DMADirection.DMA_DIRECTION_FROM_DEVICE 0x90000000 0) ∧
    (one_buffer_endpoint 1 DMADirection.DMA_DIRECTION_FROM_DEVICE 0x90000000 0).actual_length ≤
      iov_size (one_buffer_endpoint 1 DMADirection.DMA_DIRECTION_FROM_DEVICE 0x90000000 0).iov ∧
    apple_sio_dma_remaining
      (one_buffer_endpoint 1 DMADirection.DMA_DIRECTION_FROM_DEVICE 0x90000000 0) =
      -1879048192 ∧
    ¬ 0 ≤ apple_sio_dma_remaining
      (one_buffer_endpoint 1 DMADirection.DMA_DIRECTION_FROM_DEVICE 0x90000000 0) := by
  refine ⟨by decide, by decide, by decide, by decide, by decide, by decide⟩

/-! ## Later words of a receive frame -/

theorem read_iop_recv_later (s : AppleA7IOPMailbox) (k size : Nat)
    (hk : k = 1 ∨ k = 2 ∨ k = 3) :
    apple_a7iop_mailbox_reg_read_v4 s (REG_IOP_RECV0 + 4 * k) size =
      iop_recv_tail s (REG_IOP_RECV0 + 4 * k) size := by
  rcases hk with rfl | rfl | rfl <;>
    simp [apple_a7iop_mailbox_reg_read_v4, REG_INT_MASK_SET, REG_INT_MASK_CLR, REG_IOP_CTRL,
      REG_AP_CTRL, REG_IOP_RECV0, REG_IOP_RECV1, REG_IOP_RECV2, REG_IOP_RECV3]

theorem read_ap_recv_later (s : AppleA7IOPMailbox) (k size : Nat)
    (hk : k = 1 ∨ k = 2 ∨ k = 3) :
    apple_a7iop_mailbox_reg_read_v4 s (REG_AP_RECV0 + 4 * k) size =
      ap_recv_tail s (REG_AP_RECV0 + 4 * k) size := by
  rcases hk with rfl | rfl | rfl <;>
    simp [apple_a7iop_mailbox_reg_read_v4, REG_INT_MASK_SET, REG_INT_MASK_CLR, REG_IOP_CTRL,
      REG_AP_CTRL, REG_IOP_RECV0, REG_IOP_RECV1, REG_IOP_RECV2, REG_IOP_RECV3, REG_AP_RECV0,
      REG_AP_RECV1, REG_AP_RECV2, REG_AP_RECV3]

theorem iop_recv_tail_later (s : AppleA7IOPMailbox) (k size : Nat) (hs : size ≤ 8)
    (hl : 4 * k + size ≤ s.iop_recv_reg.length) :
    iop_recv_tail s (REG_IOP_RECV0 + 4 * k) size =
      some (le_value ((s.iop_recv_reg.drop (4 * k)).take size), s) := by
  simp [iop_recv_tail, hs, hl]

theorem ap_recv_tail_later (s : AppleA7IOPMailbox) (k size : Nat) (hs : size ≤ 8)
    (hl : 4 * k + size ≤ s.ap_recv_reg.length) :
    ap_recv_tail s (REG_AP_RECV0 + 4 * k) size =
      some (le_value ((s.ap_recv_reg.drop (4 * k)).take size), s) := by
  simp [ap_recv_tail, hs, hl]

/-- A 4-byte read of IOP_RECV0 with a Message at the head of the queue. -/
theorem read_iop_recv0_pop (s : AppleA7IOPMailbox) (hwf : s.wf) (m : AppleA7IOPMessage)
    (rest : List AppleA7IOPMessage) (hq : s.iop_queue = m :: rest) :
    apple_a7iop_mailbox_reg_read_v4 s REG_IOP_RECV0 4 =
      some (le_value (m.data.take 4), { s with iop_recv_reg := m.data, iop_queue := rest }) := by
  obtain ⟨-, -, h3, -, h5, -⟩ := hwf
  have hm : m.data.length = FRAME_SIZE := h5 m (by simp [hq])
  have hcopy : memcpy s.iop_recv_reg 0 (m.data.take FRAME_SIZE) = m.data := by
    rw [take_frame _ hm]; exact memcpy_whole _ _ (by rw [hm, h3])
  rw [read_iop_recv0]
  simp only [apple_a7iop_mailbox_recv_iop, hq, hcopy]
  rw [iop_recv_tail_first _ _ (by decide) (by simp [hm, FRAME_SIZE])]

/-- A 4-byte read of AP_RECV0 with a Message at the head of the queue. -/
theorem read_ap_recv0_pop (s : AppleA7IOPMailbox) (hwf : s.wf) (m : AppleA7IOPMessage)
    (rest : List AppleA7IOPMessage) (hq : s.ap_queue = m :: rest) :
    apple_a7iop_mailbox_reg_read_v4 s REG_AP_RECV0 4 =
      some (le_value (m.data.take 4), { s with ap_recv_reg := m.data, ap_queue := rest }) := by
  obtain ⟨-, -, -, h4, -, h6⟩ := hwf
  have hm : m.data.length = FRAME_SIZE := h6 m (by simp [hq])
  have hcopy : memcpy s.ap_recv_reg 0 (m.data.take FRAME_SIZE) = m.data := by
    rw [take_frame _ hm]; exact memcpy_whole _ _ (by rw [hm, h4])
  rw [read_ap_recv0]
  simp only [apple_a7iop_mailbox_recv_ap, hq, hcopy]
  rw [ap_recv_tail_first _ _ (by decide) (by simp [hm, FRAME_SIZE])]

/-- C21: a read of word k = 1, 2 or 3 of a receive frame, of either direction,
that stays inside the frame leaves the whole mailbox, the queues and the
receive staging buffers included, as it was and returns the bytes of the
staging buffer from offset 4k on, as a little-endian value.  Hence, when a
4-byte read of the first word has popped Message M, a 4-byte read of word k in
the state it leaves returns word k of M and leaves that state as it is. -/
theorem recv_later_word_read (s : AppleA7IOPMailbox) (hwf : s.wf) (k size : Nat)
    (hk : k = 1 ∨ k = 2 ∨ k = 3) (hsize : size ≤ 8) (hin : 4 * k + size ≤ FRAME_SIZE) :
    apple_a7iop_mailbox_reg_read_v4 s (REG_IOP_RECV0 + 4 * k) size =
      some (le_value ((s.iop_recv_reg.drop (4 * k)).take size), s) ∧
    apple_a7iop_mailbox_reg_read_v4 s (REG_AP_RECV0 + 4 * k) size =
      some (le_value ((s.ap_recv_reg.drop (4 * k)).take size), s) ∧
    (∀ m rest, s.iop_queue = m :: rest →
      ∃ v s1, apple_a7iop_mailbox_reg_read_v4 s REG_IOP_RECV0 4 = some (v, s1) ∧
        s1.iop_queue = rest ∧
        apple_a7iop_mailbox_reg_read_v4 s1 (REG_IOP_RECV0 + 4 * k) 4 =
          some (le_value ((m.data.drop (4 * k)).take 4), s1)) ∧
    (∀ m rest, s.ap_queue = m :: rest →
      ∃ v s1, apple_a7iop_mailbox_reg_read_v4 s REG_AP_RECV0 4 = some (v, s1) ∧
        s1.ap_queue = rest ∧
        apple_a7iop_mailbox_reg_read_v4 s1 (REG_AP_RECV0 + 4 * k) 4 =
          some (le_value ((m.data.drop (4 * k)).take 4), s1)) := by
  have hwf2 := hwf
  obtain ⟨-, -, h3, h4, h5, h6⟩ := hwf2
  have hk4 : 4 * k + 4 ≤ FRAME_SIZE := by
    rw [FRAME_SIZE]; rcases hk with rfl | rfl | rfl <;> decide
  refine ⟨?_, ?_, ?_, ?_⟩
  · rw [read_iop_recv_later s k size hk, iop_recv_tail_later s k size hsize (by rw [h3]; exact hin)]
  · rw [read_ap_recv_later s k size hk, ap_recv_tail_later s k size hsize (by rw [h4]; exact hin)]
  · intro m rest hq
    have hm : m.data.length = FRAME_SIZE := h5 m (by simp [hq])
    refine ⟨_, _, read_iop_recv0_pop s hwf m rest hq, rfl, ?_⟩
    rw [read_iop_recv_later _ k 4 hk,
      iop_recv_tail_later _ k 4 (by decide) (by rw [← hm] at hk4; exact hk4)]
  · intro m rest hq
    have hm : m.data.length = FRAME_SIZE := h6 m (by simp [hq])
    refine ⟨_, _, read_ap_recv0_pop s hwf m rest hq, rfl, ?_⟩
    rw [read_ap_recv_later _ k 4 hk,
      ap_recv_tail_later _ k 4 (by decide) (by rw [← hm] at hk4; exact hk4)]

/-- C21 (witness): after the first-word read of the example mailbox, a 4-byte
read of IOP_RECV2 returns the third word of the popped Message and changes
nothing. -/
theorem recv_later_word_read_witness :
    apple_a7iop_mailbox_reg_read_v4 mailbox_first_word_read (REG_IOP_RECV0 + 4 * 2) 4 =
      some (le_value
        ((mailbox_first_word_read.iop_recv_reg.drop (4 * 2)).take 4), mailbox_first_word_read) ∧
    REG_IOP_RECV0 + 4 * 2 = REG_IOP_RECV2 ∧
    le_value ((mailbox_first_word_read.iop_recv_reg.drop (4 * 2)).take 4) = 0x0C0B0A09 :=
  ⟨(recv_later_word_read mailbox_first_word_read (by decide) 2 4 (by decide) (by decide)
      (by decide)).1, by decide, by decide⟩

/-! ## Interrupt mask registers -/

/-- C23: in every mailbox state a read of the interrupt-mask-set register
returns a 32-bit value v and a read of the interrupt-mask-clear register
returns the 32-bit complement of v: bit i of it, for i below 32, is the
negation of bit i of v, and no higher bit is set; neither read changes the
state. -/
theorem int_mask_clr_read_is_complement (s : AppleA7IOPMailbox) (size : Nat) :
    ∃ v, apple_a7iop_mailbox_reg_read_v4 s REG_INT_MASK_SET size = some (v, s) ∧
      v < 2 ^ 32 ∧
      apple_a7iop_mailbox_reg_read_v4 s REG_INT_MASK_CLR size = some (v ^^^ (2 ^ 32 - 1), s) ∧
      v ^^^ (2 ^ 32 - 1) = 2 ^ 32 - 1 - v ∧
      ∀ i, (v ^^^ (2 ^ 32 - 1)).testBit i = (decide (i < 32) && !v.testBit i) := by
  have hv : apple_a7iop_mailbox_get_int_mask s < 2 ^ 32 := Nat.mod_lt _ (by decide)
  generalize hg : apple_a7iop_mailbox_get_int_mask s = v at hv
  have hbit : ∀ i, (v ^^^ (2 ^ 32 - 1)).testBit i = (decide (i < 32) && !v.testBit i) := by
    intro i
    rw [Nat.testBit_xor, Nat.testBit_two_pow_sub_one]
    by_cases hi : i < 32
    · simp [hi]
    · have hle : 2 ^ 32 ≤ 2 ^ i := Nat.pow_le_pow_right (by decide) (by omega)
      have : v.testBit i = false := Nat.testBit_lt_two_pow (by omega)
      simp [hi, this]
  have hx : v ^^^ (2 ^ 32 - 1) = 2 ^ 32 - 1 - v := by
    apply Nat.eq_of_testBit_eq
    intro i
    rw [hbit, show 2 ^ 32 - 1 - v = 2 ^ 32 - (v + 1) by omega, Nat.testBit_two_pow_sub_succ hv]
  refine ⟨v, ?_, hv, ?_, hx, hbit⟩
  · simp [apple_a7iop_mailbox_reg_read_v4, hg]
  · rw [hx]
    simp [apple_a7iop_mailbox_reg_read_v4, hg, REG_INT_MASK_SET, REG_INT_MASK_CLR]

/-! ## The send staging buffer after a frame -/

/-- C22 (amended): the write that completes a send frame, in either direction,
enqueues one Message and leaves the send staging buffer of that direction
holding exactly the 16 bytes of that Message: the buffer is not cleared, and
each byte of it that a following slot write does not cover is still there
after that write. -/
theorem send_frame_keeps_staged_bytes (base : Nat)
    (hbase : base = REG_IOP_SEND0 ∨ base = REG_AP_SEND0)
    (s : AppleA7IOPMailbox) (hwf : s.wf) (w : RegWrite)
    (hw : send_slot_write base w) (hlast : w.addr + w.size = base + FRAME_SIZE) :
    ∃ s1 msg, apple_a7iop_mailbox_reg_write_v4 s w.addr w.data w.size = some s1 ∧
      queue_of_send base s1 = queue_of_send base s ++ [msg] ∧
      msg.data.length = FRAME_SIZE ∧
      staging_of_send base s1 = msg.data ∧
      ∀ w2, send_slot_write base w2 →
        ∃ s2, apple_a7iop_mailbox_reg_write_v4 s1 w2.addr w2.data w2.size = some s2 ∧
          ∀ i, i < FRAME_SIZE → ¬ (w2.addr - base ≤ i ∧ i < w2.addr - base + w2.size) →
            (staging_of_send base s2).getD i 0 = msg.data.getD i 0 := by
  obtain ⟨h1, h2, -, -, -, -⟩ := hwf
  simp only [FRAME_SIZE] at hlast
  rcases hbase with rfl | rfl
  · have hstep := iop_send_write s w hw h1
    rw [if_pos hlast] at hstep
    have hM : (staged_after s.iop_send_reg REG_IOP_SEND0 w.addr w.data w.size).length =
        FRAME_SIZE := by rw [staged_after, length_memcpy, h1]
    refine ⟨_, ⟨staged_after s.iop_send_reg REG_IOP_SEND0 w.addr w.data w.size⟩, hstep, ?_,
      hM, ?_, ?_⟩
    · simp [queue_of_send]
    · simp [staging_of_send]
    · intro w2 hw2
      have hstep2 := iop_send_write
        { s with
          iop_send_reg := staged_after s.iop_send_reg REG_IOP_SEND0 w.addr w.data w.size,
          iop_queue := s.iop_queue ++
            [{ data := staged_after s.iop_send_reg REG_IOP_SEND0 w.addr w.data w.size }] }
        w2 hw2 hM
      refine ⟨_, hstep2, ?_⟩
      intro i hi hnot
      have hg := getD_staged_after
        (staged_after s.iop_send_reg REG_IOP_SEND0 w.addr w.data w.size) REG_IOP_SEND0
        w2.addr w2.data w2.size i (by rw [hM]; exact hi)
      rw [if_neg hnot] at hg
      split <;> simpa [staging_of_send] using hg
  · have hstep := ap_send_write s w hw h2
    rw [if_pos hlast] at hstep
    have hM : (staged_after s.ap_send_reg REG_AP_SEND0 w.addr w.data w.size).length =
        FRAME_SIZE := by rw [staged_after, length_memcpy, h2]
    refine ⟨_, ⟨staged_after s.ap_send_reg REG_AP_SEND0 w.addr w.data w.size⟩, hstep, ?_,
      hM, ?_, ?_⟩
    · simp [queue_of_send, REG_AP_SEND0, REG_IOP_SEND0]
    · simp [staging_of_send, REG_AP_SEND0, REG_IOP_SEND0]
    · intro w2 hw2
      have hstep2 := ap_send_write
        { s with
          ap_send_reg := staged_after s.ap_send_reg REG_AP_SEND0 w.addr w.data w.size,
          ap_queue := s.ap_queue ++
            [{ data := staged_after s.ap_send_reg REG_AP_SEND0 w.addr w.data w.size }] }
        w2 hw2 hM
      refine ⟨_, hstep2, ?_⟩
      intro i hi hnot
      have hg := getD_staged_after
        (staged_after s.ap_send_reg REG_AP_SEND0 w.addr w.data w.size) REG_AP_SEND0
        w2.addr w2.data w2.size i (by rw [hM]; exact hi)
      rw [if_neg hnot] at hg
      split <;> simpa [staging_of_send, REG_AP_SEND0, REG_IOP_SEND0] using hg

/-- C22 (witness): the write of the fourth IOP send slot after the first three
have been written from the initial mailbox. -/
theorem send_frame_keeps_staged_bytes_witness :
    ∃ s1 msg,
      apple_a7iop_mailbox_reg_write_v4
        ((reg_writes mailbox_init writes_in_order).getD mailbox_init)
        REG_IOP_SEND3 0x44444444 4 = some s1 ∧
      queue_of_send REG_IOP_SEND0 s1 =
        queue_of_send REG_IOP_SEND0
          ((reg_writes mailbox_init writes_in_order).getD mailbox_init) ++ [msg] ∧
      msg.data.length = FRAME_SIZE ∧
      staging_of_send REG_IOP_SEND0 s1 = msg.data ∧
      ∀ w2, send_slot_write REG_IOP_SEND0 w2 →
        ∃ s2, apple_a7iop_mailbox_reg_write_v4 s1 w2.addr w2.data w2.size = some s2 ∧
          ∀ i, i < FRAME_SIZE →
            ¬ (w2.addr - REG_IOP_SEND0 ≤ i ∧ i < w2.addr - REG_IOP_SEND0 + w2.size) →
            (staging_of_send REG_IOP_SEND0 s2).getD i 0 = msg.data.getD i 0 :=
  send_frame_keeps_staged_bytes REG_IOP_SEND0 (Or.inl rfl)
    ((reg_writes mailbox_init writes_in_order).getD mailbox_init) (by decide)
    ⟨REG_IOP_SEND3, 0x44444444, 4⟩ (by decide) (by decide)

/-- C22 (counterexample): after the four IOP send slots have been written in
slot order from the initial mailbox, the Message is in the queue and the send
staging buffer still holds its 16 bytes, none of them zero; a write of the
fourth slot alone then enqueues a second Message whose first twelve bytes are
those of the first frame. -/
theorem send_staging_cleared_counterexample :
    mailbox_init.wf ∧
    reg_writes mailbox_init writes_whole_frame = some mailbox_frame_sent ∧
    mailbox_frame_sent.iop_queue =
      [⟨[0x11, 0x11, 0x11, 0x11, 0x22, 0x22, 0x22, 0x22, 0x33, 0x33, 0x33, 0x33,
         0x44, 0x44, 0x44, 0x44]⟩] ∧
    mailbox_frame_sent.iop_send_reg =
      [0x11, 0x11, 0x11, 0x11, 0x22, 0x22, 0x22, 0x22, 0x33, 0x33, 0x33, 0x33,
       0x44, 0x44, 0x44, 0x44] ∧
    mailbox_frame_sent.iop_send_reg ≠ List.replicate FRAME_SIZE 0 ∧
    (apple_a7iop_mailbox_reg_write_v4 mailbox_frame_sent REG_IOP_SEND3 0x55555555 4).map
        (fun s => s.iop_queue.drop 1) =
      some [⟨[0x11, 0x11, 0x11, 0x11, 0x22, 0x22, 0x22, 0x22, 0x33, 0x33, 0x33, 0x33,
         0x55, 0x55, 0x55, 0x55]⟩] := by
  refine ⟨by decide, by decide, by decide, by decide, by decide, by decide⟩

/-! ## One write to a send slot -/

/-- C26: an accepted write of `size` bytes at a send-slot address `addr`, of
either direction.  The state after it differs from the state before it in the
staging buffer of that direction, which holds the written bytes from offset
addr - SEND0 on and keeps every other byte, and, if and only if addr + size is
the end of the fourth slot, in the queue of that direction, which gains one
Message, built from the staging buffer after the write.  Everything else, the
other direction's staging buffer and queue included, is as before. -/
theorem send_slot_write_effect (s : AppleA7IOPMailbox) (hwf : s.wf) (w : RegWrite) :
    (send_slot_write REG_IOP_SEND0 w →
      ∃ staged, staged.length = FRAME_SIZE ∧
        (∀ i, i < FRAME_SIZE → staged.getD i 0 =
          if w.addr - REG_IOP_SEND0 ≤ i ∧ i < w.addr - REG_IOP_SEND0 + w.size then
            w.data / 2 ^ (8 * (i - (w.addr - REG_IOP_SEND0))) % 256
          else s.iop_send_reg.getD i 0) ∧
        (w.addr + w.size = REG_IOP_SEND3 + 4 →
          apple_a7iop_mailbox_reg_write_v4 s w.addr w.data w.size =
            some { s with iop_send_reg := staged,
                          iop_queue := s.iop_queue ++ [{ data := staged }] }) ∧
        (w.addr + w.size ≠ REG_IOP_SEND3 + 4 →
          apple_a7iop_mailbox_reg_write_v4 s w.addr w.data w.size =
            some { s with iop_send_reg := staged })) ∧
    (send_slot_write REG_AP_SEND0 w →
      ∃ staged, staged.length = FRAME_SIZE ∧
        (∀ i, i < FRAME_SIZE → staged.getD i 0 =
          if w.addr - REG_AP_SEND0 ≤ i ∧ i < w.addr - REG_AP_SEND0 + w.size then
            w.data / 2 ^ (8 * (i - (w.addr - REG_AP_SEND0))) % 256
          else s.ap_send_reg.getD i 0) ∧
        (w.addr + w.size = REG_AP_SEND3 + 4 →
          apple_a7iop_mailbox_reg_write_v4 s w.addr w.data w.size =
            some { s with ap_send_reg := staged,
                          ap_queue := s.ap_queue ++ [{ data := staged }] }) ∧
        (w.addr + w.size ≠ REG_AP_SEND3 + 4 →
          apple_a7iop_mailbox_reg_write_v4 s w.addr w.data w.size =
            some { s with ap_send_reg := staged })) := by
  obtain ⟨h1, h2, -, -, -, -⟩ := hwf
  constructor
  · intro hw
    have hstep := iop_send_write s w hw h1
    refine ⟨staged_after s.iop_send_reg REG_IOP_SEND0 w.addr w.data w.size, ?_, ?_, ?_, ?_⟩
    · rw [staged_after, length_memcpy, h1]
    · intro i hi
      exact getD_staged_after _ _ _ _ _ _ (by rw [h1]; exact hi)
    · intro hend
      rw [hstep, if_pos (by simpa [REG_IOP_SEND0, REG_IOP_SEND3] using hend)]
    · intro hend
      rw [hstep, if_neg (by simpa [REG_IOP_SEND0, REG_IOP_SEND3] using hend)]
  · intro hw
    have hstep := ap_send_write s w hw h2
    refine ⟨staged_after s.ap_send_reg REG_AP_SEND0 w.addr w.data w.size, ?_, ?_, ?_, ?_⟩
    · rw [staged_after, length_memcpy, h2]
    · intro i hi
      exact getD_staged_after _ _ _ _ _ _ (by rw [h2]; exact hi)
    · intro hend
      rw [hstep, if_pos (by simpa [REG_AP_SEND0, REG_AP_SEND3] using hend)]
    · intro hend
      rw [hstep, if_neg (by simpa [REG_AP_SEND0, REG_AP_SEND3] using hend)]

/-- C26 (witness): with the first three IOP send slots staged, a 4-byte write
of the second slot: it does not end the frame, so nothing is enqueued and only
bytes 4 to 7 of the staging buffer are replaced. -/
theorem send_slot_write_effect_witness :
    ∃ staged, staged.length = FRAME_SIZE ∧
      (∀ i, i < FRAME_SIZE → staged.getD i 0 =
        if REG_IOP_SEND1 - REG_IOP_SEND0 ≤ i ∧ i < REG_IOP_SEND1 - REG_IOP_SEND0 + 4 then
          0xAABBCCDD / 2 ^ (8 * (i - (REG_IOP_SEND1 - REG_IOP_SEND0))) % 256
        else mailbox_three_staged.iop_send_reg.getD i 0) ∧
      (REG_IOP_SEND1 + 4 = REG_IOP_SEND3 + 4 →
        apple_a7iop_mailbox_reg_write_v4 mailbox_three_staged REG_IOP_SEND1 0xAABBCCDD 4 =
          some { mailbox_three_staged with
            iop_send_reg := staged,
            iop_queue := mailbox_three_staged.iop_queue ++ [{ data := staged }] }) ∧
      (REG_IOP_SEND1 + 4 ≠ REG_IOP_SEND3 + 4 →
        apple_a7iop_mailbox_reg_write_v4 mailbox_three_staged REG_IOP_SEND1 0xAABBCCDD 4 =
          some { mailbox_three_staged with iop_send_reg := staged }) :=
  (send_slot_write_effect mailbox_three_staged (by decide)
    ⟨REG_IOP_SEND1, 0xAABBCCDD, 4⟩).1 (by decide)

/-! ## Endpoint ids out of range -/

/-- C25: on a controller that has its control endpoints (more than EP_PERF
endpoints), a message whose endpoint byte is at or beyond SIO_NUM_EPS is
dropped: the state after it, host-bound queue, parameters and endpoints, is
the state before it. -/
theorem unknown_endpoint_dropped (as : AddressSpace) (fuel : Nat) (s : AppleSIOState)
    (msg : Nat) (hnum : EP_PERF < SIO_NUM_EPS s)
    (hep : SIO_NUM_EPS s ≤ (sio_msg.of_raw msg).ep) :
    apple_sio_handle_endpoint as fuel s msg = some s := by
  have h : ¬ ((sio_msg.of_raw msg).ep = EP_CONTROL ∨ (sio_msg.of_raw msg).ep = EP_PERF) := by
    simp only [EP_PERF, EP_CONTROL] at hnum ⊢
    omega
  simp only [apple_sio_handle_endpoint, if_neg h, if_pos hep]

/-- C25 (witness): endpoint byte 7 on a controller with 4 endpoints. -/
theorem unknown_endpoint_dropped_witness :
    apple_sio_handle_endpoint address_space_two_segments 0x30 sio_mapped_example
      unknown_endpoint_request_example = some sio_mapped_example :=
  unknown_endpoint_dropped address_space_two_segments 0x30 sio_mapped_example
    unknown_endpoint_request_example (by decide) (by decide)

/-! ## Termination of the mapping loop -/

theorem map_range_fuel_succ (as : AddressSpace) (dir : DMADirection) :
    ∀ (fuel k base len : Nat) (iov : List iovec) (r : Nat × List iovec),
      map_range as dir fuel k base len iov = some r →
      map_range as dir (fuel + 1) k base len iov = some r := by
  intro fuel
  induction fuel with
  | zero =>
    intro k base len iov r h
    simp only [map_range] at h ⊢
    split at h
    · next h0 => rw [if_pos h0]; exact h
    · cases h
  | succ fuel ih =>
    intro k base len iov r h
    rw [map_range] at h ⊢
    by_cases h0 : len = 0
    · rw [if_pos h0] at h ⊢; exact h
    · rw [if_neg h0] at h ⊢
      cases hm : as.dma_memory_map k base len dir with
      | none =>
        rw [hm] at h
        exact ih _ _ _ _ _ h
      | some p =>
        obtain ⟨mem, xlen⟩ := p
        rw [hm] at h
        exact ih _ _ _ _ _ h

theorem map_range_fuel_le (as : AddressSpace) (dir : DMADirection)
    (fuel fuel2 k base len : Nat) (iov : List iovec) (r : Nat × List iovec)
    (hle : fuel ≤ fuel2) (h : map_range as dir fuel k base len iov = some r) :
    map_range as dir fuel2 k base len iov = some r := by
  induction fuel2 with
  | zero =>
    have : fuel = 0 := by omega
    subst this; exact h
  | succ n ih =>
    by_cases hn : fuel ≤ n
    · exact map_range_fuel_succ as dir n k base len iov r (ih hn)
    · have : fuel = n + 1 := by omega
      subst this; exact h

theorem map_entries_fuel_le (as : AddressSpace) (dir : DMADirection) (fuel fuel2 : Nat)
    (hle : fuel ≤ fuel2) (gs : List ScatterGatherEntry) :
    ∀ (k : Nat) (iov : List iovec) (r : Nat × List iovec),
      map_entries as dir fuel gs k iov = some r → map_entries as dir fuel2 gs k iov = some r := by
  induction gs with
  | nil => intro k iov r h; exact h
  | cons g gs ih =>
    intro k iov r h
    simp only [map_entries] at h ⊢
    cases h1 : map_range as dir fuel k g.base g.len iov with
    | none => rw [h1] at h; cases h
    | some p =>
      obtain ⟨k1, iov1⟩ := p
      rw [h1] at h
      rw [map_range_fuel_le as dir fuel fuel2 k g.base g.len iov _ hle h1]
      exact ih _ _ _ h

theorem apple_sio_map_dma_fuel_le (as : AddressSpace) (fuel fuel2 : Nat) (hle : fuel ≤ fuel2)
    (ep ep1 : AppleSIODMAEndpoint) (h : apple_sio_map_dma as fuel ep = some ep1) :
    apple_sio_map_dma as fuel2 ep = some ep1 := by
  unfold apple_sio_map_dma at h ⊢
  by_cases hm : ep.mapped = true
  · rw [if_pos hm] at h ⊢; exact h
  · rw [if_neg hm] at h ⊢
    by_cases hc : ep.sgl.length < ep.count
    · rw [if_pos hc] at h; cases h
    · rw [if_neg hc] at h ⊢
      cases h1 : map_entries as ep.dir fuel (ep.sgl.take ep.count) 0 [] with
      | none => rw [h1] at h; cases h
      | some p =>
        rw [h1] at h
        rw [map_entries_fuel_le as ep.dir fuel fuel2 hle _ _ _ _ h1]
        exact h

/-- A mapping call that returns a null buffer is retried on the same range:
with every call from call `k` on failing, no amount of fuel finishes the loop. -/
theorem map_range_never (as : AddressSpace) (dir : DMADirection) (base len : Nat)
    (hlen : len ≠ 0) :
    ∀ (fuel k : Nat) (iov : List iovec),
      (∀ j, k ≤ j → as.dma_memory_map j base len dir = none) →
      map_range as dir fuel k base len iov = none := by
  intro fuel
  induction fuel with
  | zero => intro k iov _; simp [map_range, hlen]
  | succ fuel ih =>
    intro k iov hall
    rw [map_range, if_neg hlen, hall k (Nat.le_refl _)]
    exact ih (k + 1) iov (fun j hj => hall j (by omega))

/-- C27: the mapping loop of `apple_sio_map_dma`.  If every mapping call on a
non-empty range returns a buffer of positive length, then for every endpoint
whose count is within its scatter-gather list the function returns, leaving
the endpoint mapped, once the fuel covers the longest segment, and more fuel
gives the same result.  In the loop of one segment a null mapping changes
neither the range nor the I/O vector and the same range is tried again, so
that the loop never ends if every call fails; a mapping of positive length
shortens the remaining length. -/
theorem map_dma_terminates (as : AddressSpace) (ep : AppleSIODMAEndpoint) (fuel : Nat) :
    (mappings_succeed as ep.dir → ep.count ≤ ep.sgl.length →
      (∀ g ∈ ep.sgl.take ep.count, g.len ≤ fuel) →
      ∃ ep1, apple_sio_map_dma as fuel ep = some ep1 ∧ ep1.mapped = true ∧
        ∀ fuel2, fuel ≤ fuel2 → apple_sio_map_dma as fuel2 ep = some ep1) ∧
    (∀ k base len iov, len ≠ 0 → as.dma_memory_map k base len ep.dir = none →
      map_range as ep.dir (fuel + 1) k base len iov =
        map_range as ep.dir fuel (k + 1) base len iov) ∧
    (∀ k base len iov mem xlen, len ≠ 0 → 0 < xlen →
      as.dma_memory_map k base len ep.dir = some (mem, xlen) →
      len - min xlen len < len ∧
      map_range as ep.dir (fuel + 1) k base len iov =
        map_range as ep.dir fuel (k + 1) ((base + min xlen len) % 2 ^ 64) (len - min xlen len)
          (iov ++ [{ iov_base := mem, iov_len := min xlen len }])) ∧
    (∀ k base len iov, len ≠ 0 →
      (∀ j, k ≤ j → as.dma_memory_map j base len ep.dir = none) →
      map_range as ep.dir fuel k base len iov = none) := by
  refine ⟨?_, ?_, ?_, ?_⟩
  · intro hmap hcount hfuel
    have hsome : ∃ ep1, apple_sio_map_dma as fuel ep = some ep1 ∧ ep1.mapped = true := by
      by_cases hm : ep.mapped = true
      · exact ⟨ep, by simp [apple_sio_map_dma, hm], hm⟩
      · obtain ⟨k1, iov1, h1, -⟩ :=
          map_entries_total as ep.dir fuel hmap (ep.sgl.take ep.count) 0 [] hfuel
        refine ⟨{ ep with iov := iov1, mapped := true, actual_length := 0 }, ?_, rfl⟩
        unfold apple_sio_map_dma
        rw [if_neg hm, if_neg (by omega), h1]
    obtain ⟨ep1, h1, h2⟩ := hsome
    exact ⟨ep1, h1, h2, fun fuel2 hle => apple_sio_map_dma_fuel_le as fuel fuel2 hle ep ep1 h1⟩
  · intro k base len iov hlen hnone
    rw [map_range, if_neg hlen, hnone]
  · intro k base len iov mem xlen hlen hpos hsome
    have hmin : (if xlen > len then len else xlen) = min xlen len := by
      split <;> omega
    refine ⟨by omega, ?_⟩
    rw [map_range, if_neg hlen, hsome]
    simp only [hmin]
  · intro k base len iov hlen hall
    exact map_range_never as ep.dir base len hlen fuel k iov hall

/-- C27 (witness): the two segments of 0x10 and 0x20 bytes are mapped, with
fuel 0x20, against a guest memory that maps every range in one piece.  Against
a guest memory that maps at most 8 bytes per call and fails every third call,
the failed calls are retried and the segments end up mapped in six pieces. -/
theorem map_dma_terminates_witness :
    (∃ ep1, apple_sio_map_dma address_space_two_segments 0x20 unmapped_two_segments_example =
        some ep1 ∧ ep1.mapped = true ∧
      ∀ fuel2, 0x20 ≤ fuel2 →
        apple_sio_map_dma address_space_two_segments fuel2 unmapped_two_segments_example =
          some ep1) ∧
    (apple_sio_map_dma address_space_short_mappings 0x20 unmapped_two_segments_example).map
        (fun ep1 => ep1.iov) =
      some [⟨0x1000, 8⟩, ⟨0x1008, 8⟩, ⟨0x2000, 8⟩, ⟨0x2008, 8⟩, ⟨0x2010, 8⟩, ⟨0x2018, 8⟩] :=
  ⟨(map_dma_terminates address_space_two_segments unmapped_two_segments_example 0x20).1
    (fun _ base len h => ⟨base, len, rfl, h⟩) (by decide) (by decide), by decide⟩
